import Mathlib

/-!
Timeloop: the pruned linear search engine and the topology model.

A shallow embedding of

* `src/search/linear-pruned.hpp` (class `search::LinearPrunedSearch`), and
* `src/model/topology.cpp` (`model::Topology`),

together with theorems about the embedded code.

Conventions.

* A C++ `assert` that fails, an exception (`std::vector::at` out of range) and a
  division by zero are all modelled as the result `none`.
* `uint128_t` and `std::uint64_t` members are natural numbers, with the
  wrap-around of `++` and of `- 1` written out as `% 2^128` and `% 2^64`.
* `double` costs in the search engine are rationals: the engine only compares
  them with `0` and takes `std::min`, and both operations are exact on finite
  values.
* `double` values in the topology (energies, areas, utilization) are IEEE 754
  binary64 values, type `model.Double`: sums, products and quotients are rounded
  to nearest (ties to even), with infinities, NaN and signed zeros.
* The attribute values that `Topology::Validate` reads are natural numbers;
  `unsigned` is 32 bits wide, so a quotient stored in an `unsigned` local is
  taken modulo `2^32`.
-/

namespace Timeloop

/-! ## Search engine: data model -/

namespace mapspace

/-- The four ordinal dimensions of the mapping space (`mapspace::Dimension`). -/
inductive Dimension where
  | IndexFactorization
  | LoopPermutation
  | Spatial
  | DatatypeBypass
  deriving DecidableEq, Repr

/-- The enumerator `mapspace::Dimension::Num`: the number of dimensions. -/
def Dimension.Num : Nat := 4

/-- One unsigned value per dimension: the engine member
`std::array<uint128_t, Dimension::Num> iterator_`, and the values held by a
`mapspace::ID`. -/
structure ID where
  IndexFactorization : Nat
  LoopPermutation : Nat
  Spatial : Nat
  DatatypeBypass : Nat
  deriving DecidableEq, Repr

/-- Read access `a[unsigned(dim)]`. -/
def ID.get (a : ID) : Dimension → Nat
  | .IndexFactorization => a.IndexFactorization
  | .LoopPermutation => a.LoopPermutation
  | .Spatial => a.Spatial
  | .DatatypeBypass => a.DatatypeBypass

/-- Write access `a[unsigned(dim)] = v` (`mapspace::ID::Set`). -/
def ID.Set (a : ID) (dim : Dimension) (v : Nat) : ID :=
  match dim with
  | .IndexFactorization => { a with IndexFactorization := v }
  | .LoopPermutation => { a with LoopPermutation := v }
  | .Spatial => { a with Spatial := v }
  | .DatatypeBypass => { a with DatatypeBypass := v }

/-- Modelled from the spec: the Mapping Space collaborator (`mapspace::MapSpace`,
declared outside the given sources). It "defines the size of each of 4 ordinal
search dimensions and can re-prune itself given a chosen outer-dimension
value". Its only mutation is `InitPruned`, so its state is the list of
`InitPruned` arguments received so far (most recent first) and `Size` is a
function of that history and of the dimension. -/
structure MapSpace where
  Size : List Nat → Dimension → Nat

end mapspace

open mapspace

namespace search

/-- The modulus of `uint128_t`, the number 2^128. -/
def U128 : Nat := 340282366920938463463374607431768211456

/-- The modulus of `std::uint64_t`, the number 2^64. -/
def U64 : Nat := 18446744073709551616

/-- Subtraction `a - b` on `uint128_t`: the difference modulo 2^128, that is
`a - b` when `b ≤ a` and `2^128 - (b - a)` when the subtraction wraps around. -/
def sub128 (a b : Nat) : Nat :=
  if b % U128 ≤ a % U128 then a % U128 - b % U128 else U128 - (b % U128 - a % U128)

/-- The protocol state `LinearPrunedSearch::State`. -/
inductive State where
  | Ready
  | WaitingForStatus
  | Terminated
  deriving DecidableEq, Repr

/-- The feedback `search::Status` given to `Report`. -/
inductive Status where
  | Success
  | MappingConstructionFailure
  | EvalFailure
  deriving DecidableEq, Repr

/-- The members of `LinearPrunedSearch`. The pointer `mapspace_` is modelled by
the state of the mapping space it points to: the history of `InitPruned`
calls, most recent first. -/
structure LinearPrunedSearch where
  mapspace_ : List Nat
  id_ : Nat
  state_ : State
  iterator_ : ID
  valid_mappings_ : Nat
  eval_fail_count_ : Nat
  best_cost_ : ℚ
  deriving DecidableEq

/-- The constructor: state `Ready`, all counters and the cursor zero, and the
mapping space pruned for factorization index 0. -/
def LinearPrunedSearch.new (id : Nat) : LinearPrunedSearch :=
  { mapspace_ := [0]
    id_ := id
    state_ := State.Ready
    iterator_ := ⟨0, 0, 0, 0⟩
    valid_mappings_ := 0
    eval_fail_count_ := 0
    best_cost_ := 0 }

/-- The member `dim_order_`:
`DatatypeBypass <- Spatial <- LoopPermutation <- IndexFactorization`. -/
def dim_order_ : List Dimension :=
  [Dimension.DatatypeBypass, Dimension.Spatial, Dimension.LoopPermutation,
   Dimension.IndexFactorization]

/-- The body of `IncrementRecursive_(position)`, where the first argument is
`dim_order_` from index `position` on (its head is `dim_order_[position]`).
The recursive call moves to the tail and to `position + 1`. -/
def IncrementRecursive_go (ms : MapSpace) :
    List Dimension → Nat → LinearPrunedSearch → Bool × LinearPrunedSearch
  | [], _, s => (false, s)
  | dim :: rest, position, s =>
    if s.iterator_.get dim < sub128 (ms.Size s.mapspace_ dim) 1 then
      -- Move to next integer in this mapspace dimension.
      let s1 := { s with iterator_ := s.iterator_.Set dim ((s.iterator_.get dim + 1) % U128) }
      if dim = Dimension.IndexFactorization then
        -- InitPruned(iterator_[dim]) and reset of the best cost.
        (true, { s1 with mapspace_ := s1.iterator_.get dim :: s1.mapspace_, best_cost_ := 0 })
      else
        (true, s1)
    else if position < Dimension.Num - 1 then
      -- Carry over to next higher-order mapspace dimension.
      IncrementRecursive_go ms rest (position + 1)
        { s with iterator_ := s.iterator_.Set dim 0 }
    else
      -- Overflow.
      (false, s)

/-- The method `IncrementRecursive_(position = 0)`. -/
def IncrementRecursive_ (ms : MapSpace) (s : LinearPrunedSearch) (position : Nat := 0) :
    Bool × LinearPrunedSearch :=
  IncrementRecursive_go ms (dim_order_.drop position) position s

/-- The method `Next(mapping_id)`. The result `none` is the failed assertion
`state_ == Ready`; `some (none, s)` is the return value `false` (the out
parameter is left alone); `some (some id, s)` is the return value `true` with
the identifier written to the out parameter. -/
def Next (s : LinearPrunedSearch) : Option (Option ID × LinearPrunedSearch) :=
  if s.state_ = State.Terminated then
    some (none, s)
  else if s.state_ = State.Ready then
    some (some s.iterator_, { s with state_ := State.WaitingForStatus })
  else
    none

/-- The first part of `Report`: the bookkeeping by status. -/
def Report.bookkeeping (s : LinearPrunedSearch) (status : Status) (cost : ℚ) :
    LinearPrunedSearch :=
  match status with
  | Status.Success =>
    { s with
      valid_mappings_ := (s.valid_mappings_ + 1) % U128
      best_cost_ := if s.best_cost_ = 0 then cost else min s.best_cost_ cost }
  | Status.MappingConstructionFailure => s
  | Status.EvalFailure =>
    { s with eval_fail_count_ := (s.eval_fail_count_ + 1) % U64 }

/-- The second part of `Report`: the pruning check made when the DatatypeBypass
cursor is at `Size(DatatypeBypass) - 1`. -/
def Report.pruningCheck (ms : MapSpace) (s : LinearPrunedSearch) : LinearPrunedSearch :=
  if s.iterator_.get Dimension.DatatypeBypass
      = sub128 (ms.Size s.mapspace_ Dimension.DatatypeBypass) 1 then
    let s1 : LinearPrunedSearch :=
      if s.eval_fail_count_ = ms.Size s.mapspace_ Dimension.DatatypeBypass then
        -- Fast-forward to the end of this index factorization.
        { s with
          iterator_ :=
            (s.iterator_.Set Dimension.Spatial
                (sub128 (ms.Size s.mapspace_ Dimension.Spatial) 1)).Set
              Dimension.LoopPermutation
              (sub128 (ms.Size s.mapspace_ Dimension.LoopPermutation) 1) }
      else s
    { s1 with eval_fail_count_ := 0 }
  else s

/-- The method `Report(status, cost)`: bookkeeping, pruning check, increment of
the cursor and state transition. The result `none` is the failed assertion
`state_ == WaitingForStatus`. -/
def Report (ms : MapSpace) (s : LinearPrunedSearch) (status : Status) (cost : ℚ := 0) :
    Option LinearPrunedSearch :=
  if s.state_ = State.WaitingForStatus then
    let r := IncrementRecursive_ ms (Report.pruningCheck ms (Report.bookkeeping s status cost))
    some { r.2 with state_ := if r.1 then State.Ready else State.Terminated }
  else
    none

/-! ## Search engine: drivers -/

/-- A mapping space whose sizes never change: `nd`, `ns`, `nl`, `nf` are the sizes
of DatatypeBypass, Spatial, LoopPermutation and IndexFactorization. -/
def fixedSpace (nd ns nl nf : Nat) : MapSpace :=
  { Size := fun _ dim =>
      match dim with
      | Dimension.DatatypeBypass => nd
      | Dimension.Spatial => ns
      | Dimension.LoopPermutation => nl
      | Dimension.IndexFactorization => nf }

/-- The driver loop: for each report of the list in turn, call `Next()` and, if it
returned an identifier, `Report` with that status and cost; stop at the first
`Next()` that returns `false`. The result is the list of emitted identifiers,
each with the status reported for it, and the final engine state. -/
def run (ms : MapSpace) :
    List (Status × ℚ) → LinearPrunedSearch → Option (List (ID × Status) × LinearPrunedSearch)
  | [], s => some ([], s)
  | r :: rs, s =>
    match Next s with
    | none => none
    | some (none, s1) => some ([], s1)
    | some (some mapping_id, s1) =>
      match Report ms s1 r.1 r.2 with
      | none => none
      | some s2 =>
        match run ms rs s2 with
        | none => none
        | some (trace, s3) => some ((mapping_id, r.1) :: trace, s3)

/-- A call made by the driver on the engine. -/
inductive Call where
  | next
  | report (status : Status) (cost : ℚ)

/-- Whether the call is `Next()`. -/
def Call.isNext : Call → Bool
  | Call.next => true
  | Call.report _ _ => false

/-- Runs a sequence of calls; `none` as soon as one of them fails its assertion. -/
def exec (ms : MapSpace) : List Call → LinearPrunedSearch → Option LinearPrunedSearch
  | [], s => some s
  | Call.next :: cs, s =>
    match Next s with
    | none => none
    | some (_, s1) => exec ms cs s1
  | Call.report status cost :: cs, s =>
    match Report ms s status cost with
    | none => none
    | some s1 => exec ms cs s1

/-- Calls `Next()` `n` times in a row and collects what each call returned. -/
def NextTimes : Nat → LinearPrunedSearch → Option (List (Option ID) × LinearPrunedSearch)
  | 0, s => some ([], s)
  | n + 1, s =>
    match Next s with
    | none => none
    | some (r, s1) =>
      match NextTimes n s1 with
      | none => none
      | some (rs, s2) => some (r :: rs, s2)

/-- The state a pruning `Report` leaves behind, given the state `s` at the start
of the combination (only the members that the reports inside a combination
leave alone are read). -/
def afterPruning (ms : MapSpace) (s : LinearPrunedSearch) : LinearPrunedSearch :=
  if s.iterator_.IndexFactorization
      < sub128 (ms.Size s.mapspace_ Dimension.IndexFactorization) 1 then
    { s with
      state_ := State.Ready
      iterator_ := ⟨s.iterator_.IndexFactorization + 1, 0, 0, 0⟩
      eval_fail_count_ := 0
      mapspace_ := (s.iterator_.IndexFactorization + 1) :: s.mapspace_
      best_cost_ := 0 }
  else
    { s with
      state_ := State.Terminated
      iterator_ := ⟨s.iterator_.IndexFactorization, 0, 0, 0⟩
      eval_fail_count_ := 0 }


/-- Membership of an identifier in the Cartesian product of the four dimension
sizes `nd`, `ns`, `nl`, `nf` (DatatypeBypass, Spatial, LoopPermutation,
IndexFactorization). -/
def InSpace (nd ns nl nf : Nat) (x : ID) : Prop :=
  x.DatatypeBypass < nd ∧ x.Spatial < ns ∧ x.LoopPermutation < nl ∧ x.IndexFactorization < nf

instance (nd ns nl nf : Nat) (x : ID) : Decidable (InSpace nd ns nl nf x) := by
  unfold InSpace
  infer_instance

/-- Pruning never triggers along a trace: there is no (IndexFactorization,
LoopPermutation, Spatial) combination for which EvalFailure was reported for
every one of its `nd` DatatypeBypass values. -/
def NeverAllFailed (nd : Nat) (trace : List (ID × Status)) : Prop :=
  ∀ f l sp : Nat, ¬ ∀ d, d < nd → ((⟨f, l, sp, d⟩ : ID), Status.EvalFailure) ∈ trace

/-- The position of an identifier in the odometer order, DatatypeBypass fastest. -/
def rank (nd ns nl : Nat) (x : ID) : Nat :=
  ((x.IndexFactorization * nl + x.LoopPermutation) * ns + x.Spatial) * nd + x.DatatypeBypass

/-! ## Search engine: invariants -/

/-- The condition under which the pruning branch of `Report` is taken, read on the
state after the bookkeeping: the DatatypeBypass cursor is at
`Size(DatatypeBypass) - 1` and the failure counter equals
`Size(DatatypeBypass)`. -/
def Report.pruningTriggers (ms : MapSpace) (s : LinearPrunedSearch) : Prop :=
  s.iterator_.get Dimension.DatatypeBypass
      = sub128 (ms.Size s.mapspace_ Dimension.DatatypeBypass) 1 ∧
    s.eval_fail_count_ = ms.Size s.mapspace_ Dimension.DatatypeBypass

/-- The strict lexicographic order on identifiers keyed (IndexFactorization,
LoopPermutation, Spatial, DatatypeBypass). -/
def lexLt (a b : ID) : Prop :=
  a.IndexFactorization < b.IndexFactorization ∨
  (a.IndexFactorization = b.IndexFactorization ∧
    (a.LoopPermutation < b.LoopPermutation ∨
      (a.LoopPermutation = b.LoopPermutation ∧
        (a.Spatial < b.Spatial ∨
          (a.Spatial = b.Spatial ∧ a.DatatypeBypass < b.DatatypeBypass)))))

/-- The number of DatatypeBypass values below the cursor `x` (the values already
visited in the (IndexFactorization, LoopPermutation, Spatial) combination of
`x`) that the trace holds with the status EvalFailure. -/
def failureCount (trace : List (ID × Status)) (x : ID) : Nat :=
  ((List.range x.DatatypeBypass).filter
    (fun d => decide (((⟨x.IndexFactorization, x.LoopPermutation, x.Spatial, d⟩ : ID),
      Status.EvalFailure) ∈ trace))).length

/-- The DatatypeBypass, Spatial and LoopPermutation cursors are at most the value
`Size - 1` that the engine computes for their dimension. -/
def CursorInRange (ms : MapSpace) (s : LinearPrunedSearch) : Prop :=
  s.iterator_.DatatypeBypass ≤ sub128 (ms.Size s.mapspace_ Dimension.DatatypeBypass) 1 ∧
  s.iterator_.Spatial ≤ sub128 (ms.Size s.mapspace_ Dimension.Spatial) 1 ∧
  s.iterator_.LoopPermutation ≤ sub128 (ms.Size s.mapspace_ Dimension.LoopPermutation) 1

end search

namespace model

/-! ## Double-precision arithmetic

The C++ type `double` as IEEE 754 binary64 with the default rounding (to nearest,
ties to even): the operations that `Topology` performs on it are addition,
multiplication, division, the comparison `>=` and the conversion of an unsigned
integer. -/

/-- A value of type `double`: a NaN (sign and payload are not tracked), an infinity
with its sign, or the finite value `(-1)^neg * m * 2^e`. The operations below
return finite values in normal form: `m < 2^53` and `-1074 ≤ e ≤ 971`, with
`2^52 ≤ m` unless `e = -1074`; a zero is `m = 0` (with its sign) at
`e = -1074`. -/
inductive Double where
  | nan
  | inf (neg : Bool)
  | fin (neg : Bool) (m : Nat) (e : Int)
  deriving DecidableEq, Repr

/-- One bisection step of the digit count: `p.1` is what is left of the number after
its `p.2` low digits were dropped; when `p.1` has more than `k` digits, `k`
more are dropped. -/
def bitLengthStep (p : Nat × Nat) (k : Nat) : Nat × Nat :=
  if 2 ^ k ≤ p.1 then (p.1 / 2 ^ k, p.2 + k) else p

/-- The number of binary digits of a number below `2^64` (0 for 0), by bisection. -/
def bitLength64 (n : Nat) : Nat :=
  let p := [32, 16, 8, 4, 2, 1].foldl bitLengthStep (n, 0)
  if p.1 = 0 then 0 else p.2 + 1

/-- The number of binary digits of `n`, counted 64 digits at a time; the first
argument bounds the number of steps. -/
def bitLengthAux : Nat → Nat → Nat
  | 0, _ => 0
  | fuel + 1, n =>
    if n < 2 ^ 64 then bitLength64 n else bitLengthAux fuel (n / 2 ^ 64) + 64

/-- The number of binary digits of `n`: `2^(bitLength n - 1) ≤ n < 2^(bitLength n)`
for `n ≠ 0`. -/
def bitLength (n : Nat) : Nat := bitLengthAux n n

/-- Rounding to `double`: the value nearest to the exact value
`(-1)^neg * m * 2^e`, the one with an even significand when two are equally
near. The unit in the last place is `2^e1`, where `e1` leaves 53 digits to the
significand and is at least `-1074` (gradual underflow); a result of `2^1024`
or more is an infinity. The shifts `m <<< k` and `m >>> k` are `m * 2^k` and
`m / 2^k`. -/
def Double.round (neg : Bool) (m : Nat) (e : Int) : Double :=
  if m = 0 then Double.fin neg 0 (-1074)
  else
    let e1 : Int := max (e + (bitLength m : Int) - 53) (-1074)
    let q : Nat :=
      if e1 ≤ e then m <<< (e - e1).toNat
      else
        let shift := (e1 - e).toNat
        let q0 := m >>> shift
        let r := m - (q0 <<< shift)
        let half := 1 <<< (shift - 1)
        if half < r ∨ (r = half ∧ q0 % 2 = 1) then q0 + 1 else q0
    if q = 2 ^ 53 then
      (if 971 ≤ e1 then Double.inf neg else Double.fin neg (2 ^ 52) (e1 + 1))
    else if 971 < e1 then Double.inf neg
    else Double.fin neg q e1

/-- The conversion of an unsigned integer to `double`. -/
def Double.ofNat (n : Nat) : Double := Double.round false n 0

/-- The integer `(-1)^neg * m`. -/
def Double.signed (neg : Bool) (m : Nat) : Int := if neg then - (m : Int) else (m : Int)

/-- The unary minus of `double`. -/
def Double.neg : Double → Double
  | Double.nan => Double.nan
  | Double.inf s => Double.inf (!s)
  | Double.fin s m e => Double.fin (!s) m e

/-- The addition of `double`: the exact sum, rounded. An exact sum of zero is `+0`
unless both operands are negative (zeros). -/
def Double.add : Double → Double → Double
  | Double.nan, _ => Double.nan
  | _, Double.nan => Double.nan
  | Double.inf s, Double.inf t => if s = t then Double.inf s else Double.nan
  | Double.inf s, Double.fin _ _ _ => Double.inf s
  | Double.fin _ _ _, Double.inf t => Double.inf t
  | Double.fin s m e, Double.fin t n f =>
    let c : Int :=
      Double.signed s (m <<< (e - min e f).toNat) + Double.signed t (n <<< (f - min e f).toNat)
    if c = 0 then Double.fin (s && t) 0 (-1074)
    else Double.round (decide (c < 0)) c.natAbs (min e f)

/-- The multiplication of `double`: the exact product, rounded. -/
def Double.mul : Double → Double → Double
  | Double.nan, _ => Double.nan
  | _, Double.nan => Double.nan
  | Double.inf s, Double.inf t => Double.inf (xor s t)
  | Double.inf s, Double.fin t n _ => if n = 0 then Double.nan else Double.inf (xor s t)
  | Double.fin s m _, Double.inf t => if m = 0 then Double.nan else Double.inf (xor s t)
  | Double.fin s m e, Double.fin t n f => Double.round (xor s t) (m * n) (e + f)

/-- The division of `double`: the exact quotient, rounded. The quotient of the
significands is computed to more than 64 digits, with one more digit that
records whether the division left a remainder. -/
def Double.div : Double → Double → Double
  | Double.nan, _ => Double.nan
  | _, Double.nan => Double.nan
  | Double.inf _, Double.inf _ => Double.nan
  | Double.inf s, Double.fin t _ _ => Double.inf (xor s t)
  | Double.fin s _ _, Double.inf t => Double.fin (xor s t) 0 (-1074)
  | Double.fin s m e, Double.fin t n f =>
    if n = 0 then (if m = 0 then Double.nan else Double.inf (xor s t))
    else
      let k := bitLength n + 64
      let q := (m <<< k) / n
      let sticky := if (m <<< k) % n = 0 then 0 else 1
      Double.round (xor s t) (2 * q + sticky) (e - f - (k : Int) - 1)

/-- The comparison `a <= b` of `double`: false when an operand is a NaN, and the two
zeros compare equal. -/
def Double.le : Double → Double → Bool
  | Double.nan, _ => false
  | _, Double.nan => false
  | Double.inf s, Double.inf t => s || !t
  | Double.inf s, Double.fin _ _ _ => s
  | Double.fin _ _ _, Double.inf t => !t
  | Double.fin s m e, Double.fin t n f =>
    decide (Double.signed s (m <<< (e - min e f).toNat)
      ≤ Double.signed t (n <<< (f - min e f).toNat))

instance : Add Double := ⟨Double.add⟩

instance : Mul Double := ⟨Double.mul⟩

instance : Div Double := ⟨Double.div⟩

instance : Neg Double := ⟨Double.neg⟩

instance : NatCast Double := ⟨Double.ofNat⟩

instance (n : Nat) : OfNat Double n := ⟨Double.ofNat n⟩

/-- The comparisons `a <= b` and `b >= a`. -/
instance : LE Double := ⟨fun a b => Double.le a b = true⟩

/-- The comparison `a < b`: `a <= b` and not `b <= a`. -/
instance : LT Double := ⟨fun a b => Double.le a b = true ∧ Double.le b a = false⟩

instance (a b : Double) : Decidable (a ≤ b) :=
  inferInstanceAs (Decidable (Double.le a b = true))

instance (a b : Double) : Decidable (a < b) :=
  inferInstanceAs (Decidable (Double.le a b = true ∧ Double.le b a = false))

/-! ## Topology: data model -/

/-- Modelled from the spec: the class template `model::Attribute<T>` (declared
outside the given sources), "attributes may be unspecified (optional) until
inferred". An attribute is an optional value: `none` is unspecified,
`IsSpecified()` is `isSome`, and `Get()` of an unspecified value has nothing to
return and is a failure. The values are unsigned integers, taken to be 64 bits
wide like the counters that the levels report (`std::uint64_t`); `Validate`
holds each quotient of two values in an `unsigned` local, see `toUnsigned`. -/
abbrev Attribute := Option Nat

/-- The sharing mode `BufferLevel::DataTypeSharing`. -/
inductive DataTypeSharing where
  | Partitioned
  | Shared
  deriving DecidableEq, Repr

/-- Modelled from the spec: the attributes of `BufferLevel::Specs` that
`Topology::Validate` reads or writes. Each is an array indexed by the datatype
index `pvi`: the indices `0 .. Num - 1` are the datatypes and the index `Num`
(`problem::DataType::Num`) is the single slot of a Shared level. -/
structure BufferLevelSpecs where
  sharing_type : DataTypeSharing
  Instances : Nat → Attribute
  MeshX : Nat → Attribute
  MeshY : Nat → Attribute
  Fanout : Nat → Attribute
  FanoutX : Nat → Attribute
  FanoutY : Nat → Attribute

/-- Modelled from the spec: the attributes of `ArithmeticUnits::Specs` that
`Topology::Validate` reads. -/
structure ArithmeticUnitsSpecs where
  Instances : Attribute
  MeshX : Attribute
  MeshY : Attribute

/-- Modelled from the spec: the class `Topology::Specs` (declared outside the given
sources), "an ordered sequence of LevelSpecs (index 0 reserved for the single
compute level; indices 1..N are storage levels, innermost first) plus two index
maps", with the invariant "exactly one ArithmeticSpecs entry, at index 0;
storage entries are contiguous and ordered innermost to outermost". The two index
maps are resolved: `arithmetic` is the level `GetArithmeticLevel()` returns and
`storage` lists the levels `GetStorageLevel(0)`, `GetStorageLevel(1)`, ... -/
structure TopologySpecs where
  arithmetic : ArithmeticUnitsSpecs
  storage : List BufferLevelSpecs

/-- The accessor `Topology::Specs::NumLevels()`. -/
def TopologySpecs.NumLevels (specs : TopologySpecs) : Nat :=
  1 + specs.storage.length

/-- The accessor `Topology::Specs::NumStorageLevels()`. -/
def TopologySpecs.NumStorageLevels (specs : TopologySpecs) : Nat :=
  specs.storage.length

/-- The accessor `Topology::Specs::GetStorageLevel(storage_level_id)`; `none` is the
exception thrown by `at`. -/
def TopologySpecs.GetStorageLevel (specs : TopologySpecs) (storage_level_id : Nat) :
    Option BufferLevelSpecs :=
  specs.storage[storage_level_id]?

/-- The accessor `Topology::Specs::GetArithmeticLevel()`. -/
def TopologySpecs.GetArithmeticLevel (specs : TopologySpecs) : ArithmeticUnitsSpecs :=
  specs.arithmetic

/-- Modelled from the spec: the accessor `Topology::Specs::StorageMap`, the position
in the level sequence of a storage level ("indices 1..N are storage levels"). -/
def TopologySpecs.StorageMap (_specs : TopologySpecs) (storage_level_id : Nat) : Nat :=
  storage_level_id + 1

/-- Modelled from the spec: the accessor `Topology::Specs::ArithmeticMap`, the
position of the compute level ("index 0 reserved for the single compute
level"). -/
def TopologySpecs.ArithmeticMap (_specs : TopologySpecs) : Nat := 0

/-! ## Topology: `Validate` -/

/-- The first slot of a level, `start_pvi`: `Num` when Shared, 0 when Partitioned. -/
def start_pvi (Num : Nat) (sharing_type : DataTypeSharing) : Nat :=
  match sharing_type with
  | DataTypeSharing.Shared => Num
  | DataTypeSharing.Partitioned => 0

/-- The last slot of a level, `end_pvi`: `Num` when Shared, `Num - 1` when
Partitioned (`Num`, the number of datatypes, is at least 1). -/
def end_pvi (Num : Nat) (sharing_type : DataTypeSharing) : Nat :=
  match sharing_type with
  | DataTypeSharing.Shared => Num
  | DataTypeSharing.Partitioned => Num - 1

/-- The assignment `a(pvi) = v` to one slot of an attribute array. -/
def setSlot (a : Nat → Attribute) (pvi v : Nat) : Nat → Attribute :=
  fun j => if j = pvi then some v else a j

/-- The loop `for (pvi = start; pvi <= end; pvi++) a(pvi) = v`. -/
def setSlots (a : Nat → Attribute) (start end_ v : Nat) : Nat → Attribute :=
  (List.range' start (end_ + 1 - start)).foldl (fun acc pvi => setSlot acc pvi v) a

/-- The number of values of the type `unsigned`, `2^32`. -/
def U32 : Nat := 4294967296

/-- The conversion of an integer value to the type `unsigned`: the value modulo
`2^32`. -/
def toUnsigned (v : Nat) : Nat := v % U32

/-- The statements `assert(a % b == 0); unsigned q = a / b;`: the quotient is held in
an `unsigned` local, and a zero divisor is a failure as well. -/
def unsignedQuotient (a b : Nat) : Option Nat :=
  if b = 0 then none
  else if a % b = 0 then some (toUnsigned (a / b))
  else none

/-- The first part of `Topology::Validate`: the fanout between the compute level
and the innermost storage level. The result is the updated innermost level. -/
def ValidateInnermost (Num : Nat) (arithmetic_specs : ArithmeticUnitsSpecs)
    (inner : BufferLevelSpecs) : Option BufferLevelSpecs :=
  let inner_start_pvi := start_pvi Num inner.sharing_type
  let inner_end_pvi := end_pvi Num inner.sharing_type
  match inner.Instances inner_start_pvi, arithmetic_specs.Instances with
  | some inner_instances, some arithmetic_instances =>
    if inner_instances = arithmetic_instances then
      some { inner with
        FanoutX := setSlots inner.FanoutX inner_start_pvi inner_end_pvi 1
        FanoutY := setSlots inner.FanoutY inner_start_pvi inner_end_pvi 1
        Fanout := setSlots inner.Fanout inner_start_pvi inner_end_pvi 1 }
    else
      -- fanout
      match unsignedQuotient arithmetic_instances inner_instances with
      | none => none
      | some fanout_in =>
        -- fanout x
        match arithmetic_specs.MeshX, inner.MeshX inner_start_pvi with
        | some arithmetic_meshX, some inner_meshX =>
          match unsignedQuotient arithmetic_meshX inner_meshX with
          | none => none
          | some fanoutX_in =>
            -- fanout y
            match arithmetic_specs.MeshY, inner.MeshY inner_start_pvi with
            | some arithmetic_meshY, some inner_meshY =>
              match unsignedQuotient arithmetic_meshY inner_meshY with
              | none => none
              | some fanoutY_in =>
                some { inner with
                  Fanout := setSlots inner.Fanout inner_start_pvi inner_end_pvi fanout_in
                  FanoutX := setSlots inner.FanoutX inner_start_pvi inner_end_pvi fanoutX_in
                  FanoutY := setSlots inner.FanoutY inner_start_pvi inner_end_pvi fanoutY_in }
            | _, _ => none
        | _, _ => none
  | _, _ => none

/-- The statements
`if (a(start).IsSpecified()) assert(a(start).Get() == v); else for (...) a(pvi) = v;`
on one attribute array of the outer level. -/
def checkOrFill (a : Nat → Attribute) (start end_ v : Nat) : Option (Nat → Attribute) :=
  match a start with
  | some specified => if specified = v then some a else none
  | none => some (setSlots a start end_ v)

/-- The body of the loop of `Topology::Validate` for one pair of adjacent storage
levels. The result is the updated outer level. -/
def ValidatePair (Num : Nat) (inner outer : BufferLevelSpecs) : Option BufferLevelSpecs :=
  let inner_start_pvi := start_pvi Num inner.sharing_type
  let outer_start_pvi := start_pvi Num outer.sharing_type
  let outer_end_pvi := end_pvi Num outer.sharing_type
  match inner.Instances inner_start_pvi, outer.Instances outer_start_pvi with
  | some inner_instances, some outer_instances =>
    match unsignedQuotient inner_instances outer_instances with
    | none => none
    | some fanout =>
      match checkOrFill outer.Fanout outer_start_pvi outer_end_pvi fanout with
      | none => none
      | some Fanout1 =>
        match inner.MeshX inner_start_pvi, outer.MeshX outer_start_pvi with
        | some inner_meshX, some outer_meshX =>
          match unsignedQuotient inner_meshX outer_meshX with
          | none => none
          | some fanoutX =>
            match checkOrFill outer.FanoutX outer_start_pvi outer_end_pvi fanoutX with
            | none => none
            | some FanoutX1 =>
              match inner.MeshY inner_start_pvi, outer.MeshY outer_start_pvi with
              | some inner_meshY, some outer_meshY =>
                match unsignedQuotient inner_meshY outer_meshY with
                | none => none
                | some fanoutY =>
                  match checkOrFill outer.FanoutY outer_start_pvi outer_end_pvi fanoutY with
                  | none => none
                  | some FanoutY1 =>
                    -- assert(outer.Fanout == outer.FanoutX * outer.FanoutY), in 64 bits
                    match Fanout1 outer_start_pvi, FanoutX1 outer_start_pvi,
                        FanoutY1 outer_start_pvi with
                    | some f, some fx, some fy =>
                      if f = fx * fy % search.U64 then
                        some { outer with
                          Fanout := Fanout1, FanoutX := FanoutX1, FanoutY := FanoutY1 }
                      else none
                    | _, _, _ => none
              | _, _ => none
        | _, _ => none
  | _, _ => none

/-- The loop `for (i = ...; i < NumStorageLevels() - 1; i++)` of `Topology::Validate`:
`remaining` iterations are left, the next one is for the pair `(i, i + 1)`. -/
def ValidatePairs (Num : Nat) :
    (remaining : Nat) → (i : Nat) → List BufferLevelSpecs → Option (List BufferLevelSpecs)
  | 0, _, storage => some storage
  | remaining + 1, i, storage =>
    match storage[i]?, storage[i + 1]? with
    | some inner, some outer =>
      match ValidatePair Num inner outer with
      | none => none
      | some outer1 => ValidatePairs Num remaining (i + 1) (storage.set (i + 1) outer1)
    | _, _ => none

/-- The function `Topology::Validate(specs)`; `Num` is `problem::DataType::Num`. The
result `none` is a failed assertion (or a thrown exception, or a division by
zero); `some` is the specification as `Validate` leaves it. -/
def Validate (Num : Nat) (specs : TopologySpecs) : Option TopologySpecs :=
  match specs.GetStorageLevel 0 with
  | none => none
  | some inner =>
    match ValidateInnermost Num specs.GetArithmeticLevel inner with
    | none => none
    | some inner1 =>
      match ValidatePairs Num (specs.NumStorageLevels - 1) 0 (specs.storage.set 0 inner1) with
      | none => none
      | some storage1 => some { specs with storage := storage1 }

/-- The pairs of `Validate` processed along the list of storage levels: `inner` is
the level below the first level of the list, as left by the previous
iteration. -/
def validateChain (Num : Nat) :
    BufferLevelSpecs → List BufferLevelSpecs → Option (List BufferLevelSpecs)
  | _, [] => some []
  | inner, outer :: rest =>
    match ValidatePair Num inner outer with
    | none => none
    | some outer1 =>
      match validateChain Num outer1 rest with
      | none => none
      | some rest1 => some (outer1 :: rest1)

/-! ## Topology: levels, evaluation and aggregate metrics -/

/-- Modelled from the spec: a concrete Level object (`model::Level` and its two
kinds, declared outside the given sources), as far as `Topology` queries it:
the values its accessors `Energy()`, `Area()`, `Cycles()`, `AreaPerInstance()`,
`MaxFanout()` and, for the compute level, `IdealCycles()` and `MACCs()` return
in the state the level is in. Energies, areas and the ideal cycle count are
`double` values; cycle counts, fanouts and MACC counts are unsigned integers
(`std::uint64_t`). -/
structure Level where
  Energy : Double
  Area : Double
  Cycles : Nat
  AreaPerInstance : Double
  MaxFanout : Nat
  IdealCycles : Double
  MACCs : Nat
  DistributedMulticastSupported : Bool
  deriving DecidableEq

/-- Modelled from the spec: the operations of the level classes and the data of the
analysis and tiling collaborators that `Topology` calls (all declared outside
the given sources). Tiles, masks and working-set sizes are opaque to
`Topology` and are represented by numbers. An operation on a level returns its
boolean result and the level as the call leaves it. -/
structure Collaborators where
  /-- The constructor `BufferLevel(specs)`. -/
  newBufferLevel : BufferLevelSpecs → Level
  /-- The constructor `ArithmeticUnits(specs)`. -/
  newArithmeticUnits : ArithmeticUnitsSpecs → Level
  /-- The method `BufferLevel::Evaluate(tile, mask, inner_tile_area, compute_cycles)`. -/
  BufferEvaluate : Level → Nat → Nat → Double → Nat → Bool × Level
  /-- The method `BufferLevel::PreEvaluationCheck(working_set_sizes, mask)`. -/
  BufferPreEvaluationCheck : Level → Nat → Nat → Bool × Level
  /-- The method `ArithmeticUnits::HackEvaluate(analysis, workload_config)`. -/
  HackEvaluate : Level → Bool × Level
  /-- The result of `tiling::TransposeTiles(...)`, one tile set per storage level. -/
  tiles : List Nat
  /-- The result of `tiling::TransposeMasks(mapping.datatype_bypass_nest)`. -/
  keep_masks : List Nat
  /-- The result of `analysis->GetWorkingSetSizes_LTW()`. -/
  working_set_sizes : List Nat
  /-- The value `analysis->GetBodyInfo().accesses`. -/
  compute_cycles : Nat

/-- The members of `model::Topology`. -/
structure Topology where
  levels_ : List Level
  specs_ : TopologySpecs
  is_specced_ : Bool
  is_evaluated_ : Bool

/-- Modelled from the spec: the constructor of `Topology` (declared outside the
given sources): no level, neither specced nor evaluated. -/
def Topology.new : Topology :=
  { levels_ := []
    specs_ := { arithmetic := ⟨none, none, none⟩, storage := [] }
    is_specced_ := false
    is_evaluated_ := false }

/-- The method `Topology::Spec(specs)`: the owned levels are discarded and one level
is built per entry of `specs`, the compute level first. -/
def Topology.Spec (env : Collaborators) (specs : TopologySpecs) (t : Topology) : Topology :=
  { t with
    specs_ := specs
    levels_ := env.newArithmeticUnits specs.arithmetic :: specs.storage.map env.newBufferLevel
    is_specced_ := true }

/-- The method `Topology::NumStorageLevels()`; `none` is the failed assertion
`is_specced_`. -/
def Topology.NumStorageLevels (t : Topology) : Option Nat :=
  if t.is_specced_ then some t.specs_.NumStorageLevels else none

/-- The method `Topology::GetStorageLevel(storage_level_id)`; `none` is the exception
thrown by `levels_.at`. -/
def Topology.GetStorageLevel (t : Topology) (storage_level_id : Nat) : Option Level :=
  t.levels_[t.specs_.StorageMap storage_level_id]?

/-- The method `Topology::GetArithmeticLevel()`; `none` is the exception thrown by
`levels_.at`. -/
def Topology.GetArithmeticLevel (t : Topology) : Option Level :=
  t.levels_[t.specs_.ArithmeticMap]?

/-- The result of `PreEvaluationCheck` and of `Evaluate`: the returned boolean, the
topology as the call leaves it, and the calls made on storage levels, in
order: the storage level index and (for `Evaluate`) the inner tile area
passed. -/
structure EvaluationResult where
  success : Bool
  topology : Topology
  calls : List (Nat × Double)

/-- The loop of `Topology::PreEvaluationCheck` over the storage levels, from
`storage_level` on, with `remaining` iterations left. -/
def Topology.PreEvaluationCheckLoop (env : Collaborators) :
    (remaining : Nat) → (storage_level : Nat) → Topology → List (Nat × Double) →
      Option EvaluationResult
  | 0, _, t, calls => some ⟨true, t, calls⟩
  | remaining + 1, storage_level, t, calls =>
    match t.GetStorageLevel storage_level, env.working_set_sizes[storage_level]?,
        env.keep_masks[storage_level]? with
    | some level, some sizes, some mask =>
      let r := env.BufferPreEvaluationCheck level sizes mask
      let t1 : Topology :=
        { t with levels_ := t.levels_.set (t.specs_.StorageMap storage_level) r.2 }
      if r.1 then
        Topology.PreEvaluationCheckLoop env remaining (storage_level + 1) t1
          (calls ++ [(storage_level, 0)])
      else
        some ⟨false, t1, calls ++ [(storage_level, 0)]⟩
    | _, _, _ => none

/-- The method `Topology::PreEvaluationCheck(mapping, analysis)`. The result `none`
is a failed assertion or a thrown exception. -/
def Topology.PreEvaluationCheck (env : Collaborators) (t : Topology) :
    Option EvaluationResult :=
  match t.NumStorageLevels with
  | none => none
  | some n => Topology.PreEvaluationCheckLoop env n 0 t []

/-- The loop of `Topology::Evaluate` over the storage levels, from
`storage_level_id` on, with `remaining` iterations left and the inner tile
area accumulated so far. The update of the inner tile area is computed in
`double`, the fanout being converted from its unsigned integer value; the
product and the sum are each rounded (no fused multiply-add). -/
def Topology.EvaluateLoop (env : Collaborators) :
    (remaining : Nat) → (storage_level_id : Nat) → (inner_tile_area : Double) → Topology →
      List (Nat × Double) → Option EvaluationResult
  | 0, _, _, t, calls => some ⟨true, t, calls⟩
  | remaining + 1, storage_level_id, inner_tile_area, t, calls =>
    match t.GetStorageLevel storage_level_id, env.tiles[storage_level_id]?,
        env.keep_masks[storage_level_id]? with
    | some storage_level, some tile, some mask =>
      let r := env.BufferEvaluate storage_level tile mask inner_tile_area env.compute_cycles
      let t1 : Topology :=
        { t with levels_ := t.levels_.set (t.specs_.StorageMap storage_level_id) r.2 }
      if r.1 then
        let cur_level_area := r.2.AreaPerInstance
        Topology.EvaluateLoop env remaining (storage_level_id + 1)
          (cur_level_area + inner_tile_area * (r.2.MaxFanout : Double)) t1
          (calls ++ [(storage_level_id, inner_tile_area)])
      else
        some ⟨false, t1, calls ++ [(storage_level_id, inner_tile_area)]⟩
    | _, _, _ => none

/-- The method `Topology::Evaluate(mapping, analysis, workload_config)`; `Num` is
`problem::DataType::Num`. The result `none` is a failed assertion or a thrown
exception. -/
def Topology.Evaluate (env : Collaborators) (Num : Nat) (t : Topology) :
    Option EvaluationResult :=
  -- assert(is_specced_)
  if t.is_specced_ then
    let n := t.specs_.NumStorageLevels
    -- the mask of distributed multicast reads every storage level, once per datatype
    if Num ≠ 0 ∧ (List.range n).any (fun i => (t.GetStorageLevel i).isNone) then none
    -- assert(tiles.size() == NumStorageLevels())
    else if env.tiles.length ≠ n then none
    -- assert(keep_masks.size() >= NumStorageLevels())
    else if env.keep_masks.length < n then none
    else
      match t.GetArithmeticLevel with
      | none => none
      | some arithmetic =>
        match Topology.EvaluateLoop env n 0 arithmetic.AreaPerInstance t [] with
        | none => none
        | some r =>
          match r.topology.GetArithmeticLevel with
          | none => none
          | some arithmetic1 =>
            let h := env.HackEvaluate arithmetic1
            let success := r.success && h.1
            some
              { success := success
                topology :=
                  { r.topology with
                    levels_ := r.topology.levels_.set r.topology.specs_.ArithmeticMap h.2
                    is_evaluated_ := if success then true else r.topology.is_evaluated_ }
                calls := r.calls }
  else none

/-- The method `Topology::Energy()`; `none` is the failed assertion
`level->Energy() >= 0`. The energies are accumulated in `double`, in the order
of the levels. -/
def Topology.Energy (t : Topology) : Option Double :=
  t.levels_.foldl
    (fun (energy : Option Double) (level : Level) =>
      match energy with
      | none => none
      | some e => if level.Energy ≥ 0 then some (e + level.Energy) else none)
    (some (0 : Double))

/-- The method `Topology::Area()`; `none` is the failed assertion
`level->Area() >= 0`. The areas are accumulated in `double`, in the order of the
levels. -/
def Topology.Area (t : Topology) : Option Double :=
  t.levels_.foldl
    (fun (area : Option Double) (level : Level) =>
      match area with
      | none => none
      | some a => if level.Area ≥ 0 then some (a + level.Area) else none)
    (some (0 : Double))

/-- The method `Topology::Cycles()`. -/
def Topology.Cycles (t : Topology) : Nat :=
  t.levels_.foldl (fun cycles level => max cycles level.Cycles) 0

/-- The method `Topology::Utilization()`; `none` is the exception thrown by
`levels_.at` in `GetArithmeticLevel()`. The division is the division of
`double`, the cycle count being converted: when `Cycles()` is 0 it yields an
infinity or a NaN. -/
def Topology.Utilization (t : Topology) : Option Double :=
  match t.GetArithmeticLevel with
  | none => none
  | some arithmetic => some (arithmetic.IdealCycles / (t.Cycles : Double))

/-- The method `Topology::MACCs()`; `none` is the exception thrown by `levels_.at` in
`GetArithmeticLevel()`. -/
def Topology.MACCs (t : Topology) : Option Nat :=
  match t.GetArithmeticLevel with
  | none => none
  | some arithmetic => some arithmetic.MACCs

/-! ## Topology: fixtures for concrete runs -/

/-- A level reporting the given energy, area and cycle count. -/
def sampleLevel (energy area : Double) (cycles : Nat) : Level :=
  { Energy := energy
    Area := area
    Cycles := cycles
    AreaPerInstance := area
    MaxFanout := 2
    IdealCycles := 2
    MACCs := 10
    DistributedMulticastSupported := false }

/-- A Shared storage level with the given instance count and meshes and no fanout
specified. -/
def sharedLevel (Num instances meshX meshY : Nat) : BufferLevelSpecs :=
  { sharing_type := DataTypeSharing.Shared
    Instances := fun j => if j = Num then some instances else none
    MeshX := fun j => if j = Num then some meshX else none
    MeshY := fun j => if j = Num then some meshY else none
    Fanout := fun _ => none
    FanoutX := fun _ => none
    FanoutY := fun _ => none }

/-- Collaborators whose storage levels have area 3 and fanout 2, whose compute level
has area 1, and whose level evaluations succeed exactly when the tile is not
0. -/
def sampleCollaborators (tiles : List Nat) : Collaborators :=
  { newBufferLevel := fun _ => sampleLevel 0 3 0
    newArithmeticUnits := fun _ => sampleLevel 0 1 0
    BufferEvaluate := fun level tile _ _ compute_cycles =>
      (tile ≠ 0, { level with Energy := 4, Cycles := compute_cycles })
    BufferPreEvaluationCheck := fun level sizes _ => (sizes ≠ 0, level)
    HackEvaluate := fun level => (true, { level with Energy := 1, Cycles := 5 })
    tiles := tiles
    keep_masks := tiles.map (fun _ => 7)
    working_set_sizes := tiles
    compute_cycles := 9 }

/-- A specification with a compute level of 4 instances (mesh 2 x 2) and two Shared
storage levels of 4 instances and of 1 instance. -/
def sampleSpecs : TopologySpecs :=
  { arithmetic := ⟨some 4, some 2, some 2⟩
    storage := [sharedLevel 3 4 2 2, sharedLevel 3 1 1 1] }

/-- A Shared storage level as `Validate` leaves it: the level `sharedLevel` with the
three fanouts written into its single slot. -/
def validatedLevel (Num instances meshX meshY fanout fanoutX fanoutY : Nat) : BufferLevelSpecs :=
  { sharedLevel Num instances meshX meshY with
    Fanout := setSlots (fun _ => none) Num Num fanout
    FanoutX := setSlots (fun _ => none) Num Num fanoutX
    FanoutY := setSlots (fun _ => none) Num Num fanoutY }

/-- The specification `sampleSpecs` as `Validate` leaves it (with 3 datatypes):
fanout 1 = 1 x 1 below the innermost level, fanout 4 = 2 x 2 between the two
storage levels. -/
def sampleSpecsValidated : TopologySpecs :=
  { arithmetic := ⟨some 4, some 2, some 2⟩
    storage := [validatedLevel 3 4 2 2 1 1 1, validatedLevel 3 1 1 1 4 2 2] }

/-- A specification with a compute level of 4 instances and one Shared storage level
of 4 instances whose fanout is explicitly specified as 5. -/
def specifiedFanoutSpecs : TopologySpecs :=
  { arithmetic := ⟨some 4, some 2, some 2⟩
    storage := [{ sharedLevel 3 4 2 2 with Fanout := fun j => if j = 3 then some 5 else none }] }

/-- A specification whose compute level declares 4 instances on a 4 x 4 mesh, above one
Shared storage level of 1 instance. -/
def inconsistentMeshSpecs : TopologySpecs :=
  { arithmetic := ⟨some 4, some 4, some 4⟩
    storage := [sharedLevel 3 1 1 1] }

/-- A Partitioned storage level with the same instance count and meshes in each of
the `Num` partitions and no fanout specified. -/
def partitionedLevel (Num instances meshX meshY : Nat) : BufferLevelSpecs :=
  { sharing_type := DataTypeSharing.Partitioned
    Instances := fun j => if j < Num then some instances else none
    MeshX := fun j => if j < Num then some meshX else none
    MeshY := fun j => if j < Num then some meshY else none
    Fanout := fun _ => none
    FanoutX := fun _ => none
    FanoutY := fun _ => none }

/-- A specification whose compute level and innermost Shared storage level have
`2^32` instances on a mesh of `2^32` x 1, below a Shared level of 1 instance
with the given specified fanout (if any). -/
def wideSpecs (fanout : Attribute) : TopologySpecs :=
  { arithmetic := ⟨some 4294967296, some 4294967296, some 1⟩
    storage :=
      [sharedLevel 3 4294967296 4294967296 1,
       { sharedLevel 3 1 1 1 with Fanout := fun j => if j = 3 then fanout else none }] }

/-- A specification whose compute level has `2^32` instances on a mesh of
`2^16` x `2^16`, above one Shared storage level of 1 instance. -/
def wideMeshSpecs : TopologySpecs :=
  { arithmetic := ⟨some 4294967296, some 65536, some 65536⟩
    storage := [sharedLevel 3 1 1 1] }

/-- A specification with 3 datatypes whose outer storage level is Partitioned (1
instance, mesh 1 x 1, in every partition) and has its fanout specified as 9
for datatype 1 only, above a Shared level of 4 instances (mesh 2 x 2). -/
def strayFanoutSpecs : TopologySpecs :=
  { arithmetic := ⟨some 4, some 2, some 2⟩
    storage :=
      [sharedLevel 3 4 2 2,
       { partitionedLevel 3 1 1 1 with Fanout := fun j => if j = 1 then some 9 else none }] }

/-- Collaborators whose storage levels have area `10^16` and fanout 1 and whose
compute level has area 1; every level evaluation succeeds. -/
def largeAreaCollaborators : Collaborators :=
  { sampleCollaborators [1, 1] with
    newBufferLevel := fun _ => { sampleLevel 0 10000000000000000 0 with MaxFanout := 1 }
    BufferEvaluate := fun level _ _ _ _ => (true, level) }

end model

namespace search
/-! ## Search engine: auxiliary lemmas -/

theorem sub128_one (n : Nat) (h1 : 1 ≤ n) (h2 : n < U128) : sub128 n 1 = n - 1 := by
  have h1m : 1 % U128 = 1 := by decide
  unfold sub128
  rw [Nat.mod_eq_of_lt h2, h1m, if_pos h1]

theorem sub128_lt (a b : Nat) : sub128 a b < U128 := by
  have ha : a % U128 < U128 := Nat.mod_lt _ (by unfold U128; omega)
  have hb : b % U128 < U128 := Nat.mod_lt _ (by unfold U128; omega)
  unfold sub128
  split <;> omega

theorem succ_mod_of_lt_sub128 (x n : Nat) (h : x < sub128 n 1) : (x + 1) % U128 = x + 1 := by
  have := sub128_lt n 1
  exact Nat.mod_eq_of_lt (by omega)

theorem U64_lt_U128 : U64 < U128 := by decide

theorem IncrementRecursive_eq (ms : MapSpace) (s : LinearPrunedSearch) :
    IncrementRecursive_ ms s =
      if s.iterator_.DatatypeBypass < sub128 (ms.Size s.mapspace_ Dimension.DatatypeBypass) 1 then
        (true, { s with iterator_ :=
          { s.iterator_ with DatatypeBypass := (s.iterator_.DatatypeBypass + 1) % U128 } })
      else if s.iterator_.Spatial < sub128 (ms.Size s.mapspace_ Dimension.Spatial) 1 then
        (true, { s with iterator_ :=
          { s.iterator_ with DatatypeBypass := 0, Spatial := (s.iterator_.Spatial + 1) % U128 } })
      else if s.iterator_.LoopPermutation
          < sub128 (ms.Size s.mapspace_ Dimension.LoopPermutation) 1 then
        (true, { s with iterator_ :=
          { s.iterator_ with
            DatatypeBypass := 0, Spatial := 0
            LoopPermutation := (s.iterator_.LoopPermutation + 1) % U128 } })
      else if s.iterator_.IndexFactorization
          < sub128 (ms.Size s.mapspace_ Dimension.IndexFactorization) 1 then
        (true, { s with
          iterator_ := ⟨(s.iterator_.IndexFactorization + 1) % U128, 0, 0, 0⟩
          mapspace_ := (s.iterator_.IndexFactorization + 1) % U128 :: s.mapspace_
          best_cost_ := 0 })
      else
        (false, { s with iterator_ := ⟨s.iterator_.IndexFactorization, 0, 0, 0⟩ }) := by
  simp only [IncrementRecursive_, dim_order_, List.drop, IncrementRecursive_go, ID.get, ID.Set,
    Dimension.Num]
  split_ifs <;> first | rfl | omega | simp_all

theorem Report_waiting (ms : MapSpace) (s : LinearPrunedSearch) (status : Status) (cost : ℚ)
    (hW : s.state_ = State.WaitingForStatus) :
    Report ms s status cost =
      some { (IncrementRecursive_ ms
                (Report.pruningCheck ms (Report.bookkeeping s status cost))).2 with
        state_ :=
          if (IncrementRecursive_ ms
                (Report.pruningCheck ms (Report.bookkeeping s status cost))).1
          then State.Ready else State.Terminated } := by
  simp only [Report, hW, if_true]

theorem Next_terminated (s : LinearPrunedSearch) (h : s.state_ = State.Terminated) :
    Next s = some (none, s) := by
  simp [Next, h]

theorem Next_ready (s : LinearPrunedSearch) (h : s.state_ = State.Ready) :
    Next s = some (some s.iterator_, { s with state_ := State.WaitingForStatus }) := by
  simp [Next, h]

theorem Report_eq_none_iff (ms : MapSpace) (s : LinearPrunedSearch) (status : Status) (cost : ℚ) :
    Report ms s status cost = none ↔ s.state_ ≠ State.WaitingForStatus := by
  unfold Report
  split <;> simp_all

theorem Next_eq_none_iff (s : LinearPrunedSearch) :
    Next s = none ↔ s.state_ = State.WaitingForStatus := by
  unfold Next
  cases h : s.state_ <;> simp

theorem Report_state (ms : MapSpace) (s s1 : LinearPrunedSearch) (status : Status) (cost : ℚ)
    (h : Report ms s status cost = some s1) :
    s.state_ = State.WaitingForStatus ∧
      (s1.state_ = State.Ready ∨ s1.state_ = State.Terminated) := by
  unfold Report at h
  split at h
  · rename_i hs
    refine ⟨hs, ?_⟩
    simp only [Option.some.injEq] at h
    subst h
    dsimp only
    split <;> simp
  · simp at h

theorem exec_alternates (ms : MapSpace) (calls : List Call) :
    ∀ s s1 : LinearPrunedSearch, exec ms calls s = some s1 → s1.state_ ≠ State.Terminated →
      s.state_ ≠ State.Terminated ∧
      ∀ i (h : i < calls.length),
        ((calls.get ⟨i, h⟩).isNext = true ↔ (i % 2 = 0 ↔ s.state_ = State.Ready)) := by
  induction calls with
  | nil =>
    intro s s1 h hT
    simp only [exec, Option.some.injEq] at h
    subst h
    exact ⟨hT, fun i h => absurd h (by simp)⟩
  | cons c cs ih =>
    intro s s1 h hT
    cases c with
    | next =>
      cases hs : s.state_ with
      | Terminated =>
        rw [exec, Next_terminated s hs] at h
        exact absurd hs (ih s s1 h hT).1
      | WaitingForStatus =>
        rw [exec, (Next_eq_none_iff s).2 hs] at h
        simp at h
      | Ready =>
        have hN : Next s = some (some s.iterator_, { s with state_ := State.WaitingForStatus }) := by
          simp [Next, hs]
        rw [exec, hN] at h
        obtain ⟨-, hi⟩ := ih _ s1 h hT
        refine ⟨by simp, ?_⟩
        intro i hlt
        cases i with
        | zero => simp [Call.isNext]
        | succ j =>
          have := hi j (by simpa using hlt)
          simp only [List.get_eq_getElem, List.getElem_cons_succ] at this ⊢
          rw [this]
          simp only [reduceCtorEq, iff_false, iff_true]
          omega
    | report status cost =>
      cases hR : Report ms s status cost with
      | none => rw [exec, hR] at h; simp at h
      | some s2 =>
        rw [exec, hR] at h
        obtain ⟨hW, hRT⟩ := Report_state ms s s2 status cost hR
        obtain ⟨hnT, hi⟩ := ih s2 s1 h hT
        have hR2 : s2.state_ = State.Ready := by
          rcases hRT with h1 | h1
          · exact h1
          · exact absurd h1 hnT
        refine ⟨by simp [hW], ?_⟩
        intro i hlt
        cases i with
        | zero => simp [Call.isNext, hW]
        | succ j =>
          have := hi j (by simpa using hlt)
          simp only [List.get_eq_getElem, List.getElem_cons_succ] at this ⊢
          rw [this, hR2, hW]
          simp only [reduceCtorEq, iff_false, iff_true]
          omega

/-- An EvalFailure report strictly inside a combination: the DatatypeBypass cursor
and the failure counter both move from `d` to `d + 1`. -/
theorem Report_fail_inner (ms : MapSpace) (s : LinearPrunedSearch) (cost : ℚ)
    (hW : s.state_ = State.WaitingForStatus)
    (hlt : s.iterator_.DatatypeBypass + 1 < ms.Size s.mapspace_ Dimension.DatatypeBypass)
    (h64 : ms.Size s.mapspace_ Dimension.DatatypeBypass < U64)
    (hc : s.eval_fail_count_ = s.iterator_.DatatypeBypass) :
    Report ms s Status.EvalFailure cost =
      some { s with
        state_ := State.Ready
        iterator_ := { s.iterator_ with DatatypeBypass := s.iterator_.DatatypeBypass + 1 }
        eval_fail_count_ := s.iterator_.DatatypeBypass + 1 } := by
  have h128 := U64_lt_U128
  have hs : sub128 (ms.Size s.mapspace_ Dimension.DatatypeBypass) 1
      = ms.Size s.mapspace_ Dimension.DatatypeBypass - 1 :=
    sub128_one _ (by omega) (by omega)
  have hm : (s.iterator_.DatatypeBypass + 1) % U64 = s.iterator_.DatatypeBypass + 1 :=
    Nat.mod_eq_of_lt (by omega)
  have hm2 : (s.iterator_.DatatypeBypass + 1) % U128 = s.iterator_.DatatypeBypass + 1 :=
    Nat.mod_eq_of_lt (by omega)
  have hne : ¬ s.iterator_.DatatypeBypass = ms.Size s.mapspace_ Dimension.DatatypeBypass - 1 := by
    omega
  have hlt2 : s.iterator_.DatatypeBypass < ms.Size s.mapspace_ Dimension.DatatypeBypass - 1 := by
    omega
  rw [Report_waiting ms s _ _ hW]
  simp only [Report.bookkeeping, Report.pruningCheck, ID.get, hs, hne, if_false,
    IncrementRecursive_eq, hlt2, if_true, hc, hm, hm2]

/-- The increment from a cursor whose DatatypeBypass, Spatial and LoopPermutation
components are all at `Size - 1`: the IndexFactorization cursor moves, or the
space is exhausted. -/
theorem IncrementRecursive_at_end (ms : MapSpace) (s : LinearPrunedSearch)
    (hd : s.iterator_.DatatypeBypass = sub128 (ms.Size s.mapspace_ Dimension.DatatypeBypass) 1)
    (hsp : s.iterator_.Spatial = sub128 (ms.Size s.mapspace_ Dimension.Spatial) 1)
    (hl : s.iterator_.LoopPermutation
      = sub128 (ms.Size s.mapspace_ Dimension.LoopPermutation) 1) :
    IncrementRecursive_ ms s =
      if s.iterator_.IndexFactorization
          < sub128 (ms.Size s.mapspace_ Dimension.IndexFactorization) 1 then
        (true, { s with
          iterator_ := ⟨s.iterator_.IndexFactorization + 1, 0, 0, 0⟩
          mapspace_ := (s.iterator_.IndexFactorization + 1) :: s.mapspace_
          best_cost_ := 0 })
      else
        (false, { s with iterator_ := ⟨s.iterator_.IndexFactorization, 0, 0, 0⟩ }) := by
  rw [IncrementRecursive_eq]
  rw [if_neg (by rw [hd]; exact lt_irrefl _), if_neg (by rw [hsp]; exact lt_irrefl _),
    if_neg (by rw [hl]; exact lt_irrefl _)]
  by_cases hf : s.iterator_.IndexFactorization
      < sub128 (ms.Size s.mapspace_ Dimension.IndexFactorization) 1
  · rw [if_pos hf, if_pos hf, succ_mod_of_lt_sub128 _ _ hf]
  · rw [if_neg hf, if_neg hf]

/-- The pruning check when it triggers. -/
theorem pruningCheck_triggered (ms : MapSpace) (s : LinearPrunedSearch)
    (hd : s.iterator_.DatatypeBypass = sub128 (ms.Size s.mapspace_ Dimension.DatatypeBypass) 1)
    (hc : s.eval_fail_count_ = ms.Size s.mapspace_ Dimension.DatatypeBypass) :
    Report.pruningCheck ms s =
      { s with
        iterator_ := ⟨s.iterator_.IndexFactorization,
          sub128 (ms.Size s.mapspace_ Dimension.LoopPermutation) 1,
          sub128 (ms.Size s.mapspace_ Dimension.Spatial) 1,
          s.iterator_.DatatypeBypass⟩
        eval_fail_count_ := 0 } := by
  unfold Report.pruningCheck
  rw [if_pos (by exact hd), if_pos hc]
  rfl

/-- A `Report` whose pruning check triggers, after bookkeeping has produced `s1`. -/
theorem Report_pruned (ms : MapSpace) (s : LinearPrunedSearch) (status : Status) (cost : ℚ)
    (hW : s.state_ = State.WaitingForStatus)
    (hd : (Report.bookkeeping s status cost).iterator_.DatatypeBypass
      = sub128 (ms.Size (Report.bookkeeping s status cost).mapspace_ Dimension.DatatypeBypass) 1)
    (hc : (Report.bookkeeping s status cost).eval_fail_count_
      = ms.Size (Report.bookkeeping s status cost).mapspace_ Dimension.DatatypeBypass) :
    Report ms s status cost =
      some (if s.iterator_.IndexFactorization
              < sub128 (ms.Size s.mapspace_ Dimension.IndexFactorization) 1 then
        { Report.bookkeeping s status cost with
          state_ := State.Ready
          iterator_ := ⟨s.iterator_.IndexFactorization + 1, 0, 0, 0⟩
          eval_fail_count_ := 0
          mapspace_ := (s.iterator_.IndexFactorization + 1) :: s.mapspace_
          best_cost_ := 0 }
      else
        { Report.bookkeeping s status cost with
          state_ := State.Terminated
          iterator_ := ⟨s.iterator_.IndexFactorization, 0, 0, 0⟩
          eval_fail_count_ := 0 }) := by
  have hit : (Report.bookkeeping s status cost).iterator_ = s.iterator_ := by
    cases status <;> rfl
  have hms : (Report.bookkeeping s status cost).mapspace_ = s.mapspace_ := by
    cases status <;> rfl
  have hinc := IncrementRecursive_at_end ms
    { Report.bookkeeping s status cost with
      iterator_ := ⟨(Report.bookkeeping s status cost).iterator_.IndexFactorization,
        sub128 (ms.Size (Report.bookkeeping s status cost).mapspace_
          Dimension.LoopPermutation) 1,
        sub128 (ms.Size (Report.bookkeeping s status cost).mapspace_ Dimension.Spatial) 1,
        (Report.bookkeeping s status cost).iterator_.DatatypeBypass⟩
      eval_fail_count_ := 0 } hd rfl rfl
  rw [Report_waiting ms s _ _ hW, pruningCheck_triggered ms _ hd hc, hinc]
  simp only [hit, hms]
  by_cases hf : s.iterator_.IndexFactorization
      < sub128 (ms.Size s.mapspace_ Dimension.IndexFactorization) 1
  · simp only [if_pos hf, if_true]
  · simp only [if_neg hf, if_false, Bool.false_eq_true]

/-- The EvalFailure report that completes a combination whose every DatatypeBypass
value failed: the pruning branch is taken and the cursor leaves the current
IndexFactorization value, or the engine terminates. -/
theorem Report_fail_last (ms : MapSpace) (s : LinearPrunedSearch) (cost : ℚ)
    (hW : s.state_ = State.WaitingForStatus)
    (hlast : s.iterator_.DatatypeBypass + 1 = ms.Size s.mapspace_ Dimension.DatatypeBypass)
    (h64 : ms.Size s.mapspace_ Dimension.DatatypeBypass < U64)
    (hc : s.eval_fail_count_ = s.iterator_.DatatypeBypass) :
    Report ms s Status.EvalFailure cost =
      some (if s.iterator_.IndexFactorization
              < sub128 (ms.Size s.mapspace_ Dimension.IndexFactorization) 1 then
        { s with
          state_ := State.Ready
          iterator_ := ⟨s.iterator_.IndexFactorization + 1, 0, 0, 0⟩
          eval_fail_count_ := 0
          mapspace_ := (s.iterator_.IndexFactorization + 1) :: s.mapspace_
          best_cost_ := 0 }
      else
        { s with
          state_ := State.Terminated
          iterator_ := ⟨s.iterator_.IndexFactorization, 0, 0, 0⟩
          eval_fail_count_ := 0 }) := by
  have h128 := U64_lt_U128
  have hs : s.iterator_.DatatypeBypass
      = sub128 (ms.Size s.mapspace_ Dimension.DatatypeBypass) 1 := by
    rw [sub128_one _ (by omega) (by omega)]; omega
  have hm : (s.eval_fail_count_ + 1) % U64
      = ms.Size s.mapspace_ Dimension.DatatypeBypass := by
    rw [hc, Nat.mod_eq_of_lt (by omega)]; exact hlast
  rw [Report_pruned ms s Status.EvalFailure cost hW hs hm]
  rfl
/-! ### What a `Report` changes -/

/-- The increment either leaves the IndexFactorization cursor, the pruning
history and the best cost alone, or moves the IndexFactorization cursor by
one, prunes the mapping space for the new value and resets the best cost. -/
theorem IncrementRecursive_factorization (ms : MapSpace) (p : LinearPrunedSearch) :
    ((IncrementRecursive_ ms p).2.iterator_.IndexFactorization = p.iterator_.IndexFactorization ∧
      (IncrementRecursive_ ms p).2.mapspace_ = p.mapspace_ ∧
      (IncrementRecursive_ ms p).2.best_cost_ = p.best_cost_) ∨
    ((IncrementRecursive_ ms p).1 = true ∧
      p.iterator_.IndexFactorization
        < sub128 (ms.Size p.mapspace_ Dimension.IndexFactorization) 1 ∧
      (IncrementRecursive_ ms p).2.iterator_ = ⟨p.iterator_.IndexFactorization + 1, 0, 0, 0⟩ ∧
      (IncrementRecursive_ ms p).2.mapspace_ = (p.iterator_.IndexFactorization + 1) :: p.mapspace_ ∧
      (IncrementRecursive_ ms p).2.best_cost_ = 0) := by
  rw [IncrementRecursive_eq]
  by_cases h1 : p.iterator_.DatatypeBypass
      < sub128 (ms.Size p.mapspace_ Dimension.DatatypeBypass) 1
  · rw [if_pos h1]; exact Or.inl ⟨rfl, rfl, rfl⟩
  · rw [if_neg h1]
    by_cases h2 : p.iterator_.Spatial < sub128 (ms.Size p.mapspace_ Dimension.Spatial) 1
    · rw [if_pos h2]; exact Or.inl ⟨rfl, rfl, rfl⟩
    · rw [if_neg h2]
      by_cases h3 : p.iterator_.LoopPermutation
          < sub128 (ms.Size p.mapspace_ Dimension.LoopPermutation) 1
      · rw [if_pos h3]; exact Or.inl ⟨rfl, rfl, rfl⟩
      · rw [if_neg h3]
        by_cases h4 : p.iterator_.IndexFactorization
            < sub128 (ms.Size p.mapspace_ Dimension.IndexFactorization) 1
        · rw [if_pos h4, succ_mod_of_lt_sub128 _ _ h4]
          exact Or.inr ⟨rfl, h4, rfl, rfl, rfl⟩
        · rw [if_neg h4]; exact Or.inl ⟨rfl, rfl, rfl⟩

/-- The increment leaves the counters and the identifier of the engine alone. -/
theorem IncrementRecursive_frame (ms : MapSpace) (p : LinearPrunedSearch) :
    (IncrementRecursive_ ms p).2.valid_mappings_ = p.valid_mappings_ ∧
    (IncrementRecursive_ ms p).2.eval_fail_count_ = p.eval_fail_count_ ∧
    (IncrementRecursive_ ms p).2.id_ = p.id_ := by
  rw [IncrementRecursive_eq]
  split_ifs <;> exact ⟨rfl, rfl, rfl⟩

/-- The pruning check only writes the Spatial and LoopPermutation cursors and
the failure counter. -/
theorem pruningCheck_frame (ms : MapSpace) (s : LinearPrunedSearch) :
    (Report.pruningCheck ms s).mapspace_ = s.mapspace_ ∧
    (Report.pruningCheck ms s).iterator_.IndexFactorization = s.iterator_.IndexFactorization ∧
    (Report.pruningCheck ms s).iterator_.DatatypeBypass = s.iterator_.DatatypeBypass ∧
    (Report.pruningCheck ms s).best_cost_ = s.best_cost_ ∧
    (Report.pruningCheck ms s).valid_mappings_ = s.valid_mappings_ := by
  unfold Report.pruningCheck
  split_ifs <;> exact ⟨rfl, rfl, rfl, rfl, rfl⟩

/-- The bookkeeping leaves the cursor and the pruning history alone. -/
theorem bookkeeping_frame (s : LinearPrunedSearch) (status : Status) (cost : ℚ) :
    (Report.bookkeeping s status cost).mapspace_ = s.mapspace_ ∧
    (Report.bookkeeping s status cost).iterator_ = s.iterator_ ∧
    (Report.bookkeeping s status cost).state_ = s.state_ := by
  cases status <;> exact ⟨rfl, rfl, rfl⟩

/-- What a `Report` does to the IndexFactorization cursor, to the pruning history
and to the best cost. -/
theorem Report_factorization (ms : MapSpace) (s s1 : LinearPrunedSearch) (status : Status)
    (cost : ℚ) (h : Report ms s status cost = some s1) :
    (s1.iterator_.IndexFactorization = s.iterator_.IndexFactorization ∧
      s1.mapspace_ = s.mapspace_ ∧
      s1.best_cost_ = (Report.bookkeeping s status cost).best_cost_) ∨
    (s1.state_ = State.Ready ∧
      s.iterator_.IndexFactorization
        < sub128 (ms.Size s.mapspace_ Dimension.IndexFactorization) 1 ∧
      s1.iterator_ = ⟨s.iterator_.IndexFactorization + 1, 0, 0, 0⟩ ∧
      s1.mapspace_ = (s.iterator_.IndexFactorization + 1) :: s.mapspace_ ∧
      s1.best_cost_ = 0) := by
  have hW := (Report_state ms s s1 status cost h).1
  rw [Report_waiting ms s status cost hW] at h
  simp only [Option.some.injEq] at h
  subst h
  obtain ⟨hp1, hp2, -, hp4, -⟩ :=
    pruningCheck_frame ms (Report.bookkeeping s status cost)
  obtain ⟨hb1, hb2, -⟩ := bookkeeping_frame s status cost
  rcases IncrementRecursive_factorization ms
      (Report.pruningCheck ms (Report.bookkeeping s status cost)) with
    ⟨h1, h2, h3⟩ | ⟨h0, h1, h2, h3, h4⟩
  · left
    exact ⟨by rw [← hb2, ← hp2]; exact h1, by rw [← hb1, ← hp1]; exact h2,
      by rw [← hp4]; exact h3⟩
  · right
    rw [hp1, hp2, hb1, hb2] at h1
    rw [hp2, hb2] at h2
    rw [hp1, hp2, hb1, hb2] at h3
    exact ⟨by simp only [h0, if_true], h1, h2, h3, h4⟩

/-- Unfolding of one round of the driver from a Ready state. -/
theorem run_cons_ready (ms : MapSpace) (r : Status × ℚ) (rs : List (Status × ℚ))
    (s : LinearPrunedSearch) (hR : s.state_ = State.Ready) :
    ∃ s2, Report ms { s with state_ := State.WaitingForStatus } r.1 r.2 = some s2 ∧
      run ms (r :: rs) s =
        (match run ms rs s2 with
          | none => none
          | some (trace, s3) => some ((s.iterator_, r.1) :: trace, s3)) := by
  have hW : ({ s with state_ := State.WaitingForStatus } : LinearPrunedSearch).state_
      = State.WaitingForStatus := rfl
  refine ⟨_, Report_waiting ms _ r.1 r.2 hW, ?_⟩
  rw [run, Next_ready s hR]
  simp only [Report_waiting ms _ r.1 r.2 hW]

/-- From a Terminated state the driver emits nothing. -/
theorem run_terminated (ms : MapSpace) (rs : List (Status × ℚ)) (s : LinearPrunedSearch)
    (hT : s.state_ = State.Terminated) : run ms rs s = some ([], s) := by
  cases rs with
  | nil => rfl
  | cons r rs => rw [run, Next_terminated s hT]

/-- The driver never fails from a state that is not WaitingForStatus. -/
theorem run_total (ms : MapSpace) (rs : List (Status × ℚ)) :
    ∀ s : LinearPrunedSearch, s.state_ ≠ State.WaitingForStatus →
      ∃ trace s1, run ms rs s = some (trace, s1) := by
  induction rs with
  | nil => intro s _; exact ⟨[], s, rfl⟩
  | cons r rs ih =>
    intro s hs
    cases hst : s.state_ with
    | WaitingForStatus => exact absurd hst hs
    | Terminated => exact ⟨[], s, run_terminated ms _ s hst⟩
    | Ready =>
      obtain ⟨s2, hRep, hrun⟩ := run_cons_ready ms r rs s hst
      have h2 : s2.state_ ≠ State.WaitingForStatus := by
        rcases (Report_state ms _ s2 r.1 r.2 hRep).2 with h | h <;> rw [h] <;> decide
      obtain ⟨trace, s3, h3⟩ := ih s2 h2
      exact ⟨_, s3, by rw [hrun, h3]⟩

theorem mixed_radix_inj (a b a1 b1 n : Nat) (hb : b < n) (hb1 : b1 < n)
    (h : a * n + b = a1 * n + b1) : a = a1 ∧ b = b1 := by
  have key : a = a1 := by
    rcases Nat.lt_trichotomy a a1 with hlt | heq | hgt
    · have := Nat.mul_le_mul_right n (Nat.succ_le_of_lt hlt)
      rw [Nat.succ_mul] at this
      omega
    · exact heq
    · have := Nat.mul_le_mul_right n (Nat.succ_le_of_lt hgt)
      rw [Nat.succ_mul] at this
      omega
  subst key
  exact ⟨rfl, by omega⟩

theorem rank_inj (nd ns nl nf : Nat) (x y : ID) (hx : InSpace nd ns nl nf x)
    (hy : InSpace nd ns nl nf y) (h : rank nd ns nl x = rank nd ns nl y) : x = y := by
  obtain ⟨hx1, hx2, hx3, -⟩ := hx
  obtain ⟨hy1, hy2, hy3, -⟩ := hy
  unfold rank at h
  obtain ⟨h1, h2⟩ := mixed_radix_inj _ _ _ _ nd hx1 hy1 h
  obtain ⟨h3, h4⟩ := mixed_radix_inj _ _ _ _ ns hx2 hy2 h1
  obtain ⟨h5, h6⟩ := mixed_radix_inj _ _ _ _ nl hx3 hy3 h3
  cases x; cases y
  simp only at h2 h4 h5 h6
  subst h2 h4 h5 h6
  rfl

theorem rank_lt (nd ns nl nf : Nat) (x : ID) (hx : InSpace nd ns nl nf x) :
    rank nd ns nl x < nd * ns * nl * nf := by
  obtain ⟨h1, h2, h3, h4⟩ := hx
  unfold rank
  have e1 : x.IndexFactorization * nl + x.LoopPermutation + 1 ≤ nf * nl := by
    have := Nat.mul_le_mul_right nl (Nat.succ_le_of_lt h4)
    rw [Nat.succ_mul] at this
    omega
  have e2 : (x.IndexFactorization * nl + x.LoopPermutation) * ns + x.Spatial + 1
      ≤ nf * nl * ns := by
    have := Nat.mul_le_mul_right ns e1
    rw [Nat.succ_mul] at this
    omega
  have e3 : ((x.IndexFactorization * nl + x.LoopPermutation) * ns + x.Spatial) * nd
      + x.DatatypeBypass + 1 ≤ nf * nl * ns * nd := by
    have := Nat.mul_le_mul_right nd e2
    rw [Nat.succ_mul] at this
    omega
  have e4 : nf * nl * ns * nd = nd * ns * nl * nf := by ring
  omega

theorem rank_carry_spatial (nd ns nl : Nat) (x : ID) (h : x.DatatypeBypass + 1 = nd) :
    rank nd ns nl ⟨x.IndexFactorization, x.LoopPermutation, x.Spatial + 1, 0⟩
      = rank nd ns nl x + 1 := by
  unfold rank
  subst h
  simp only
  ring

theorem rank_carry_permutation (nd ns nl : Nat) (x : ID) (h : x.DatatypeBypass + 1 = nd)
    (h2 : x.Spatial + 1 = ns) :
    rank nd ns nl ⟨x.IndexFactorization, x.LoopPermutation + 1, 0, 0⟩
      = rank nd ns nl x + 1 := by
  unfold rank
  subst h h2
  simp only
  ring

theorem rank_carry_factorization (nd ns nl : Nat) (x : ID) (h : x.DatatypeBypass + 1 = nd)
    (h2 : x.Spatial + 1 = ns) (h3 : x.LoopPermutation + 1 = nl) :
    rank nd ns nl ⟨x.IndexFactorization + 1, 0, 0, 0⟩ = rank nd ns nl x + 1 := by
  unfold rank
  subst h h2 h3
  simp only
  ring

theorem rank_last (nd ns nl nf : Nat) (x : ID) (h : x.DatatypeBypass + 1 = nd)
    (h2 : x.Spatial + 1 = ns) (h3 : x.LoopPermutation + 1 = nl)
    (h4 : x.IndexFactorization + 1 = nf) :
    rank nd ns nl x + 1 = nd * ns * nl * nf := by
  unfold rank
  subst h h2 h3 h4
  ring

theorem pruningCheck_inner (ms : MapSpace) (s : LinearPrunedSearch)
    (h : ¬ s.iterator_.DatatypeBypass
      = sub128 (ms.Size s.mapspace_ Dimension.DatatypeBypass) 1) :
    Report.pruningCheck ms s = s := by
  unfold Report.pruningCheck
  rw [if_neg (show ¬ s.iterator_.get Dimension.DatatypeBypass
      = sub128 (ms.Size s.mapspace_ Dimension.DatatypeBypass) 1 from h)]

theorem pruningCheck_not_triggered (ms : MapSpace) (s : LinearPrunedSearch)
    (h : s.iterator_.DatatypeBypass = sub128 (ms.Size s.mapspace_ Dimension.DatatypeBypass) 1)
    (hc : ¬ s.eval_fail_count_ = ms.Size s.mapspace_ Dimension.DatatypeBypass) :
    Report.pruningCheck ms s = { s with eval_fail_count_ := 0 } := by
  unfold Report.pruningCheck
  rw [if_pos (show s.iterator_.get Dimension.DatatypeBypass
      = sub128 (ms.Size s.mapspace_ Dimension.DatatypeBypass) 1 from h), if_neg hc]
/-- The increment over a mapping space of fixed sizes, each a positive
`uint128_t` value. -/
theorem IncrementRecursive_fixed (nd ns nl nf : Nat)
    (hd1 : 1 ≤ nd) (hd2 : nd < U128) (hs1 : 1 ≤ ns) (hs2 : ns < U128)
    (hl1 : 1 ≤ nl) (hl2 : nl < U128) (hf1 : 1 ≤ nf) (hf2 : nf < U128)
    (p : LinearPrunedSearch) :
    IncrementRecursive_ (fixedSpace nd ns nl nf) p =
      if p.iterator_.DatatypeBypass + 1 < nd then
        (true, { p with iterator_ :=
          { p.iterator_ with DatatypeBypass := p.iterator_.DatatypeBypass + 1 } })
      else if p.iterator_.Spatial + 1 < ns then
        (true, { p with iterator_ :=
          ⟨p.iterator_.IndexFactorization, p.iterator_.LoopPermutation,
            p.iterator_.Spatial + 1, 0⟩ })
      else if p.iterator_.LoopPermutation + 1 < nl then
        (true, { p with iterator_ :=
          ⟨p.iterator_.IndexFactorization, p.iterator_.LoopPermutation + 1, 0, 0⟩ })
      else if p.iterator_.IndexFactorization + 1 < nf then
        (true, { p with
          iterator_ := ⟨p.iterator_.IndexFactorization + 1, 0, 0, 0⟩
          mapspace_ := (p.iterator_.IndexFactorization + 1) :: p.mapspace_
          best_cost_ := 0 })
      else
        (false, { p with iterator_ := ⟨p.iterator_.IndexFactorization, 0, 0, 0⟩ }) := by
  rw [IncrementRecursive_eq]
  have ed : sub128 ((fixedSpace nd ns nl nf).Size p.mapspace_ Dimension.DatatypeBypass) 1
      = nd - 1 := sub128_one nd hd1 hd2
  have es : sub128 ((fixedSpace nd ns nl nf).Size p.mapspace_ Dimension.Spatial) 1
      = ns - 1 := sub128_one ns hs1 hs2
  have el : sub128 ((fixedSpace nd ns nl nf).Size p.mapspace_ Dimension.LoopPermutation) 1
      = nl - 1 := sub128_one nl hl1 hl2
  have ef : sub128 ((fixedSpace nd ns nl nf).Size p.mapspace_ Dimension.IndexFactorization) 1
      = nf - 1 := sub128_one nf hf1 hf2
  rw [ed, es, el, ef]
  by_cases c1 : p.iterator_.DatatypeBypass + 1 < nd
  · rw [if_pos c1, if_pos (by omega), Nat.mod_eq_of_lt (by omega)]
  · rw [if_neg c1, if_neg (by omega)]
    by_cases c2 : p.iterator_.Spatial + 1 < ns
    · rw [if_pos c2, if_pos (by omega), Nat.mod_eq_of_lt (by omega)]
    · rw [if_neg c2, if_neg (by omega)]
      by_cases c3 : p.iterator_.LoopPermutation + 1 < nl
      · rw [if_pos c3, if_pos (by omega), Nat.mod_eq_of_lt (by omega)]
      · rw [if_neg c3, if_neg (by omega)]
        by_cases c4 : p.iterator_.IndexFactorization + 1 < nf
        · rw [if_pos c4, if_pos (by omega), Nat.mod_eq_of_lt (by omega)]
        · rw [if_neg c4, if_neg (by omega)]

/-- A `Report` whose pruning check does not trigger, over fixed sizes and from a
cursor inside the space: the cursor moves to its successor in the odometer
order, or the engine terminates at the last identifier. -/
theorem Report_noprune (nd ns nl nf : Nat)
    (hd1 : 1 ≤ nd) (hd2 : nd < U128) (hs1 : 1 ≤ ns) (hs2 : ns < U128)
    (hl1 : 1 ≤ nl) (hl2 : nl < U128) (hf1 : 1 ≤ nf) (hf2 : nf < U128)
    (s : LinearPrunedSearch) (status : Status) (cost : ℚ)
    (hW : s.state_ = State.WaitingForStatus)
    (hin : InSpace nd ns nl nf s.iterator_)
    (hno : ¬ (s.iterator_.DatatypeBypass + 1 = nd ∧
      (Report.bookkeeping s status cost).eval_fail_count_ = nd)) :
    ∃ s2, Report (fixedSpace nd ns nl nf) s status cost = some s2 ∧
      ((s.iterator_.DatatypeBypass + 1 < nd ∧ s2.state_ = State.Ready ∧
          s2.iterator_ =
            { s.iterator_ with DatatypeBypass := s.iterator_.DatatypeBypass + 1 } ∧
          s2.eval_fail_count_ = (Report.bookkeeping s status cost).eval_fail_count_) ∨
        (s.iterator_.DatatypeBypass + 1 = nd ∧ s2.state_ = State.Ready ∧
          InSpace nd ns nl nf s2.iterator_ ∧ s2.iterator_.DatatypeBypass = 0 ∧
          s2.eval_fail_count_ = 0 ∧
          rank nd ns nl s2.iterator_ = rank nd ns nl s.iterator_ + 1) ∨
        (s.iterator_.DatatypeBypass + 1 = nd ∧ s2.state_ = State.Terminated ∧
          rank nd ns nl s.iterator_ + 1 = nd * ns * nl * nf)) := by
  obtain ⟨hb1, hb2, -⟩ := bookkeeping_frame s status cost
  obtain ⟨i1, i2, i3, i4⟩ := hin
  rw [Report_waiting _ s status cost hW]
  generalize Report.bookkeeping s status cost = b at *
  refine ⟨_, rfl, ?_⟩
  have ed : sub128 ((fixedSpace nd ns nl nf).Size b.mapspace_ Dimension.DatatypeBypass) 1
      = nd - 1 := sub128_one nd hd1 hd2
  by_cases c1 : s.iterator_.DatatypeBypass + 1 < nd
  · left
    have hp : Report.pruningCheck (fixedSpace nd ns nl nf) b = b :=
      pruningCheck_inner _ b (by rw [ed, hb2]; omega)
    rw [hp, IncrementRecursive_fixed nd ns nl nf hd1 hd2 hs1 hs2 hl1 hl2 hf1 hf2,
      if_pos (by rw [hb2]; exact c1)]
    refine ⟨c1, rfl, ?_, rfl⟩
    show ({ b.iterator_ with DatatypeBypass := b.iterator_.DatatypeBypass + 1 } : ID) = _
    rw [hb2]
  · right
    have hlast : s.iterator_.DatatypeBypass + 1 = nd := by omega
    have hp : Report.pruningCheck (fixedSpace nd ns nl nf) b = { b with eval_fail_count_ := 0 } :=
      pruningCheck_not_triggered _ b (by rw [ed, hb2]; omega)
        (fun h => hno ⟨hlast, h⟩)
    rw [hp, IncrementRecursive_fixed nd ns nl nf hd1 hd2 hs1 hs2 hl1 hl2 hf1 hf2]
    have q1 : ¬ ({ b with eval_fail_count_ := 0 } : LinearPrunedSearch).iterator_.DatatypeBypass
        + 1 < nd := by
      show ¬ b.iterator_.DatatypeBypass + 1 < nd
      rw [hb2]; exact c1
    rw [if_neg q1]
    by_cases c2 : s.iterator_.Spatial + 1 < ns
    · left
      have q2 : ({ b with eval_fail_count_ := 0 } : LinearPrunedSearch).iterator_.Spatial
          + 1 < ns := by
        show b.iterator_.Spatial + 1 < ns
        rw [hb2]; exact c2
      rw [if_pos q2]
      refine ⟨hlast, rfl, ?_, rfl, rfl, ?_⟩
      · show InSpace nd ns nl nf ⟨b.iterator_.IndexFactorization, b.iterator_.LoopPermutation,
          b.iterator_.Spatial + 1, 0⟩
        rw [hb2]
        exact ⟨hd1, c2, i3, i4⟩
      · show rank nd ns nl ⟨b.iterator_.IndexFactorization, b.iterator_.LoopPermutation,
          b.iterator_.Spatial + 1, 0⟩ = _
        rw [hb2]
        exact rank_carry_spatial nd ns nl s.iterator_ hlast
    · have q2 : ¬ ({ b with eval_fail_count_ := 0 } : LinearPrunedSearch).iterator_.Spatial
          + 1 < ns := by
        show ¬ b.iterator_.Spatial + 1 < ns
        rw [hb2]; exact c2
      rw [if_neg q2]
      have hlast2 : s.iterator_.Spatial + 1 = ns := by omega
      by_cases c3 : s.iterator_.LoopPermutation + 1 < nl
      · left
        have q3 : ({ b with eval_fail_count_ := 0 } : LinearPrunedSearch).iterator_.LoopPermutation
            + 1 < nl := by
          show b.iterator_.LoopPermutation + 1 < nl
          rw [hb2]; exact c3
        rw [if_pos q3]
        refine ⟨hlast, rfl, ?_, rfl, rfl, ?_⟩
        · show InSpace nd ns nl nf ⟨b.iterator_.IndexFactorization,
            b.iterator_.LoopPermutation + 1, 0, 0⟩
          rw [hb2]
          exact ⟨hd1, hs1, c3, i4⟩
        · show rank nd ns nl ⟨b.iterator_.IndexFactorization,
            b.iterator_.LoopPermutation + 1, 0, 0⟩ = _
          rw [hb2]
          exact rank_carry_permutation nd ns nl s.iterator_ hlast hlast2
      · have q3 : ¬ ({ b with eval_fail_count_ := 0 } :
            LinearPrunedSearch).iterator_.LoopPermutation + 1 < nl := by
          show ¬ b.iterator_.LoopPermutation + 1 < nl
          rw [hb2]; exact c3
        rw [if_neg q3]
        have hlast3 : s.iterator_.LoopPermutation + 1 = nl := by omega
        by_cases c4 : s.iterator_.IndexFactorization + 1 < nf
        · left
          have q4 : ({ b with eval_fail_count_ := 0 } :
              LinearPrunedSearch).iterator_.IndexFactorization + 1 < nf := by
            show b.iterator_.IndexFactorization + 1 < nf
            rw [hb2]; exact c4
          rw [if_pos q4]
          refine ⟨hlast, rfl, ?_, rfl, rfl, ?_⟩
          · show InSpace nd ns nl nf ⟨b.iterator_.IndexFactorization + 1, 0, 0, 0⟩
            rw [hb2]
            exact ⟨hd1, hs1, hl1, c4⟩
          · show rank nd ns nl ⟨b.iterator_.IndexFactorization + 1, 0, 0, 0⟩ = _
            rw [hb2]
            exact rank_carry_factorization nd ns nl s.iterator_ hlast hlast2 hlast3
        · right
          have q4 : ¬ ({ b with eval_fail_count_ := 0 } :
              LinearPrunedSearch).iterator_.IndexFactorization + 1 < nf := by
            show ¬ b.iterator_.IndexFactorization + 1 < nf
            rw [hb2]; exact c4
          rw [if_neg q4]
          exact ⟨hlast, rfl, rank_last nd ns nl nf s.iterator_ hlast hlast2 hlast3 (by omega)⟩

theorem bookkeeping_fail_count (s : LinearPrunedSearch) (status : Status) (cost : ℚ) :
    (Report.bookkeeping s status cost).eval_fail_count_ =
      if status = Status.EvalFailure then (s.eval_fail_count_ + 1) % U64
      else s.eval_fail_count_ := by
  cases status <;> rfl

/-- The failure counter after the bookkeeping, against the counter before: it grows
by at most one, and reaching `d + 1` from at most `d` takes an EvalFailure report
on a counter that was exactly `d`. -/
theorem bookkeeping_fail_count_bound (s : LinearPrunedSearch) (status : Status) (cost : ℚ)
    (d : Nat) (hle : s.eval_fail_count_ ≤ d) :
    (Report.bookkeeping s status cost).eval_fail_count_ ≤ d + 1 ∧
    ((Report.bookkeeping s status cost).eval_fail_count_ = d + 1 →
      status = Status.EvalFailure ∧ s.eval_fail_count_ = d) := by
  rw [bookkeeping_fail_count]
  by_cases hs : status = Status.EvalFailure
  · rw [if_pos hs]
    have := Nat.mod_le (s.eval_fail_count_ + 1) U64
    exact ⟨by omega, fun h => ⟨hs, by omega⟩⟩
  · rw [if_neg hs]
    exact ⟨by omega, fun h => by omega⟩

/-- The enumeration invariant of the driver loop when pruning never triggers. -/
theorem run_noprune (nd ns nl nf : Nat)
    (hd1 : 1 ≤ nd) (hd2 : nd < U128) (hs1 : 1 ≤ ns) (hs2 : ns < U128)
    (hl1 : 1 ≤ nl) (hl2 : nl < U128) (hf1 : 1 ≤ nf) (hf2 : nf < U128)
    (rs : List (Status × ℚ)) :
    ∀ (s s1 : LinearPrunedSearch) (past trace : List (ID × Status)),
      s.state_ = State.Ready →
      InSpace nd ns nl nf s.iterator_ →
      s.eval_fail_count_ ≤ s.iterator_.DatatypeBypass →
      (s.eval_fail_count_ = s.iterator_.DatatypeBypass →
        ∀ j, j < s.iterator_.DatatypeBypass →
          ((⟨s.iterator_.IndexFactorization, s.iterator_.LoopPermutation, s.iterator_.Spatial,
            j⟩ : ID), Status.EvalFailure) ∈ past) →
      run (fixedSpace nd ns nl nf) rs s = some (trace, s1) →
      NeverAllFailed nd (past ++ trace) →
      trace.map (fun p => rank nd ns nl p.1)
          = List.range' (rank nd ns nl s.iterator_) trace.length ∧
        (∀ p ∈ trace, InSpace nd ns nl nf p.1) ∧
        (rs.length + rank nd ns nl s.iterator_ < nd * ns * nl * nf →
          trace.length = rs.length ∧ s1.state_ = State.Ready) ∧
        (nd * ns * nl * nf ≤ rs.length + rank nd ns nl s.iterator_ →
          trace.length + rank nd ns nl s.iterator_ = nd * ns * nl * nf ∧
          s1.state_ = State.Terminated) := by
  induction rs with
  | nil =>
    intro s s1 past trace hR hin _ _ h _
    simp only [run, Option.some.injEq, Prod.mk.injEq] at h
    obtain ⟨h1, h2⟩ := h
    subst h1 h2
    have := rank_lt nd ns nl nf s.iterator_ hin
    refine ⟨rfl, fun p hp => absurd hp (List.not_mem_nil _), fun _ => ⟨rfl, hR⟩, fun hN => ?_⟩
    simp only [List.length_nil, Nat.zero_add] at hN
    omega
  | cons r rs ih =>
    intro s s1 past trace hR hin hle hall h hnever
    obtain ⟨s2, hRep, hrun⟩ := run_cons_ready (fixedSpace nd ns nl nf) r rs s hR
    rw [hrun] at h
    cases h3 : run (fixedSpace nd ns nl nf) rs s2 with
    | none => rw [h3] at h; exact absurd h (by simp)
    | some q =>
      obtain ⟨t, s3⟩ := q
      rw [h3] at h
      simp only [Option.some.injEq, Prod.mk.injEq] at h
      obtain ⟨ht, hs3⟩ := h
      subst ht hs3
      obtain ⟨hbound, hreach⟩ := bookkeeping_fail_count_bound
        { s with state_ := State.WaitingForStatus } r.1 r.2 s.iterator_.DatatypeBypass hle
      -- the pruning check cannot trigger
      have hno : ¬ (s.iterator_.DatatypeBypass + 1 = nd ∧
          (Report.bookkeeping { s with state_ := State.WaitingForStatus } r.1 r.2).eval_fail_count_
            = nd) := by
        rintro ⟨hlast, hcnt⟩
        obtain ⟨hfail, hceq⟩ := hreach (by rw [hcnt, hlast])
        refine hnever s.iterator_.IndexFactorization s.iterator_.LoopPermutation
          s.iterator_.Spatial (fun d hd => ?_)
        by_cases hdlt : d < s.iterator_.DatatypeBypass
        · exact List.mem_append_left _ (hall hceq d hdlt)
        · have hde : d = s.iterator_.DatatypeBypass := by omega
          refine List.mem_append_right _ ?_
          rw [hde, ← hfail]
          exact List.mem_cons_self _ _
      obtain ⟨s2b, hRep2, hcases⟩ := Report_noprune nd ns nl nf hd1 hd2 hs1 hs2 hl1 hl2 hf1 hf2
        { s with state_ := State.WaitingForStatus } r.1 r.2 rfl hin hno
      dsimp only at hcases
      rw [hRep] at hRep2
      simp only [Option.some.injEq] at hRep2
      subst hRep2
      have hN := rank_lt nd ns nl nf s.iterator_ hin
      have hnever2 : NeverAllFailed nd ((past ++ [(s.iterator_, r.1)]) ++ t) := by
        rw [List.append_assoc]
        exact hnever
      rcases hcases with ⟨hlt, hRd, hit, hcnt⟩ | ⟨hlast, hRd, hin2, hd0, hc0, hrk⟩ |
        ⟨hlast, hT, hrk⟩
      · -- same combination, next DatatypeBypass value
        have hit1 : s2.iterator_.DatatypeBypass = s.iterator_.DatatypeBypass + 1 := by rw [hit]
        have hit2 : s2.iterator_.IndexFactorization = s.iterator_.IndexFactorization := by
          rw [hit]
        have hit3 : s2.iterator_.LoopPermutation = s.iterator_.LoopPermutation := by rw [hit]
        have hit4 : s2.iterator_.Spatial = s.iterator_.Spatial := by rw [hit]
        have hrk : rank nd ns nl s2.iterator_ = rank nd ns nl s.iterator_ + 1 := by
          unfold rank
          rw [hit1, hit2, hit3, hit4]
          omega
        have hin2 : InSpace nd ns nl nf s2.iterator_ := by
          unfold InSpace
          rw [hit1, hit2, hit3, hit4]
          exact ⟨hlt, hin.2.1, hin.2.2.1, hin.2.2.2⟩
        obtain ⟨g1, g2, g3, g4⟩ := ih s2 s3 (past ++ [(s.iterator_, r.1)]) t hRd hin2
          (by rw [hcnt, hit1]; exact hbound)
          (by
            intro hceq j hj
            rw [hcnt, hit1] at hceq
            obtain ⟨hfail, hc⟩ := hreach hceq
            rw [hit2, hit3, hit4]
            rw [hit1] at hj
            by_cases hjlt : j < s.iterator_.DatatypeBypass
            · exact List.mem_append_left _ (hall hc j hjlt)
            · have hje : j = s.iterator_.DatatypeBypass := by omega
              refine List.mem_append_right _ ?_
              rw [hje, ← hfail]
              exact List.mem_singleton.2 rfl)
          h3 hnever2
        refine ⟨?_, ?_, ?_, ?_⟩
        · rw [List.map_cons, List.length_cons, List.range'_succ, g1, hrk]
        · intro p hp
          rcases List.mem_cons.1 hp with hp1 | hp1
          · rw [hp1]; exact hin
          · exact g2 p hp1
        · intro hlen
          simp only [List.length_cons] at hlen ⊢
          obtain ⟨a1, a2⟩ := g3 (by omega)
          exact ⟨by omega, a2⟩
        · intro hlen
          simp only [List.length_cons] at hlen ⊢
          obtain ⟨a1, a2⟩ := g4 (by omega)
          exact ⟨by omega, a2⟩
      · -- first identifier of the next combination
        obtain ⟨g1, g2, g3, g4⟩ := ih s2 s3 (past ++ [(s.iterator_, r.1)]) t hRd hin2
          (by rw [hc0]; exact Nat.zero_le _)
          (by
            intro _ j hj
            rw [hd0] at hj
            exact absurd hj (Nat.not_lt_zero _))
          h3 hnever2
        refine ⟨?_, ?_, ?_, ?_⟩
        · rw [List.map_cons, List.length_cons, List.range'_succ, g1, hrk]
        · intro p hp
          rcases List.mem_cons.1 hp with hp1 | hp1
          · rw [hp1]; exact hin
          · exact g2 p hp1
        · intro hlen
          simp only [List.length_cons] at hlen ⊢
          obtain ⟨a1, a2⟩ := g3 (by omega)
          exact ⟨by omega, a2⟩
        · intro hlen
          simp only [List.length_cons] at hlen ⊢
          obtain ⟨a1, a2⟩ := g4 (by omega)
          exact ⟨by omega, a2⟩
      · -- the last identifier: the engine terminates
        rw [run_terminated _ rs s2 hT] at h3
        simp only [Option.some.injEq, Prod.mk.injEq] at h3
        obtain ⟨e1, e2⟩ := h3
        subst e1 e2
        refine ⟨rfl, ?_, ?_, ?_⟩
        · intro p hp
          rw [List.mem_singleton] at hp
          rw [hp]; exact hin
        · intro hlen
          simp only [List.length_cons] at hlen
          omega
        · intro _
          simp only [List.length_cons, List.length_nil]
          exact ⟨by omega, hT⟩

/-! ### One `Report`, case by case -/

/-- The five outcomes of the increment, with the cursor written out. -/
theorem IncrementRecursive_cases (ms : MapSpace) (p : LinearPrunedSearch) :
    (p.iterator_.DatatypeBypass < sub128 (ms.Size p.mapspace_ Dimension.DatatypeBypass) 1 ∧
      (IncrementRecursive_ ms p).1 = true ∧
      (IncrementRecursive_ ms p).2.iterator_ =
        ⟨p.iterator_.IndexFactorization, p.iterator_.LoopPermutation, p.iterator_.Spatial,
          p.iterator_.DatatypeBypass + 1⟩ ∧
      (IncrementRecursive_ ms p).2.mapspace_ = p.mapspace_) ∨
    (¬ p.iterator_.DatatypeBypass < sub128 (ms.Size p.mapspace_ Dimension.DatatypeBypass) 1 ∧
      p.iterator_.Spatial < sub128 (ms.Size p.mapspace_ Dimension.Spatial) 1 ∧
      (IncrementRecursive_ ms p).1 = true ∧
      (IncrementRecursive_ ms p).2.iterator_ =
        ⟨p.iterator_.IndexFactorization, p.iterator_.LoopPermutation, p.iterator_.Spatial + 1,
          0⟩ ∧
      (IncrementRecursive_ ms p).2.mapspace_ = p.mapspace_) ∨
    (¬ p.iterator_.DatatypeBypass < sub128 (ms.Size p.mapspace_ Dimension.DatatypeBypass) 1 ∧
      ¬ p.iterator_.Spatial < sub128 (ms.Size p.mapspace_ Dimension.Spatial) 1 ∧
      p.iterator_.LoopPermutation < sub128 (ms.Size p.mapspace_ Dimension.LoopPermutation) 1 ∧
      (IncrementRecursive_ ms p).1 = true ∧
      (IncrementRecursive_ ms p).2.iterator_ =
        ⟨p.iterator_.IndexFactorization, p.iterator_.LoopPermutation + 1, 0, 0⟩ ∧
      (IncrementRecursive_ ms p).2.mapspace_ = p.mapspace_) ∨
    (¬ p.iterator_.DatatypeBypass < sub128 (ms.Size p.mapspace_ Dimension.DatatypeBypass) 1 ∧
      ¬ p.iterator_.Spatial < sub128 (ms.Size p.mapspace_ Dimension.Spatial) 1 ∧
      ¬ p.iterator_.LoopPermutation
        < sub128 (ms.Size p.mapspace_ Dimension.LoopPermutation) 1 ∧
      p.iterator_.IndexFactorization
        < sub128 (ms.Size p.mapspace_ Dimension.IndexFactorization) 1 ∧
      (IncrementRecursive_ ms p).1 = true ∧
      (IncrementRecursive_ ms p).2.iterator_ = ⟨p.iterator_.IndexFactorization + 1, 0, 0, 0⟩ ∧
      (IncrementRecursive_ ms p).2.mapspace_
        = (p.iterator_.IndexFactorization + 1) :: p.mapspace_) ∨
    (¬ p.iterator_.DatatypeBypass < sub128 (ms.Size p.mapspace_ Dimension.DatatypeBypass) 1 ∧
      ¬ p.iterator_.Spatial < sub128 (ms.Size p.mapspace_ Dimension.Spatial) 1 ∧
      ¬ p.iterator_.LoopPermutation
        < sub128 (ms.Size p.mapspace_ Dimension.LoopPermutation) 1 ∧
      ¬ p.iterator_.IndexFactorization
        < sub128 (ms.Size p.mapspace_ Dimension.IndexFactorization) 1 ∧
      (IncrementRecursive_ ms p).1 = false ∧
      (IncrementRecursive_ ms p).2.iterator_ = ⟨p.iterator_.IndexFactorization, 0, 0, 0⟩ ∧
      (IncrementRecursive_ ms p).2.mapspace_ = p.mapspace_) := by
  rw [IncrementRecursive_eq]
  by_cases h1 : p.iterator_.DatatypeBypass
      < sub128 (ms.Size p.mapspace_ Dimension.DatatypeBypass) 1
  · rw [if_pos h1, succ_mod_of_lt_sub128 _ _ h1]
    exact Or.inl ⟨h1, rfl, rfl, rfl⟩
  · rw [if_neg h1]
    by_cases h2 : p.iterator_.Spatial < sub128 (ms.Size p.mapspace_ Dimension.Spatial) 1
    · rw [if_pos h2, succ_mod_of_lt_sub128 _ _ h2]
      exact Or.inr (Or.inl ⟨h1, h2, rfl, rfl, rfl⟩)
    · rw [if_neg h2]
      by_cases h3 : p.iterator_.LoopPermutation
          < sub128 (ms.Size p.mapspace_ Dimension.LoopPermutation) 1
      · rw [if_pos h3, succ_mod_of_lt_sub128 _ _ h3]
        exact Or.inr (Or.inr (Or.inl ⟨h1, h2, h3, rfl, rfl, rfl⟩))
      · rw [if_neg h3]
        by_cases h4 : p.iterator_.IndexFactorization
            < sub128 (ms.Size p.mapspace_ Dimension.IndexFactorization) 1
        · rw [if_pos h4, succ_mod_of_lt_sub128 _ _ h4]
          exact Or.inr (Or.inr (Or.inr (Or.inl ⟨h1, h2, h3, h4, rfl, rfl, rfl⟩)))
        · rw [if_neg h4]
          exact Or.inr (Or.inr (Or.inr (Or.inr ⟨h1, h2, h3, h4, rfl, rfl, rfl⟩)))

/-- The three outcomes of the pruning check. -/
theorem pruningCheck_cases (ms : MapSpace) (b : LinearPrunedSearch) :
    (Report.pruningCheck ms b).mapspace_ = b.mapspace_ ∧
    (Report.pruningCheck ms b).iterator_.IndexFactorization = b.iterator_.IndexFactorization ∧
    (Report.pruningCheck ms b).iterator_.DatatypeBypass = b.iterator_.DatatypeBypass ∧
    ((¬ b.iterator_.DatatypeBypass = sub128 (ms.Size b.mapspace_ Dimension.DatatypeBypass) 1 ∧
        (Report.pruningCheck ms b).iterator_ = b.iterator_ ∧
        (Report.pruningCheck ms b).eval_fail_count_ = b.eval_fail_count_) ∨
      (b.iterator_.DatatypeBypass = sub128 (ms.Size b.mapspace_ Dimension.DatatypeBypass) 1 ∧
        ¬ Report.pruningTriggers ms b ∧
        (Report.pruningCheck ms b).iterator_ = b.iterator_ ∧
        (Report.pruningCheck ms b).eval_fail_count_ = 0) ∨
      (b.iterator_.DatatypeBypass = sub128 (ms.Size b.mapspace_ Dimension.DatatypeBypass) 1 ∧
        Report.pruningTriggers ms b ∧
        (Report.pruningCheck ms b).iterator_.Spatial
          = sub128 (ms.Size b.mapspace_ Dimension.Spatial) 1 ∧
        (Report.pruningCheck ms b).iterator_.LoopPermutation
          = sub128 (ms.Size b.mapspace_ Dimension.LoopPermutation) 1 ∧
        (Report.pruningCheck ms b).eval_fail_count_ = 0)) := by
  obtain ⟨f1, f2, f3, -, -⟩ := pruningCheck_frame ms b
  refine ⟨f1, f2, f3, ?_⟩
  by_cases hd : b.iterator_.DatatypeBypass
      = sub128 (ms.Size b.mapspace_ Dimension.DatatypeBypass) 1
  · by_cases hc : b.eval_fail_count_ = ms.Size b.mapspace_ Dimension.DatatypeBypass
    · right; right
      rw [pruningCheck_triggered ms b hd hc]
      exact ⟨hd, ⟨hd, hc⟩, rfl, rfl, rfl⟩
    · right; left
      rw [pruningCheck_not_triggered ms b hd hc]
      exact ⟨hd, fun hT => hc hT.2, rfl, rfl⟩
  · left
    rw [pruningCheck_inner ms b hd]
    exact ⟨hd, rfl, rfl⟩

/-- The five outcomes of a `Report` made with the cursor in range: a step inside the
combination, a step to the next Spatial value, to the next LoopPermutation
value, to the next IndexFactorization value (by carry or by pruning), or the
end of the search. -/
theorem Report_cases (ms : MapSpace) (s : LinearPrunedSearch) (status : Status) (cost : ℚ)
    (hW : s.state_ = State.WaitingForStatus) (hr : CursorInRange ms s) :
    ∃ s1, Report ms s status cost = some s1 ∧
      ((s.iterator_.DatatypeBypass < sub128 (ms.Size s.mapspace_ Dimension.DatatypeBypass) 1 ∧
          s1.state_ = State.Ready ∧
          s1.iterator_ = ⟨s.iterator_.IndexFactorization, s.iterator_.LoopPermutation,
            s.iterator_.Spatial, s.iterator_.DatatypeBypass + 1⟩ ∧
          s1.mapspace_ = s.mapspace_ ∧
          s1.eval_fail_count_ = (Report.bookkeeping s status cost).eval_fail_count_) ∨
        (s.iterator_.DatatypeBypass = sub128 (ms.Size s.mapspace_ Dimension.DatatypeBypass) 1 ∧
          ¬ Report.pruningTriggers ms (Report.bookkeeping s status cost) ∧
          s.iterator_.Spatial < sub128 (ms.Size s.mapspace_ Dimension.Spatial) 1 ∧
          s1.state_ = State.Ready ∧
          s1.iterator_ = ⟨s.iterator_.IndexFactorization, s.iterator_.LoopPermutation,
            s.iterator_.Spatial + 1, 0⟩ ∧
          s1.mapspace_ = s.mapspace_ ∧ s1.eval_fail_count_ = 0) ∨
        (s.iterator_.DatatypeBypass = sub128 (ms.Size s.mapspace_ Dimension.DatatypeBypass) 1 ∧
          ¬ Report.pruningTriggers ms (Report.bookkeeping s status cost) ∧
          s.iterator_.Spatial = sub128 (ms.Size s.mapspace_ Dimension.Spatial) 1 ∧
          s.iterator_.LoopPermutation
            < sub128 (ms.Size s.mapspace_ Dimension.LoopPermutation) 1 ∧
          s1.state_ = State.Ready ∧
          s1.iterator_ = ⟨s.iterator_.IndexFactorization, s.iterator_.LoopPermutation + 1, 0,
            0⟩ ∧
          s1.mapspace_ = s.mapspace_ ∧ s1.eval_fail_count_ = 0) ∨
        (s.iterator_.DatatypeBypass = sub128 (ms.Size s.mapspace_ Dimension.DatatypeBypass) 1 ∧
          (Report.pruningTriggers ms (Report.bookkeeping s status cost) ∨
            (s.iterator_.Spatial = sub128 (ms.Size s.mapspace_ Dimension.Spatial) 1 ∧
              s.iterator_.LoopPermutation
                = sub128 (ms.Size s.mapspace_ Dimension.LoopPermutation) 1)) ∧
          s.iterator_.IndexFactorization
            < sub128 (ms.Size s.mapspace_ Dimension.IndexFactorization) 1 ∧
          s1.state_ = State.Ready ∧
          s1.iterator_ = ⟨s.iterator_.IndexFactorization + 1, 0, 0, 0⟩ ∧
          s1.mapspace_ = (s.iterator_.IndexFactorization + 1) :: s.mapspace_ ∧
          s1.eval_fail_count_ = 0) ∨
        (s.iterator_.DatatypeBypass = sub128 (ms.Size s.mapspace_ Dimension.DatatypeBypass) 1 ∧
          (Report.pruningTriggers ms (Report.bookkeeping s status cost) ∨
            (s.iterator_.Spatial = sub128 (ms.Size s.mapspace_ Dimension.Spatial) 1 ∧
              s.iterator_.LoopPermutation
                = sub128 (ms.Size s.mapspace_ Dimension.LoopPermutation) 1)) ∧
          ¬ s.iterator_.IndexFactorization
            < sub128 (ms.Size s.mapspace_ Dimension.IndexFactorization) 1 ∧
          s1.state_ = State.Terminated ∧
          s1.iterator_ = ⟨s.iterator_.IndexFactorization, 0, 0, 0⟩ ∧
          s1.mapspace_ = s.mapspace_ ∧ s1.eval_fail_count_ = 0)) := by
  refine ⟨_, Report_waiting ms s status cost hW, ?_⟩
  obtain ⟨hbm, hbi, -⟩ := bookkeeping_frame s status cost
  obtain ⟨r1, r2, r3⟩ := hr
  obtain ⟨pm, pIF, pDB, pc⟩ := pruningCheck_cases ms (Report.bookkeeping s status cost)
  have hfc := (IncrementRecursive_frame ms
    (Report.pruningCheck ms (Report.bookkeeping s status cost))).2.1
  have hinc := IncrementRecursive_cases ms
    (Report.pruningCheck ms (Report.bookkeeping s status cost))
  rw [hbm] at pm pc
  rw [hbi] at pIF pDB pc
  rw [pm, pIF, pDB] at hinc
  generalize Report.pruningTriggers ms (Report.bookkeeping s status cost) = T at pc ⊢
  generalize (Report.bookkeeping s status cost).eval_fail_count_ = bc at pc ⊢
  generalize Report.pruningCheck ms (Report.bookkeeping s status cost) = p at pc hfc hinc ⊢
  generalize IncrementRecursive_ ms p = r at hfc hinc ⊢
  generalize sub128 (ms.Size s.mapspace_ Dimension.DatatypeBypass) 1 = eD at *
  generalize sub128 (ms.Size s.mapspace_ Dimension.Spatial) 1 = eS at *
  generalize sub128 (ms.Size s.mapspace_ Dimension.LoopPermutation) 1 = eL at *
  generalize sub128 (ms.Size s.mapspace_ Dimension.IndexFactorization) 1 = eF at *
  have hready : r.1 = true →
      ({ r.2 with state_ := if r.1 = true then State.Ready else State.Terminated } :
        LinearPrunedSearch).state_ = State.Ready := by
    intro h; show (if r.1 = true then State.Ready else State.Terminated) = _; rw [if_pos h]
  have hterm : r.1 = false →
      ({ r.2 with state_ := if r.1 = true then State.Ready else State.Terminated } :
        LinearPrunedSearch).state_ = State.Terminated := by
    intro h
    show (if r.1 = true then State.Ready else State.Terminated) = _
    rw [h]
    rfl
  rcases pc with ⟨hd, hit, hc⟩ | ⟨hd, hT, hit, hc⟩ | ⟨hd, hT, hS, hL, hc⟩
  · -- not at the last DatatypeBypass value
    rw [hit] at hinc
    rcases hinc with ⟨h1, i1, i2, i3⟩ | ⟨h1, -⟩ | ⟨h1, -⟩ | ⟨h1, -⟩ | ⟨h1, -⟩
    · exact Or.inl ⟨h1, hready i1, i2, i3, by show r.2.eval_fail_count_ = _; rw [hfc, hc]⟩
    all_goals exact absurd (Nat.lt_of_le_of_ne r1 hd) h1
  · -- at the last value, no pruning
    rw [hit] at hinc
    have hcnt : r.2.eval_fail_count_ = 0 := by rw [hfc, hc]
    rcases hinc with ⟨h1, -⟩ | ⟨-, h2, i1, i2, i3⟩ | ⟨-, h2, h3, i1, i2, i3⟩ |
      ⟨-, h2, h3, h4, i1, i2, i3⟩ | ⟨-, h2, h3, h4, i1, i2, i3⟩
    · rw [hd] at h1; exact absurd h1 (lt_irrefl _)
    · exact Or.inr (Or.inl ⟨hd, hT, h2, hready i1, i2, i3, hcnt⟩)
    · exact Or.inr (Or.inr (Or.inl ⟨hd, hT, by omega, h3, hready i1, i2, i3, hcnt⟩))
    · exact Or.inr (Or.inr (Or.inr (Or.inl
        ⟨hd, Or.inr ⟨by omega, by omega⟩, h4, hready i1, i2, i3, hcnt⟩)))
    · exact Or.inr (Or.inr (Or.inr (Or.inr
        ⟨hd, Or.inr ⟨by omega, by omega⟩, h4, hterm i1, i2, i3, hcnt⟩)))
  · -- at the last value, pruning
    have hcnt : r.2.eval_fail_count_ = 0 := by rw [hfc, hc]
    rw [hS, hL] at hinc
    rcases hinc with ⟨h1, -⟩ | ⟨-, h2, -⟩ | ⟨-, -, h3, -⟩ |
      ⟨-, -, -, h4, i1, i2, i3⟩ | ⟨-, -, -, h4, i1, i2, i3⟩
    · rw [hd] at h1; exact absurd h1 (lt_irrefl _)
    · exact absurd h2 (lt_irrefl _)
    · exact absurd h3 (lt_irrefl _)
    · exact Or.inr (Or.inr (Or.inr (Or.inl ⟨hd, Or.inl hT, h4, hready i1, i2, i3, hcnt⟩)))
    · exact Or.inr (Or.inr (Or.inr (Or.inr ⟨hd, Or.inl hT, h4, hterm i1, i2, i3, hcnt⟩)))

/-! ### The lexicographic order and the cursor range along a run -/

theorem lexLt_trans (a b c : ID) (h1 : lexLt a b) (h2 : lexLt b c) : lexLt a c := by
  unfold lexLt at *
  omega

theorem lexLt_irrefl (a : ID) : ¬ lexLt a a := by
  unfold lexLt
  omega

theorem lexLt_ne (a b : ID) (h : lexLt a b) : a ≠ b := by
  intro hab
  rw [hab] at h
  exact lexLt_irrefl b h

/-- What a `Report` made with the cursor in range preserves and achieves: the cursor
stays in range, it is strictly greater in the lexicographic order whenever
the engine is Ready afterwards, and the IndexFactorization cursor stays in
range when the size of that dimension does not depend on the pruning. -/
theorem Report_invariant (ms : MapSpace) (s s1 : LinearPrunedSearch) (status : Status)
    (cost : ℚ) (hr : CursorInRange ms s) (h : Report ms s status cost = some s1) :
    CursorInRange ms s1 ∧
    (s1.state_ = State.Ready → lexLt s.iterator_ s1.iterator_) ∧
    ((∀ h1 h2, ms.Size h1 Dimension.IndexFactorization
        = ms.Size h2 Dimension.IndexFactorization) →
      s.iterator_.IndexFactorization
        ≤ sub128 (ms.Size s.mapspace_ Dimension.IndexFactorization) 1 →
      s1.iterator_.IndexFactorization
        ≤ sub128 (ms.Size s1.mapspace_ Dimension.IndexFactorization) 1) := by
  have hW := (Report_state ms s s1 status cost h).1
  obtain ⟨s2, h2, hc⟩ := Report_cases ms s status cost hW hr
  rw [h] at h2
  rw [← Option.some.inj h2] at hc
  obtain ⟨r1, r2, r3⟩ := hr
  unfold CursorInRange lexLt
  rcases hc with ⟨c1, hst, hit, hms, -⟩ | ⟨c1, -, c2, hst, hit, hms, -⟩ |
    ⟨c1, -, c2, c3, hst, hit, hms, -⟩ | ⟨c1, -, c4, hst, hit, hms, -⟩ |
    ⟨c1, -, c4, hst, hit, hms, -⟩
  · rw [hit, hms]
    dsimp only
    exact ⟨⟨by omega, r2, r3⟩, fun _ => by omega, fun _ hf => hf⟩
  · rw [hit, hms]
    dsimp only
    exact ⟨⟨Nat.zero_le _, by omega, r3⟩, fun _ => by omega, fun _ hf => hf⟩
  · rw [hit, hms]
    dsimp only
    exact ⟨⟨Nat.zero_le _, Nat.zero_le _, by omega⟩, fun _ => by omega, fun _ hf => hf⟩
  · rw [hit, hms]
    dsimp only
    refine ⟨⟨Nat.zero_le _, Nat.zero_le _, Nat.zero_le _⟩, fun _ => by omega, fun hfix _ => ?_⟩
    rw [hfix _ s.mapspace_]
    omega
  · rw [hit, hms]
    dsimp only
    refine ⟨⟨Nat.zero_le _, Nat.zero_le _, Nat.zero_le _⟩, fun hR => ?_, fun _ hf => hf⟩
    rw [hst] at hR
    exact absurd hR (by decide)

theorem Next_frame (s s1 : LinearPrunedSearch) (x : Option ID) (h : Next s = some (x, s1)) :
    s1.iterator_ = s.iterator_ ∧ s1.mapspace_ = s.mapspace_ ∧
    s1.eval_fail_count_ = s.eval_fail_count_ ∧ (∀ y, x = some y → y = s.iterator_) := by
  unfold Next at h
  split at h
  · simp only [Option.some.injEq, Prod.mk.injEq] at h
    rw [← h.2, ← h.1]
    exact ⟨rfl, rfl, rfl, fun y hy => absurd hy (by simp)⟩
  · split at h
    · simp only [Option.some.injEq, Prod.mk.injEq] at h
      rw [← h.2, ← h.1]
      exact ⟨rfl, rfl, rfl, fun y hy => (Option.some.inj hy).symm⟩
    · exact absurd h (by simp)

/-- The cursor range is an invariant of every sequence of calls. -/
theorem exec_range (ms : MapSpace) (calls : List Call) :
    ∀ s s1 : LinearPrunedSearch, CursorInRange ms s → exec ms calls s = some s1 →
      CursorInRange ms s1 := by
  induction calls with
  | nil =>
    intro s s1 hr h
    rw [exec] at h
    rw [← Option.some.inj h]
    exact hr
  | cons c cs ih =>
    intro s s1 hr h
    cases c with
    | next =>
      rw [exec] at h
      cases hN : Next s with
      | none => rw [hN] at h; exact absurd h (by simp)
      | some q =>
        obtain ⟨x, s2⟩ := q
        rw [hN] at h
        obtain ⟨f1, f2, -, -⟩ := Next_frame s s2 x hN
        refine ih s2 s1 ?_ h
        unfold CursorInRange at hr ⊢
        rw [f1, f2]
        exact hr
    | report status cost =>
      rw [exec] at h
      cases hR : Report ms s status cost with
      | none => rw [hR] at h; exact absurd h (by simp)
      | some s2 =>
        rw [hR] at h
        exact ih s2 s1 (Report_invariant ms s s2 status cost hr hR).1 h

/-- The range of the IndexFactorization cursor is an invariant of every sequence of
calls when the size of that dimension does not depend on the pruning. -/
theorem exec_factorization_range (ms : MapSpace)
    (hfix : ∀ h1 h2, ms.Size h1 Dimension.IndexFactorization
      = ms.Size h2 Dimension.IndexFactorization)
    (calls : List Call) :
    ∀ s s1 : LinearPrunedSearch, CursorInRange ms s →
      s.iterator_.IndexFactorization
        ≤ sub128 (ms.Size s.mapspace_ Dimension.IndexFactorization) 1 →
      exec ms calls s = some s1 →
      s1.iterator_.IndexFactorization
        ≤ sub128 (ms.Size s1.mapspace_ Dimension.IndexFactorization) 1 := by
  induction calls with
  | nil =>
    intro s s1 _ hf h
    rw [exec] at h
    rw [← Option.some.inj h]
    exact hf
  | cons c cs ih =>
    intro s s1 hr hf h
    cases c with
    | next =>
      rw [exec] at h
      cases hN : Next s with
      | none => rw [hN] at h; exact absurd h (by simp)
      | some q =>
        obtain ⟨x, s2⟩ := q
        rw [hN] at h
        obtain ⟨f1, f2, -, -⟩ := Next_frame s s2 x hN
        refine ih s2 s1 ?_ ?_ h
        · unfold CursorInRange at hr ⊢
          rw [f1, f2]
          exact hr
        · rw [f1, f2]
          exact hf
    | report status cost =>
      rw [exec] at h
      cases hR : Report ms s status cost with
      | none => rw [hR] at h; exact absurd h (by simp)
      | some s2 =>
        rw [hR] at h
        obtain ⟨g1, -, g3⟩ := Report_invariant ms s s2 status cost hr hR
        exact ih s2 s1 g1 (g3 hfix hf) h

theorem new_range (ms : MapSpace) (id : Nat) : CursorInRange ms (LinearPrunedSearch.new id) :=
  ⟨Nat.zero_le _, Nat.zero_le _, Nat.zero_le _⟩

theorem fixedSpace_size (nd ns nl nf : Nat)
    (hd1 : 1 ≤ nd) (hd2 : nd < U128) (hs1 : 1 ≤ ns) (hs2 : ns < U128)
    (hl1 : 1 ≤ nl) (hl2 : nl < U128) (hf1 : 1 ≤ nf) (hf2 : nf < U128) :
    ∀ h dim, 1 ≤ (fixedSpace nd ns nl nf).Size h dim ∧
      (fixedSpace nd ns nl nf).Size h dim < U128 := by
  intro h dim
  cases dim
  · exact ⟨hf1, hf2⟩
  · exact ⟨hl1, hl2⟩
  · exact ⟨hs1, hs2⟩
  · exact ⟨hd1, hd2⟩

/-! ### Progress of the driver loop -/

/-- The identifiers that the driver emits from a Ready state with the cursor in range
are the cursor itself and then identifiers that are larger in the lexicographic
order, each larger than all those before it. -/
theorem run_sorted (ms : MapSpace) (rs : List (Status × ℚ)) :
    ∀ (s s1 : LinearPrunedSearch) (trace : List (ID × Status)),
      CursorInRange ms s → run ms rs s = some (trace, s1) →
      (∀ p ∈ trace, p.1 = s.iterator_ ∨ lexLt s.iterator_ p.1) ∧
      List.Pairwise (fun a b : ID × Status => lexLt a.1 b.1) trace := by
  induction rs with
  | nil =>
    intro s s1 trace _ h
    simp only [run, Option.some.injEq, Prod.mk.injEq] at h
    rw [← h.1]
    exact ⟨fun p hp => absurd hp (List.not_mem_nil _), List.Pairwise.nil⟩
  | cons r rs ih =>
    intro s s1 trace hr h
    cases hst : s.state_ with
    | WaitingForStatus =>
      rw [run, (Next_eq_none_iff s).2 hst] at h
      exact absurd h (by simp)
    | Terminated =>
      rw [run_terminated ms _ s hst] at h
      simp only [Option.some.injEq, Prod.mk.injEq] at h
      rw [← h.1]
      exact ⟨fun p hp => absurd hp (List.not_mem_nil _), List.Pairwise.nil⟩
    | Ready =>
      obtain ⟨s2, hRep, hrun⟩ := run_cons_ready ms r rs s hst
      rw [hrun] at h
      have hr2 : CursorInRange ms ({ s with state_ := State.WaitingForStatus } :
          LinearPrunedSearch) := hr
      obtain ⟨g1, g2, -⟩ := Report_invariant ms _ s2 r.1 r.2 hr2 hRep
      cases h3 : run ms rs s2 with
      | none => rw [h3] at h; exact absurd h (by simp)
      | some q =>
        obtain ⟨t, s3⟩ := q
        rw [h3] at h
        simp only [Option.some.injEq, Prod.mk.injEq] at h
        rw [← h.1]
        obtain ⟨i1, i2⟩ := ih s2 s3 t g1 h3
        have hlt : ∀ p ∈ t, lexLt s.iterator_ p.1 := by
          intro p hp
          cases hst2 : s2.state_ with
          | WaitingForStatus =>
            rcases (Report_state ms _ s2 r.1 r.2 hRep).2 with hx | hx <;>
              (rw [hst2] at hx; exact absurd hx (by decide))
          | Terminated =>
            rw [run_terminated ms _ s2 hst2] at h3
            simp only [Option.some.injEq, Prod.mk.injEq] at h3
            rw [← h3.1] at hp
            exact absurd hp (List.not_mem_nil _)
          | Ready =>
            have hstep : lexLt s.iterator_ s2.iterator_ := g2 hst2
            rcases i1 p hp with he | hl
            · rw [he]; exact hstep
            · exact lexLt_trans _ _ _ hstep hl
        refine ⟨?_, List.pairwise_cons.2 ⟨fun p hp => hlt p hp, i2⟩⟩
        intro p hp
        rcases List.mem_cons.1 hp with he | hm
        · left; rw [he]
        · right; exact hlt p hm

/-- A step within one digit of a mixed-radix number. -/
theorem radix_lt (a a1 b b1 n : Nat) (hb : b < n) (h : a < a1 ∨ (a = a1 ∧ b < b1)) :
    a * n + b < a1 * n + b1 := by
  rcases h with h | ⟨h, h2⟩
  · have := Nat.mul_le_mul_right n (Nat.succ_le_of_lt h)
    rw [Nat.succ_mul] at this
    omega
  · rw [h]; omega

/-- Inside the space, the lexicographic order is the order of the ranks. -/
theorem rank_lt_of_lexLt (nd ns nl nf : Nat) (x y : ID) (hx : InSpace nd ns nl nf x)
    (h : lexLt x y) : rank nd ns nl x < rank nd ns nl y := by
  obtain ⟨hx1, hx2, hx3, -⟩ := hx
  unfold lexLt at h
  unfold rank
  have k1 : x.IndexFactorization * nl + x.LoopPermutation
        < y.IndexFactorization * nl + y.LoopPermutation ∨
      (x.IndexFactorization * nl + x.LoopPermutation
          = y.IndexFactorization * nl + y.LoopPermutation ∧
        (x.Spatial < y.Spatial ∨
          (x.Spatial = y.Spatial ∧ x.DatatypeBypass < y.DatatypeBypass))) := by
    rcases h with h | ⟨h, h2 | ⟨h2, h3⟩⟩
    · exact Or.inl (radix_lt _ _ _ _ nl hx3 (Or.inl h))
    · exact Or.inl (radix_lt _ _ _ _ nl hx3 (Or.inr ⟨h, h2⟩))
    · exact Or.inr ⟨by rw [h, h2], h3⟩
  have k2 : (x.IndexFactorization * nl + x.LoopPermutation) * ns + x.Spatial
        < (y.IndexFactorization * nl + y.LoopPermutation) * ns + y.Spatial ∨
      ((x.IndexFactorization * nl + x.LoopPermutation) * ns + x.Spatial
          = (y.IndexFactorization * nl + y.LoopPermutation) * ns + y.Spatial ∧
        x.DatatypeBypass < y.DatatypeBypass) := by
    rcases k1 with h | ⟨h, h2 | ⟨h2, h3⟩⟩
    · exact Or.inl (radix_lt _ _ _ _ ns hx2 (Or.inl h))
    · exact Or.inl (radix_lt _ _ _ _ ns hx2 (Or.inr ⟨h, h2⟩))
    · exact Or.inr ⟨by rw [h, h2], h3⟩
  exact radix_lt _ _ _ _ nd hx1 k2

/-- Over fixed positive sizes, a `Report` made with the cursor inside the space leaves
the cursor inside the space. -/
theorem Report_in_space (nd ns nl nf : Nat)
    (hd1 : 1 ≤ nd) (hd2 : nd < U128) (hs1 : 1 ≤ ns) (hs2 : ns < U128)
    (hl1 : 1 ≤ nl) (hl2 : nl < U128) (hf1 : 1 ≤ nf) (hf2 : nf < U128)
    (s s1 : LinearPrunedSearch) (status : Status) (cost : ℚ)
    (hin : InSpace nd ns nl nf s.iterator_)
    (h : Report (fixedSpace nd ns nl nf) s status cost = some s1) :
    CursorInRange (fixedSpace nd ns nl nf) s ∧ InSpace nd ns nl nf s1.iterator_ := by
  obtain ⟨i1, i2, i3, i4⟩ := hin
  have e1 : sub128 nd 1 = nd - 1 := sub128_one nd hd1 hd2
  have e2 : sub128 ns 1 = ns - 1 := sub128_one ns hs1 hs2
  have e3 : sub128 nl 1 = nl - 1 := sub128_one nl hl1 hl2
  have e4 : sub128 nf 1 = nf - 1 := sub128_one nf hf1 hf2
  have hr : CursorInRange (fixedSpace nd ns nl nf) s := by
    unfold CursorInRange
    show s.iterator_.DatatypeBypass ≤ sub128 nd 1 ∧ s.iterator_.Spatial ≤ sub128 ns 1 ∧
      s.iterator_.LoopPermutation ≤ sub128 nl 1
    rw [e1, e2, e3]
    omega
  obtain ⟨⟨g1, g2, g3⟩, -, g4⟩ :=
    Report_invariant (fixedSpace nd ns nl nf) s s1 status cost hr h
  have g5 := g4 (fun _ _ => rfl)
    (show s.iterator_.IndexFactorization ≤ sub128 nf 1 by rw [e4]; omega)
  have g1b : s1.iterator_.DatatypeBypass ≤ sub128 nd 1 := g1
  have g2b : s1.iterator_.Spatial ≤ sub128 ns 1 := g2
  have g3b : s1.iterator_.LoopPermutation ≤ sub128 nl 1 := g3
  have g5b : s1.iterator_.IndexFactorization ≤ sub128 nf 1 := g5
  rw [e1] at g1b
  rw [e2] at g2b
  rw [e3] at g3b
  rw [e4] at g5b
  refine ⟨hr, ?_⟩
  unfold InSpace
  omega

/-- Over fixed positive sizes, the driver started Ready inside the space makes at most
as many rounds as there are identifiers from the cursor on in the odometer
order, and it ends Terminated when it is given that many reports. -/
theorem run_bound (nd ns nl nf : Nat)
    (hd1 : 1 ≤ nd) (hd2 : nd < U128) (hs1 : 1 ≤ ns) (hs2 : ns < U128)
    (hl1 : 1 ≤ nl) (hl2 : nl < U128) (hf1 : 1 ≤ nf) (hf2 : nf < U128)
    (rs : List (Status × ℚ)) :
    ∀ (s s1 : LinearPrunedSearch) (trace : List (ID × Status)),
      s.state_ = State.Ready → InSpace nd ns nl nf s.iterator_ →
      run (fixedSpace nd ns nl nf) rs s = some (trace, s1) →
      trace.length + rank nd ns nl s.iterator_ ≤ nd * ns * nl * nf ∧
      (nd * ns * nl * nf ≤ rs.length + rank nd ns nl s.iterator_ →
        s1.state_ = State.Terminated) := by
  induction rs with
  | nil =>
    intro s s1 trace _ hin h
    simp only [run, Option.some.injEq, Prod.mk.injEq] at h
    rw [← h.1]
    have := rank_lt nd ns nl nf s.iterator_ hin
    refine ⟨by simp only [List.length_nil]; omega, fun hle => ?_⟩
    simp only [List.length_nil] at hle
    omega
  | cons r rs ih =>
    intro s s1 trace hst hin h
    obtain ⟨s2, hRep, hrun⟩ := run_cons_ready (fixedSpace nd ns nl nf) r rs s hst
    rw [hrun] at h
    have hin2 : InSpace nd ns nl nf
        ({ s with state_ := State.WaitingForStatus } : LinearPrunedSearch).iterator_ := hin
    obtain ⟨hr, hin3⟩ := Report_in_space nd ns nl nf hd1 hd2 hs1 hs2 hl1 hl2 hf1 hf2 _ s2 r.1
      r.2 hin2 hRep
    obtain ⟨-, g2, -⟩ := Report_invariant (fixedSpace nd ns nl nf) _ s2 r.1 r.2 hr hRep
    have hrk := rank_lt nd ns nl nf s.iterator_ hin
    cases h3 : run (fixedSpace nd ns nl nf) rs s2 with
    | none => rw [h3] at h; exact absurd h (by simp)
    | some q =>
      obtain ⟨t, s3⟩ := q
      rw [h3] at h
      simp only [Option.some.injEq, Prod.mk.injEq] at h
      rw [← h.1, ← h.2]
      cases hst2 : s2.state_ with
      | WaitingForStatus =>
        rcases (Report_state _ _ s2 r.1 r.2 hRep).2 with hx | hx <;>
          (rw [hst2] at hx; exact absurd hx (by decide))
      | Terminated =>
        rw [run_terminated _ _ s2 hst2] at h3
        simp only [Option.some.injEq, Prod.mk.injEq] at h3
        rw [← h3.1, ← h3.2]
        refine ⟨by simp only [List.length_cons, List.length_nil]; omega, fun _ => hst2⟩
      | Ready =>
        have hlt : rank nd ns nl s.iterator_ < rank nd ns nl s2.iterator_ :=
          rank_lt_of_lexLt nd ns nl nf _ _ hin (g2 hst2)
        obtain ⟨j1, j2⟩ := ih s2 s3 t hst2 hin3 h3
        refine ⟨by simp only [List.length_cons]; omega, fun hle => j2 ?_⟩
        simp only [List.length_cons] at hle
        omega

/-! ### The failure counter along a run -/

theorem failureCount_le (trace : List (ID × Status)) (x : ID) :
    failureCount trace x ≤ x.DatatypeBypass := by
  unfold failureCount
  refine le_trans (List.length_filter_le _ _) ?_
  rw [List.length_range]

theorem failureCount_eq_iff (trace : List (ID × Status)) (x : ID) :
    failureCount trace x = x.DatatypeBypass ↔
      ∀ d, d < x.DatatypeBypass →
        ((⟨x.IndexFactorization, x.LoopPermutation, x.Spatial, d⟩ : ID), Status.EvalFailure)
          ∈ trace := by
  unfold failureCount
  have h := @List.filter_length_eq_length Nat
    (fun d => decide (((⟨x.IndexFactorization, x.LoopPermutation, x.Spatial, d⟩ : ID),
      Status.EvalFailure) ∈ trace)) (List.range x.DatatypeBypass)
  rw [List.length_range] at h
  rw [h]
  constructor
  · intro hall d hd
    exact of_decide_eq_true (hall d (List.mem_range.2 hd))
  · intro hall d hd
    exact decide_eq_true (hall d (List.mem_range.1 hd))

theorem failureCount_zero (trace : List (ID × Status)) (f l sp : Nat) :
    failureCount trace ⟨f, l, sp, 0⟩ = 0 := rfl

/-- The count after one more report inside the combination: the report just made
counts if and only if it is an EvalFailure. -/
theorem failureCount_snoc (past : List (ID × Status)) (x : ID) (status : Status)
    (hpast : ∀ p ∈ past, lexLt p.1 x) :
    failureCount (past ++ [(x, status)])
        ⟨x.IndexFactorization, x.LoopPermutation, x.Spatial, x.DatatypeBypass + 1⟩
      = failureCount past x + (if status = Status.EvalFailure then 1 else 0) := by
  unfold failureCount
  dsimp only
  rw [List.range_succ, List.filter_append, List.length_append]
  have hA : (List.range x.DatatypeBypass).filter
        (fun d => decide (((⟨x.IndexFactorization, x.LoopPermutation, x.Spatial, d⟩ : ID),
          Status.EvalFailure) ∈ past ++ [(x, status)]))
      = (List.range x.DatatypeBypass).filter
        (fun d => decide (((⟨x.IndexFactorization, x.LoopPermutation, x.Spatial, d⟩ : ID),
          Status.EvalFailure) ∈ past)) := by
    apply List.filter_congr
    intro d hd
    have hd2 : d < x.DatatypeBypass := List.mem_range.1 hd
    have hne : ((⟨x.IndexFactorization, x.LoopPermutation, x.Spatial, d⟩ : ID),
        Status.EvalFailure) ≠ (x, status) := by
      intro he
      have h1 := congrArg (fun q : ID × Status => q.1.DatatypeBypass) he
      dsimp only at h1
      omega
    have hiff : (((⟨x.IndexFactorization, x.LoopPermutation, x.Spatial, d⟩ : ID),
          Status.EvalFailure) ∈ past ++ [(x, status)]) ↔
        (((⟨x.IndexFactorization, x.LoopPermutation, x.Spatial, d⟩ : ID),
          Status.EvalFailure) ∈ past) := by
      rw [List.mem_append, List.mem_singleton]
      exact ⟨fun h => h.resolve_right hne, Or.inl⟩
    exact decide_eq_decide.2 hiff
  have hB : ((⟨x.IndexFactorization, x.LoopPermutation, x.Spatial, x.DatatypeBypass⟩ : ID),
        Status.EvalFailure) ∈ past ++ [(x, status)] ↔ status = Status.EvalFailure := by
    rw [List.mem_append, List.mem_singleton]
    constructor
    · rintro (h | h)
      · exact absurd (hpast _ h) (lexLt_irrefl x)
      · exact (congrArg Prod.snd h).symm
    · intro h
      right
      rw [h]
  rw [hA]
  congr 1
  by_cases hs : status = Status.EvalFailure
  · rw [if_pos hs]
    simp only [List.filter_cons, List.filter_nil, decide_eq_true (hB.2 hs), if_true,
      List.length_singleton]
  · rw [if_neg hs]
    simp only [List.filter_cons, List.filter_nil,
      decide_eq_false (fun h => hs (hB.1 h)), Bool.false_eq_true, if_false, List.length_nil]

/-- One `Report` that leaves the engine Ready keeps the failure counter equal to the
count of the EvalFailure reports of the current combination, for a
DatatypeBypass size that is a positive value below 2^64. -/
theorem Report_counter (ms : MapSpace) (s s2 : LinearPrunedSearch) (status : Status) (cost : ℚ)
    (past : List (ID × Status))
    (hd1 : 1 ≤ ms.Size s.mapspace_ Dimension.DatatypeBypass)
    (hd64 : ms.Size s.mapspace_ Dimension.DatatypeBypass < U64)
    (hr : CursorInRange ms s)
    (hpast : ∀ p ∈ past, lexLt p.1 s.iterator_)
    (hcnt : s.eval_fail_count_ = failureCount past s.iterator_)
    (hRep : Report ms s status cost = some s2) (hst2 : s2.state_ = State.Ready) :
    s2.eval_fail_count_ = failureCount (past ++ [(s.iterator_, status)]) s2.iterator_ := by
  have hW := (Report_state ms s s2 status cost hRep).1
  obtain ⟨s3, h3, hc⟩ := Report_cases ms s status cost hW hr
  rw [hRep] at h3
  rw [← Option.some.inj h3] at hc
  have h128 := U64_lt_U128
  have e1 : sub128 (ms.Size s.mapspace_ Dimension.DatatypeBypass) 1
      = ms.Size s.mapspace_ Dimension.DatatypeBypass - 1 :=
    sub128_one _ hd1 (by omega)
  rcases hc with ⟨c1, -, hit, -, hcn⟩ | ⟨-, -, -, -, hit, -, hcn⟩ |
    ⟨-, -, -, -, -, hit, -, hcn⟩ | ⟨-, -, -, -, hit, -, hcn⟩ | ⟨-, -, -, hst, -⟩
  · rw [hit, hcn, failureCount_snoc past s.iterator_ status hpast, bookkeeping_fail_count,
      ← hcnt]
    have hle := failureCount_le past s.iterator_
    rw [← hcnt] at hle
    rw [e1] at c1
    by_cases hs : status = Status.EvalFailure
    · rw [if_pos hs, if_pos hs, Nat.mod_eq_of_lt (by omega)]
    · rw [if_neg hs, if_neg hs]; rfl
  · rw [hit, hcn]; rfl
  · rw [hit, hcn]; rfl
  · rw [hit, hcn]; rfl
  · rw [hst] at hst2; exact absurd hst2 (by decide)

/-- The invariant of the failure counter along the driver loop. -/
theorem run_counter (ms : MapSpace)
    (hsize : ∀ h dim, 1 ≤ ms.Size h dim ∧ ms.Size h dim < U128)
    (h64 : ∀ h, ms.Size h Dimension.DatatypeBypass < U64)
    (rs : List (Status × ℚ)) :
    ∀ (s s1 : LinearPrunedSearch) (past trace : List (ID × Status)),
      s.state_ = State.Ready → CursorInRange ms s →
      (∀ p ∈ past, lexLt p.1 s.iterator_) →
      s.eval_fail_count_ = failureCount past s.iterator_ →
      run ms rs s = some (trace, s1) → s1.state_ = State.Ready →
      CursorInRange ms s1 ∧ (∀ p ∈ past ++ trace, lexLt p.1 s1.iterator_) ∧
        s1.eval_fail_count_ = failureCount (past ++ trace) s1.iterator_ := by
  induction rs with
  | nil =>
    intro s s1 past trace _ hr hpast hcnt h _
    simp only [run, Option.some.injEq, Prod.mk.injEq] at h
    rw [← h.1, ← h.2, List.append_nil]
    exact ⟨hr, hpast, hcnt⟩
  | cons r rs ih =>
    intro s s1 past trace hst hr hpast hcnt h hst1
    obtain ⟨s2, hRep, hrun⟩ := run_cons_ready ms r rs s hst
    rw [hrun] at h
    have hr2 : CursorInRange ms ({ s with state_ := State.WaitingForStatus } :
        LinearPrunedSearch) := hr
    obtain ⟨g1, g2, -⟩ := Report_invariant ms _ s2 r.1 r.2 hr2 hRep
    cases h3 : run ms rs s2 with
    | none => rw [h3] at h; exact absurd h (by simp)
    | some q =>
      obtain ⟨t, s3⟩ := q
      rw [h3] at h
      simp only [Option.some.injEq, Prod.mk.injEq] at h
      rw [← h.2] at hst1
      rw [← h.1, ← h.2]
      have hst2 : s2.state_ = State.Ready := by
        cases hx : s2.state_ with
        | WaitingForStatus =>
          rcases (Report_state ms _ s2 r.1 r.2 hRep).2 with hy | hy <;>
            (rw [hx] at hy; exact absurd hy (by decide))
        | Terminated =>
          rw [run_terminated ms _ s2 hx] at h3
          simp only [Option.some.injEq, Prod.mk.injEq] at h3
          rw [← h3.2, hx] at hst1
          exact absurd hst1 (by decide)
        | Ready => rfl
      have hstep : lexLt s.iterator_ s2.iterator_ := g2 hst2
      have hcnt2 : s2.eval_fail_count_
          = failureCount (past ++ [(s.iterator_, r.1)]) s2.iterator_ :=
        Report_counter ms { s with state_ := State.WaitingForStatus } s2 r.1 r.2 past
          (hsize _ _).1 (h64 _) hr2 hpast hcnt hRep hst2
      have hpast2 : ∀ p ∈ past ++ [(s.iterator_, r.1)], lexLt p.1 s2.iterator_ := by
        intro p hp
        rcases List.mem_append.1 hp with hp1 | hp1
        · exact lexLt_trans _ _ _ (hpast p hp1) hstep
        · rw [List.mem_singleton.1 hp1]; exact hstep
      have := ih s2 s3 (past ++ [(s.iterator_, r.1)]) t hst2 g1 hpast2 hcnt2 h3 hst1
      rw [List.append_assoc, List.singleton_append] at this
      exact this

/-! ### A run of EvalFailure reports inside one combination -/

/-- An EvalFailure report strictly inside a combination whose DatatypeBypass size is
at most 2^64: the DatatypeBypass cursor and the failure counter both move
from `d` to `d + 1`. -/
theorem Report_fail_step (ms : MapSpace) (s : LinearPrunedSearch) (cost : ℚ)
    (hW : s.state_ = State.WaitingForStatus)
    (hlt : s.iterator_.DatatypeBypass + 1 < ms.Size s.mapspace_ Dimension.DatatypeBypass)
    (h64 : ms.Size s.mapspace_ Dimension.DatatypeBypass ≤ U64)
    (hc : s.eval_fail_count_ = s.iterator_.DatatypeBypass) :
    Report ms s Status.EvalFailure cost =
      some { s with
        state_ := State.Ready
        iterator_ := { s.iterator_ with DatatypeBypass := s.iterator_.DatatypeBypass + 1 }
        eval_fail_count_ := s.iterator_.DatatypeBypass + 1 } := by
  have h128 := U64_lt_U128
  have hs : sub128 (ms.Size s.mapspace_ Dimension.DatatypeBypass) 1
      = ms.Size s.mapspace_ Dimension.DatatypeBypass - 1 :=
    sub128_one _ (by omega) (by omega)
  have hm : (s.iterator_.DatatypeBypass + 1) % U64 = s.iterator_.DatatypeBypass + 1 :=
    Nat.mod_eq_of_lt (by omega)
  have hm2 : (s.iterator_.DatatypeBypass + 1) % U128 = s.iterator_.DatatypeBypass + 1 :=
    Nat.mod_eq_of_lt (by omega)
  have hne : ¬ s.iterator_.DatatypeBypass = ms.Size s.mapspace_ Dimension.DatatypeBypass - 1 := by
    omega
  have hlt2 : s.iterator_.DatatypeBypass < ms.Size s.mapspace_ Dimension.DatatypeBypass - 1 := by
    omega
  rw [Report_waiting ms s _ _ hW]
  simp only [Report.bookkeeping, Report.pruningCheck, ID.get, hs, hne, if_false,
    IncrementRecursive_eq, hlt2, if_true, hc, hm, hm2]

/-- The driver loop on `k` EvalFailure reports made from the DatatypeBypass value `d` of
the first combination, all strictly inside it: the cursor and the failure
counter reach `d + k`, and the loop goes on with the other reports. -/
theorem run_fail_prefix (nd ns nl nf id : Nat) (h64 : nd ≤ U64) (rest : List (Status × ℚ)) :
    ∀ k d, d + k < nd →
      run (fixedSpace nd ns nl nf) (List.replicate k (Status.EvalFailure, 0) ++ rest)
          ⟨[0], id, State.Ready, ⟨0, 0, 0, d⟩, 0, d, 0⟩
        = (run (fixedSpace nd ns nl nf) rest
            ⟨[0], id, State.Ready, ⟨0, 0, 0, d + k⟩, 0, d + k, 0⟩).map
          (fun q =>
            ((List.range' d k).map (fun j => ((⟨0, 0, 0, j⟩ : ID), Status.EvalFailure)) ++ q.1,
              q.2)) := by
  intro k
  induction k with
  | zero =>
    intro d _
    rw [List.replicate_zero, List.nil_append, Nat.add_zero]
    cases run (fixedSpace nd ns nl nf) rest ⟨[0], id, State.Ready, ⟨0, 0, 0, d⟩, 0, d, 0⟩ with
    | none => rfl
    | some q => rfl
  | succ k ih =>
    intro d hd
    rw [List.replicate_succ, List.cons_append]
    obtain ⟨s2, hRep, hrun⟩ := run_cons_ready (fixedSpace nd ns nl nf) (Status.EvalFailure, 0)
      (List.replicate k (Status.EvalFailure, 0) ++ rest)
      ⟨[0], id, State.Ready, ⟨0, 0, 0, d⟩, 0, d, 0⟩ rfl
    have hstep := Report_fail_step (fixedSpace nd ns nl nf)
      ⟨[0], id, State.WaitingForStatus, ⟨0, 0, 0, d⟩, 0, d, 0⟩ 0 rfl
      (show d + 1 < nd by omega) h64 rfl
    have hs2 : s2 = ⟨[0], id, State.Ready, ⟨0, 0, 0, d + 1⟩, 0, d + 1, 0⟩ := by
      have h1 : some s2 = some (⟨[0], id, State.Ready, ⟨0, 0, 0, d + 1⟩, 0, d + 1, 0⟩ :
          LinearPrunedSearch) := by
        rw [← hRep]
        exact hstep
      exact Option.some.inj h1
    rw [hrun, hs2, ih (d + 1) (by omega)]
    have e : d + 1 + k = d + (k + 1) := by omega
    rw [e, List.range'_succ]
    cases run (fixedSpace nd ns nl nf) rest
        ⟨[0], id, State.Ready, ⟨0, 0, 0, d + (k + 1)⟩, 0, d + (k + 1), 0⟩ with
    | none => rfl
    | some q => rfl
/-! ## Search engine: properties of the protocol and of the enumeration -/

/-- C3. With sizes DatatypeBypass=2, Spatial=1, LoopPermutation=1,
IndexFactorization=2, from the initial state: the first two `Next()` calls
return the two DatatypeBypass values under IndexFactorization=0, both are
reported as EvalFailure (with any costs), and the third `Next()` returns
(DatatypeBypass=0, Spatial=0, LoopPermutation=0, IndexFactorization=1). These
are the only identifiers emitted, and the `InitPruned` history is then
`[1, 0]`: the constructor's call with 0 and exactly one re-pruning, with
index 1. -/
theorem scenario_skip_to_next_factorization (id : Nat) (c1 c2 : ℚ) :
    ∃ s1 s2 s3 s4 s5,
      Next (LinearPrunedSearch.new id) = some (some ⟨0, 0, 0, 0⟩, s1) ∧
      Report (fixedSpace 2 1 1 2) s1 Status.EvalFailure c1 = some s2 ∧
      Next s2 = some (some ⟨0, 0, 0, 1⟩, s3) ∧
      Report (fixedSpace 2 1 1 2) s3 Status.EvalFailure c2 = some s4 ∧
      Next s4 = some (some ⟨1, 0, 0, 0⟩, s5) ∧
      (LinearPrunedSearch.new id).mapspace_ = [0] ∧
      s5.mapspace_ = [1, 0] :=
  ⟨{ LinearPrunedSearch.new id with state_ := State.WaitingForStatus },
    { LinearPrunedSearch.new id with iterator_ := ⟨0, 0, 0, 1⟩, eval_fail_count_ := 1 },
    { LinearPrunedSearch.new id with
      state_ := State.WaitingForStatus, iterator_ := ⟨0, 0, 0, 1⟩, eval_fail_count_ := 1 },
    { LinearPrunedSearch.new id with iterator_ := ⟨1, 0, 0, 0⟩, mapspace_ := [1, 0] },
    { LinearPrunedSearch.new id with
      state_ := State.WaitingForStatus, iterator_ := ⟨1, 0, 0, 0⟩, mapspace_ := [1, 0] },
    rfl,
    Report_fail_inner (fixedSpace 2 1 1 2) _ c1 rfl (show 0 + 1 < 2 by decide)
      (show 2 < U64 by decide) rfl,
    rfl,
    Report_fail_last (fixedSpace 2 1 1 2) _ c2 rfl (show 1 + 1 = 2 by decide)
      (show 2 < U64 by decide) rfl,
    rfl, rfl, rfl⟩

/-- C2, counterexample. Sizes DatatypeBypass=2, Spatial=1, LoopPermutation=1,
IndexFactorization=2: after EvalFailure has been reported for both
DatatypeBypass values of the combination (IndexFactorization=0,
LoopPermutation=0, Spatial=0), the next `Next()` returns an identifier whose
LoopPermutation and Spatial values are both those of that combination. -/
theorem next_after_pruning_same_permutation_and_spatial :
    ∃ s4 s5 next_id,
      run (fixedSpace 2 1 1 2) [(Status.EvalFailure, 0), (Status.EvalFailure, 0)]
          (LinearPrunedSearch.new 0)
        = some ([(⟨0, 0, 0, 0⟩, Status.EvalFailure), (⟨0, 0, 0, 1⟩, Status.EvalFailure)], s4) ∧
      Next s4 = some (some next_id, s5) ∧
      ¬ (next_id.LoopPermutation ≠ 0 ∨ next_id.Spatial ≠ 0) :=
  ⟨{ LinearPrunedSearch.new 0 with iterator_ := ⟨1, 0, 0, 0⟩, mapspace_ := [1, 0] },
   { LinearPrunedSearch.new 0 with
      state_ := State.WaitingForStatus, iterator_ := ⟨1, 0, 0, 0⟩, mapspace_ := [1, 0] },
   ⟨1, 0, 0, 0⟩, by decide, by decide, by decide⟩

/-- C8. Terminated is absorbing: in a state whose protocol state is Terminated
(in particular one a `Report` has just produced), any number `n` of `Next()`
calls all return `false` and leave the whole engine state (protocol state,
cursor and all counters) unchanged. -/
theorem terminated_absorbing (s : LinearPrunedSearch) (h : s.state_ = State.Terminated)
    (n : Nat) : NextTimes n s = some (List.replicate n none, s) := by
  induction n with
  | zero => rfl
  | succ n ih => simp [NextTimes, Next_terminated s h, ih, List.replicate_succ]

/-- C8, witness: the engine over a one-point space, terminated by its first
`Report`. -/
theorem terminated_absorbing_witness :
    ∃ s1 s2, Next (LinearPrunedSearch.new 0) = some (some ⟨0, 0, 0, 0⟩, s1) ∧
      Report (fixedSpace 1 1 1 1) s1 Status.Success 5 = some s2 ∧
      s2.state_ = State.Terminated ∧
      NextTimes 3 s2 = some ([none, none, none], s2) :=
  ⟨_, _, rfl, rfl, rfl, terminated_absorbing _ rfl 3⟩

/-- C9. `Report` fails its assertion exactly when the state is not
WaitingForStatus, `Next` fails its assertion exactly when the state is
WaitingForStatus, and therefore in every call sequence from the initial state
in which no call fails and whose final state is not Terminated (so Terminated
was never reached, C8), the calls at even positions are `Next()` and those at
odd positions are `Report`. -/
theorem protocol_discipline (ms : MapSpace) :
    (∀ (s : LinearPrunedSearch) (status : Status) (cost : ℚ),
        Report ms s status cost = none ↔ s.state_ ≠ State.WaitingForStatus) ∧
    (∀ s : LinearPrunedSearch, Next s = none ↔ s.state_ = State.WaitingForStatus) ∧
    (∀ (id : Nat) (calls : List Call) (s1 : LinearPrunedSearch),
        exec ms calls (LinearPrunedSearch.new id) = some s1 →
        s1.state_ ≠ State.Terminated →
        ∀ i (h : i < calls.length), ((calls.get ⟨i, h⟩).isNext = true ↔ i % 2 = 0)) := by
  refine ⟨Report_eq_none_iff ms, Next_eq_none_iff, ?_⟩
  intro id calls s1 h hT i hlt
  have := (exec_alternates ms calls _ s1 h hT).2 i hlt
  simpa [LinearPrunedSearch.new] using this

/-- C9, witness: a failure-free sequence Next, Report, Next over a space of two
identifiers; a `Report` in state Ready and a `Next` in state WaitingForStatus
fail. -/
theorem protocol_discipline_witness :
    Report (fixedSpace 2 1 1 1) (LinearPrunedSearch.new 0) Status.Success 1 = none ∧
    (∃ s1, Next (LinearPrunedSearch.new 0) = some (some ⟨0, 0, 0, 0⟩, s1) ∧ Next s1 = none) ∧
    (∃ s3, exec (fixedSpace 2 1 1 1)
        [Call.next, Call.report Status.Success 1, Call.next] (LinearPrunedSearch.new 0) = some s3 ∧
      s3.state_ ≠ State.Terminated ∧
      (([Call.next, Call.report Status.Success 1, Call.next].get ⟨1, by decide⟩).isNext = true
        ↔ 1 % 2 = 0)) :=
  ⟨((protocol_discipline (fixedSpace 2 1 1 1)).1 _ _ _).2 (by decide),
   ⟨_, rfl, ((protocol_discipline (fixedSpace 2 1 1 1)).2.1 _).2 rfl⟩,
   ⟨_, rfl, by decide,
    (protocol_discipline (fixedSpace 2 1 1 1)).2.2 0
      [Call.next, Call.report Status.Success 1, Call.next] _ rfl (by decide) 1 (by decide)⟩⟩

theorem run_all_fail (ms : MapSpace) (nd : Nat) (h64 : nd < U64) :
    ∀ (costs : List ℚ) (s : LinearPrunedSearch),
      s.state_ = State.Ready →
      ms.Size s.mapspace_ Dimension.DatatypeBypass = nd →
      s.eval_fail_count_ = s.iterator_.DatatypeBypass →
      s.iterator_.DatatypeBypass + costs.length = nd →
      costs ≠ [] →
      run ms (costs.map (fun c => (Status.EvalFailure, c))) s =
        some ((List.range' s.iterator_.DatatypeBypass costs.length).map
                (fun d => ({ s.iterator_ with DatatypeBypass := d }, Status.EvalFailure)),
              afterPruning ms s) := by
  intro costs
  induction costs with
  | nil => intro s _ _ _ _ h; exact absurd rfl h
  | cons c cs ih =>
    intro s hR hn hc hlen _
    have hN : Next s = some (some s.iterator_, { s with state_ := State.WaitingForStatus }) := by
      simp [Next, hR]
    cases cs with
    | nil =>
      have hlast : s.iterator_.DatatypeBypass + 1
          = ms.Size s.mapspace_ Dimension.DatatypeBypass := by
        simpa [hn] using hlen
      have hRep := Report_fail_last ms { s with state_ := State.WaitingForStatus } c rfl
        hlast (by simpa [hn] using h64) hc
      simp only [List.map_cons, List.map_nil, run, hN, hRep, List.length_singleton,
        List.range', afterPruning]
    | cons c2 cs2 =>
      have hlt : s.iterator_.DatatypeBypass + 1
          < ms.Size s.mapspace_ Dimension.DatatypeBypass := by
        simp only [List.length_cons] at hlen
        omega
      have hRep := Report_fail_inner ms { s with state_ := State.WaitingForStatus } c rfl
        hlt (by simpa [hn] using h64) hc
      have := ih
        { s with
          state_ := State.Ready
          iterator_ := { s.iterator_ with DatatypeBypass := s.iterator_.DatatypeBypass + 1 }
          eval_fail_count_ := s.iterator_.DatatypeBypass + 1 }
        rfl hn rfl (by simp only [List.length_cons] at hlen ⊢; omega) (by simp)
      rw [List.map_cons, run, hN]
      simp only [hRep]
      rw [this]
      simp only [List.length_cons, List.range', List.map_cons, afterPruning]

/-- C2, amended. For every mapping space, and every state at the start of a
combination (Ready, DatatypeBypass cursor 0, failure counter 0) whose
DatatypeBypass size `nd` is at least 1 and below 2^64: when EvalFailure is
reported (with any costs) for the `nd` identifiers emitted next, those
identifiers are exactly the `nd` DatatypeBypass values of the combination, and
the very next `Next()` call either returns `false` (the IndexFactorization
cursor was at its last value: the engine is Terminated) or returns the
identifier (DatatypeBypass=0, Spatial=0, LoopPermutation=0,
IndexFactorization=f+1), where `f` is the combination's IndexFactorization
value. -/
theorem next_after_pruning_changes_factorization (ms : MapSpace) (s : LinearPrunedSearch)
    (costs : List ℚ)
    (hR : s.state_ = State.Ready)
    (hd : s.iterator_.DatatypeBypass = 0)
    (hc : s.eval_fail_count_ = 0)
    (hn : costs.length = ms.Size s.mapspace_ Dimension.DatatypeBypass)
    (h1 : 1 ≤ costs.length) (h64 : costs.length < U64) :
    ∃ s1, run ms (costs.map (fun c => (Status.EvalFailure, c))) s =
        some ((List.range costs.length).map
                (fun d => ({ s.iterator_ with DatatypeBypass := d }, Status.EvalFailure)), s1) ∧
      (s.iterator_.IndexFactorization
          < sub128 (ms.Size s.mapspace_ Dimension.IndexFactorization) 1 →
        ∃ s2, Next s1 = some (some ⟨s.iterator_.IndexFactorization + 1, 0, 0, 0⟩, s2)) ∧
      (¬ s.iterator_.IndexFactorization
          < sub128 (ms.Size s.mapspace_ Dimension.IndexFactorization) 1 →
        s1.state_ = State.Terminated ∧ Next s1 = some (none, s1)) := by
  have hrun := run_all_fail ms costs.length h64 costs s hR hn.symm (by rw [hc, hd])
    (by rw [hd]; simp) (by intro h; simp [h] at h1)
  rw [hd, ← List.range_eq_range'] at hrun
  refine ⟨_, hrun, ?_, ?_⟩
  · intro hf
    simp only [afterPruning, if_pos hf]
    exact ⟨_, Next_ready _ rfl⟩
  · intro hf
    simp only [afterPruning, if_neg hf]
    exact ⟨trivial, Next_terminated _ rfl⟩

/-- C2, amended, witness: the initial state over sizes DatatypeBypass=2,
Spatial=3, LoopPermutation=2, IndexFactorization=2. -/
theorem next_after_pruning_changes_factorization_witness :
    ∃ s1, run (fixedSpace 2 3 2 2)
        ([(1 : ℚ), 2].map (fun c => (Status.EvalFailure, c))) (LinearPrunedSearch.new 0) =
        some ((List.range 2).map
                (fun d => ({ (LinearPrunedSearch.new 0).iterator_ with DatatypeBypass := d },
                  Status.EvalFailure)), s1) ∧
      ((LinearPrunedSearch.new 0).iterator_.IndexFactorization
          < sub128 ((fixedSpace 2 3 2 2).Size (LinearPrunedSearch.new 0).mapspace_
              Dimension.IndexFactorization) 1 →
        ∃ s2, Next s1 = some (some ⟨(LinearPrunedSearch.new 0).iterator_.IndexFactorization + 1,
          0, 0, 0⟩, s2)) ∧
      (¬ (LinearPrunedSearch.new 0).iterator_.IndexFactorization
          < sub128 ((fixedSpace 2 3 2 2).Size (LinearPrunedSearch.new 0).mapspace_
              Dimension.IndexFactorization) 1 →
        s1.state_ = State.Terminated ∧ Next s1 = some (none, s1)) :=
  next_after_pruning_changes_factorization (fixedSpace 2 3 2 2) (LinearPrunedSearch.new 0)
    [1, 2] rfl rfl rfl rfl (by decide) (by decide)

/-- C12. For every `Report` call that does not fail: if it changes the
IndexFactorization cursor, the new value `f` is pushed exactly once on the
`InitPruned` history (the mapping space is re-pruned once, with index `f`) and
the best cost is 0 afterwards; if it does not change the IndexFactorization
cursor (also when the space is exhausted), the `InitPruned` history is unchanged
and the best cost is the one the bookkeeping of this report produced (no
reset). -/
theorem report_reprunes_exactly_on_factorization_change (ms : MapSpace)
    (s s1 : LinearPrunedSearch) (status : Status) (cost : ℚ)
    (h : Report ms s status cost = some s1) :
    (s1.iterator_.IndexFactorization ≠ s.iterator_.IndexFactorization →
      s1.mapspace_ = s1.iterator_.IndexFactorization :: s.mapspace_ ∧ s1.best_cost_ = 0) ∧
    (s1.iterator_.IndexFactorization = s.iterator_.IndexFactorization →
      s1.mapspace_ = s.mapspace_ ∧
      s1.best_cost_ = (Report.bookkeeping s status cost).best_cost_) := by
  rcases Report_factorization ms s s1 status cost h with ⟨h1, h2, h3⟩ | ⟨-, -, h2, h3, h4⟩
  · exact ⟨fun hne => absurd h1 hne, fun _ => ⟨h2, h3⟩⟩
  · refine ⟨fun _ => ⟨by rw [h3, h2], h4⟩, fun he => ?_⟩
    rw [h2] at he
    exact absurd he (Nat.succ_ne_self _)

/-- C12, witness: a Success report at the last identifier of IndexFactorization 0,
over sizes DatatypeBypass=1, Spatial=1, LoopPermutation=1, IndexFactorization=2. -/
theorem report_reprunes_exactly_on_factorization_change_witness :
    Report (fixedSpace 1 1 1 2)
        { LinearPrunedSearch.new 0 with state_ := State.WaitingForStatus } Status.Success 5
      = some { LinearPrunedSearch.new 0 with
          iterator_ := ⟨1, 0, 0, 0⟩, mapspace_ := [1, 0], valid_mappings_ := 1 } ∧
    ((1 : Nat) ≠ 0 → ([1, 0] : List Nat) = 1 :: [0] ∧ (0 : ℚ) = 0) :=
  ⟨by decide,
   (report_reprunes_exactly_on_factorization_change (fixedSpace 1 1 1 2)
      { LinearPrunedSearch.new 0 with state_ := State.WaitingForStatus }
      { LinearPrunedSearch.new 0 with
          iterator_ := ⟨1, 0, 0, 0⟩, mapspace_ := [1, 0], valid_mappings_ := 1 }
      Status.Success 5 (by decide)).1⟩

/-- C1. For every mapping space whose four dimension sizes are fixed, each at
least 1 (and a `uint128_t` value), and every list of reported statuses and
costs: the driver loop (alternating `Next()`/`Report` from the initial state)
never fails, and if pruning never triggers along it (no combination has
EvalFailure reported for all of its DatatypeBypass values) then the emitted
identifiers are pairwise distinct members of the Cartesian product; with fewer
reports than the product of the sizes the engine is still Ready and every
report was consumed; with at least that many reports the engine is Terminated
after exactly (product of the four sizes) `Report` calls, and every identifier
of the Cartesian product has been emitted. -/
theorem search_enumerates_product (nd ns nl nf id : Nat)
    (hd1 : 1 ≤ nd) (hd2 : nd < U128) (hs1 : 1 ≤ ns) (hs2 : ns < U128)
    (hl1 : 1 ≤ nl) (hl2 : nl < U128) (hf1 : 1 ≤ nf) (hf2 : nf < U128)
    (reports : List (Status × ℚ)) :
    ∃ trace s1,
      run (fixedSpace nd ns nl nf) reports (LinearPrunedSearch.new id) = some (trace, s1) ∧
      (NeverAllFailed nd trace →
        (trace.map Prod.fst).Nodup ∧
        (∀ x ∈ trace.map Prod.fst, InSpace nd ns nl nf x) ∧
        (reports.length < nd * ns * nl * nf →
          trace.length = reports.length ∧ s1.state_ = State.Ready) ∧
        (nd * ns * nl * nf ≤ reports.length →
          trace.length = nd * ns * nl * nf ∧ s1.state_ = State.Terminated ∧
          ∀ x, InSpace nd ns nl nf x → x ∈ trace.map Prod.fst)) := by
  obtain ⟨trace, s1, hrun⟩ := run_total (fixedSpace nd ns nl nf) reports
    (LinearPrunedSearch.new id) (show State.Ready ≠ State.WaitingForStatus by decide)
  refine ⟨trace, s1, hrun, fun hnever => ?_⟩
  have hr0 : rank nd ns nl (LinearPrunedSearch.new id).iterator_ = 0 := by
    show ((0 * nl + 0) * ns + 0) * nd + 0 = 0
    simp
  obtain ⟨g1, g2, g3, g4⟩ := run_noprune nd ns nl nf hd1 hd2 hs1 hs2 hl1 hl2 hf1 hf2 reports
    (LinearPrunedSearch.new id) s1 [] trace rfl ⟨hd1, hs1, hl1, hf1⟩ (Nat.le_refl _)
    (fun _ j hj => absurd hj (Nat.not_lt_zero _)) hrun hnever
  rw [hr0] at g1 g3 g4
  have hmap : (trace.map Prod.fst).map (rank nd ns nl) = List.range' 0 trace.length := by
    rw [List.map_map]
    exact g1
  refine ⟨?_, ?_, fun h => g3 (by omega), fun h => ?_⟩
  · refine List.Nodup.of_map (rank nd ns nl) ?_
    rw [hmap]
    exact List.nodup_range' _ _
  · intro x hx
    obtain ⟨p, hp, hpx⟩ := List.mem_map.1 hx
    rw [← hpx]
    exact g2 p hp
  · obtain ⟨a1, a2⟩ := g4 (by omega)
    have hlen : trace.length = nd * ns * nl * nf := by omega
    refine ⟨hlen, a2, fun x hx => ?_⟩
    have hxr : rank nd ns nl x ∈ (trace.map Prod.fst).map (rank nd ns nl) := by
      rw [hmap, List.mem_range'_1]
      have := rank_lt nd ns nl nf x hx
      omega
    obtain ⟨y, hy, hyx⟩ := List.mem_map.1 hxr
    obtain ⟨p, hp, hpy⟩ := List.mem_map.1 hy
    have hyin : InSpace nd ns nl nf y := by
      rw [← hpy]
      exact g2 p hp
    rw [← rank_inj nd ns nl nf y x hyin hx hyx]
    exact hy

/-- C1, witness: sizes DatatypeBypass=2, Spatial=1, LoopPermutation=1,
IndexFactorization=2 and five reports, one of them an EvalFailure: the four
identifiers of the product are emitted once each, pruning never triggers, and
the engine is Terminated after four `Report` calls. -/
theorem search_enumerates_product_witness :
    (∃ trace s1,
      run (fixedSpace 2 1 1 2)
        [(Status.Success, 3), (Status.EvalFailure, 0), (Status.MappingConstructionFailure, 0),
          (Status.Success, 2), (Status.Success, 1)] (LinearPrunedSearch.new 0)
        = some (trace, s1) ∧
      (NeverAllFailed 2 trace →
        (trace.map Prod.fst).Nodup ∧
        (∀ x ∈ trace.map Prod.fst, InSpace 2 1 1 2 x) ∧
        (5 < 2 * 1 * 1 * 2 → trace.length = 5 ∧ s1.state_ = State.Ready) ∧
        (2 * 1 * 1 * 2 ≤ 5 →
          trace.length = 2 * 1 * 1 * 2 ∧ s1.state_ = State.Terminated ∧
          ∀ x, InSpace 2 1 1 2 x → x ∈ trace.map Prod.fst))) ∧
    (run (fixedSpace 2 1 1 2)
        [(Status.Success, 3), (Status.EvalFailure, 0), (Status.MappingConstructionFailure, 0),
          (Status.Success, 2), (Status.Success, 1)] (LinearPrunedSearch.new 0)).map Prod.fst
      = some [(⟨0, 0, 0, 0⟩, Status.Success), (⟨0, 0, 0, 1⟩, Status.EvalFailure),
          (⟨1, 0, 0, 0⟩, Status.MappingConstructionFailure), (⟨1, 0, 0, 1⟩, Status.Success)] ∧
    NeverAllFailed 2
      [(⟨0, 0, 0, 0⟩, Status.Success), (⟨0, 0, 0, 1⟩, Status.EvalFailure),
        (⟨1, 0, 0, 0⟩, Status.MappingConstructionFailure), (⟨1, 0, 0, 1⟩, Status.Success)] :=
  ⟨search_enumerates_product 2 1 1 2 0 (by decide) (by decide) (by decide) (by decide)
      (by decide) (by decide) (by decide) (by decide) _,
    by decide,
    fun f l sp h => by
      have h0 := h 0 (by decide)
      simp at h0⟩

/-- C23. For a mapping space whose dimension sizes are all positive `uint128_t` values
whatever the pruning (the sizes of DatatypeBypass, Spatial and LoopPermutation
may change with each `InitPruned`, the size of IndexFactorization may not): in
every state reached from construction by a sequence of `Next()` and `Report`
calls, each cursor component is strictly less than the current size of its
dimension, and so is each component of an identifier that `Next()` emits. -/
theorem cursor_within_bounds (ms : MapSpace)
    (hsize : ∀ h dim, 1 ≤ ms.Size h dim ∧ ms.Size h dim < U128)
    (hfix : ∀ h1 h2, ms.Size h1 Dimension.IndexFactorization
      = ms.Size h2 Dimension.IndexFactorization)
    (id : Nat) (calls : List Call) (s : LinearPrunedSearch)
    (hexec : exec ms calls (LinearPrunedSearch.new id) = some s) :
    (∀ dim, s.iterator_.get dim < ms.Size s.mapspace_ dim) ∧
    (∀ x s1, Next s = some (some x, s1) → ∀ dim, x.get dim < ms.Size s1.mapspace_ dim) := by
  obtain ⟨r1, r2, r3⟩ := exec_range ms calls _ s (new_range ms id) hexec
  have r4 := exec_factorization_range ms hfix calls _ s (new_range ms id) (Nat.zero_le _) hexec
  have key : ∀ dim, s.iterator_.get dim < ms.Size s.mapspace_ dim := by
    intro dim
    have hs := hsize s.mapspace_ dim
    have e := sub128_one _ hs.1 hs.2
    cases dim with
    | IndexFactorization => rw [e] at r4; show s.iterator_.IndexFactorization < _; omega
    | LoopPermutation => rw [e] at r3; show s.iterator_.LoopPermutation < _; omega
    | Spatial => rw [e] at r2; show s.iterator_.Spatial < _; omega
    | DatatypeBypass => rw [e] at r1; show s.iterator_.DatatypeBypass < _; omega
  refine ⟨key, ?_⟩
  intro x s1 hN dim
  obtain ⟨-, f2, -, f4⟩ := Next_frame s s1 (some x) hN
  rw [f4 x rfl, f2]
  exact key dim

/-- C23, witness: a space of sizes 2, 2, 1, 2 after two rounds and a third `Next()`. -/
theorem cursor_within_bounds_witness :
    (∀ h dim, 1 ≤ (fixedSpace 2 2 1 2).Size h dim ∧ (fixedSpace 2 2 1 2).Size h dim < U128) ∧
    ∃ s,
      exec (fixedSpace 2 2 1 2)
        [Call.next, Call.report Status.Success 3, Call.next, Call.report Status.EvalFailure 0,
          Call.next]
        (LinearPrunedSearch.new 0) = some s ∧
      s.iterator_ = ⟨0, 0, 1, 0⟩ ∧
      (∀ dim, s.iterator_.get dim < (fixedSpace 2 2 1 2).Size s.mapspace_ dim) ∧
      (∀ x s1, Next s = some (some x, s1) →
        ∀ dim, x.get dim < (fixedSpace 2 2 1 2).Size s1.mapspace_ dim) :=
  ⟨fixedSpace_size 2 2 1 2 (by decide) (by decide) (by decide) (by decide) (by decide)
      (by decide) (by decide) (by decide),
    _, rfl, rfl,
    cursor_within_bounds (fixedSpace 2 2 1 2)
      (fixedSpace_size 2 2 1 2 (by decide) (by decide) (by decide) (by decide) (by decide)
        (by decide) (by decide) (by decide))
      (fun _ _ => rfl) 0
      [Call.next, Call.report Status.Success 3, Call.next, Call.report Status.EvalFailure 0,
        Call.next]
      _ rfl⟩

/-- C24, counterexample. A mapping space whose DatatypeBypass dimension has size 0 (the
other sizes are 1): the product of the four sizes is 0, and yet the engine
completes two rounds and is still Ready. -/
theorem empty_dimension_not_terminated :
    0 * 1 * 1 * 1 = 0 ∧
    ∃ trace s1,
      run (fixedSpace 0 1 1 1) [(Status.Success, 0), (Status.Success, 0)]
        (LinearPrunedSearch.new 0) = some (trace, s1) ∧
      trace.length = 2 ∧ s1.state_ = State.Ready :=
  ⟨rfl, _, _, rfl, rfl, rfl⟩

/-- C24, amended. For every mapping space and every sequence of calls and reports
(pruning included): a `Report` made in a state reached from construction that
leaves the engine Ready makes the cursor strictly greater in the lexicographic
order keyed (IndexFactorization, LoopPermutation, Spatial, DatatypeBypass);
the identifiers that the driver loop emits are pairwise distinct; and for fixed
dimension sizes that are positive `uint128_t` values the driver loop never
fails, makes at most (product of the four sizes) rounds, and leaves the engine
Terminated when it is given at least that many reports. -/
theorem report_advances_cursor :
    (∀ (ms : MapSpace) (id : Nat) (calls : List Call) (s s1 : LinearPrunedSearch)
        (status : Status) (cost : ℚ),
      exec ms calls (LinearPrunedSearch.new id) = some s →
      Report ms s status cost = some s1 → s1.state_ = State.Ready →
      lexLt s.iterator_ s1.iterator_) ∧
    (∀ (ms : MapSpace) (id : Nat) (rs : List (Status × ℚ)) (trace : List (ID × Status))
        (s1 : LinearPrunedSearch),
      run ms rs (LinearPrunedSearch.new id) = some (trace, s1) →
      (trace.map Prod.fst).Nodup) ∧
    (∀ (nd ns nl nf id : Nat) (rs : List (Status × ℚ)),
      1 ≤ nd → nd < U128 → 1 ≤ ns → ns < U128 → 1 ≤ nl → nl < U128 → 1 ≤ nf → nf < U128 →
      (∃ trace s1,
        run (fixedSpace nd ns nl nf) rs (LinearPrunedSearch.new id) = some (trace, s1)) ∧
      ∀ trace s1,
        run (fixedSpace nd ns nl nf) rs (LinearPrunedSearch.new id) = some (trace, s1) →
        trace.length ≤ nd * ns * nl * nf ∧
        (nd * ns * nl * nf ≤ rs.length → s1.state_ = State.Terminated)) := by
  refine ⟨?_, ?_, ?_⟩
  · intro ms id calls s s1 status cost hexec hrep hready
    have hr := exec_range ms calls _ s (new_range ms id) hexec
    exact (Report_invariant ms s s1 status cost hr hrep).2.1 hready
  · intro ms id rs trace s1 hrun
    obtain ⟨-, hp⟩ := run_sorted ms rs _ s1 trace (new_range ms id) hrun
    unfold List.Nodup
    rw [List.pairwise_map]
    exact hp.imp (fun hab => lexLt_ne _ _ hab)
  · intro nd ns nl nf id rs hd1 hd2 hs1 hs2 hl1 hl2 hf1 hf2
    refine ⟨run_total (fixedSpace nd ns nl nf) rs (LinearPrunedSearch.new id)
      (show State.Ready ≠ State.WaitingForStatus by decide), ?_⟩
    intro trace s1 hrun
    have hin : InSpace nd ns nl nf (LinearPrunedSearch.new id).iterator_ :=
      ⟨hd1, hs1, hl1, hf1⟩
    have hr0 : rank nd ns nl (LinearPrunedSearch.new id).iterator_ = 0 := by
      show ((0 * nl + 0) * ns + 0) * nd + 0 = 0
      simp
    obtain ⟨b1, b2⟩ := run_bound nd ns nl nf hd1 hd2 hs1 hs2 hl1 hl2 hf1 hf2 rs
      (LinearPrunedSearch.new id) s1 trace rfl hin hrun
    rw [hr0] at b1 b2
    exact ⟨by omega, fun hle => b2 (by omega)⟩

/-- C24, witness: sizes 2, 1, 1, 2 and five reports, the first two EvalFailure: the
second report prunes, four identifiers are emitted, all distinct, and the
engine is Terminated. -/
theorem report_advances_cursor_witness :
    (1 ≤ 2 ∧ 2 < U128 ∧ 1 ≤ 1 ∧ 1 < U128) ∧
    (run (fixedSpace 2 1 1 2)
        [(Status.EvalFailure, 0), (Status.EvalFailure, 0), (Status.Success, 1),
          (Status.Success, 2), (Status.Success, 3)]
        (LinearPrunedSearch.new 0)
      = some
          ([(⟨0, 0, 0, 0⟩, Status.EvalFailure), (⟨0, 0, 0, 1⟩, Status.EvalFailure),
              (⟨1, 0, 0, 0⟩, Status.Success), (⟨1, 0, 0, 1⟩, Status.Success)],
            ⟨[1, 0], 0, State.Terminated, ⟨1, 0, 0, 0⟩, 2, 0, 1⟩) ∧
      ([(⟨0, 0, 0, 0⟩, Status.EvalFailure), (⟨0, 0, 0, 1⟩, Status.EvalFailure),
          (⟨1, 0, 0, 0⟩, Status.Success),
          ((⟨1, 0, 0, 1⟩ : ID), Status.Success)].map Prod.fst).Nodup ∧
      [(⟨0, 0, 0, 0⟩, Status.EvalFailure), (⟨0, 0, 0, 1⟩, Status.EvalFailure),
          (⟨1, 0, 0, 0⟩, Status.Success), ((⟨1, 0, 0, 1⟩ : ID), Status.Success)].length
        ≤ 2 * 1 * 1 * 2 ∧
      (2 * 1 * 1 * 2
          ≤ [(Status.EvalFailure, (0 : ℚ)), (Status.EvalFailure, 0), (Status.Success, 1),
              (Status.Success, 2), (Status.Success, 3)].length →
        (⟨[1, 0], 0, State.Terminated, ⟨1, 0, 0, 0⟩, 2, 0, 1⟩ : LinearPrunedSearch).state_
          = State.Terminated)) ∧
    (exec (fixedSpace 2 1 1 2) [Call.next, Call.report Status.EvalFailure 0, Call.next]
        (LinearPrunedSearch.new 0)
      = some ⟨[0], 0, State.WaitingForStatus, ⟨0, 0, 0, 1⟩, 0, 1, 0⟩ ∧
      Report (fixedSpace 2 1 1 2) ⟨[0], 0, State.WaitingForStatus, ⟨0, 0, 0, 1⟩, 0, 1, 0⟩
          Status.EvalFailure 0
        = some ⟨[1, 0], 0, State.Ready, ⟨1, 0, 0, 0⟩, 0, 0, 0⟩ ∧
      lexLt (⟨0, 0, 0, 1⟩ : ID) ⟨1, 0, 0, 0⟩) :=
  ⟨⟨by decide, by decide, by decide, by decide⟩,
    ⟨by decide,
      report_advances_cursor.2.1 (fixedSpace 2 1 1 2) 0
        [(Status.EvalFailure, 0), (Status.EvalFailure, 0), (Status.Success, 1),
          (Status.Success, 2), (Status.Success, 3)]
        [(⟨0, 0, 0, 0⟩, Status.EvalFailure), (⟨0, 0, 0, 1⟩, Status.EvalFailure),
          (⟨1, 0, 0, 0⟩, Status.Success), (⟨1, 0, 0, 1⟩, Status.Success)]
        ⟨[1, 0], 0, State.Terminated, ⟨1, 0, 0, 0⟩, 2, 0, 1⟩ (by decide),
      (report_advances_cursor.2.2 2 1 1 2 0
        [(Status.EvalFailure, 0), (Status.EvalFailure, 0), (Status.Success, 1),
          (Status.Success, 2), (Status.Success, 3)]
        (by decide) (by decide) (by decide) (by decide)
        (by decide) (by decide) (by decide) (by decide)).2
        [(⟨0, 0, 0, 0⟩, Status.EvalFailure), (⟨0, 0, 0, 1⟩, Status.EvalFailure),
          (⟨1, 0, 0, 0⟩, Status.Success), (⟨1, 0, 0, 1⟩, Status.Success)]
        ⟨[1, 0], 0, State.Terminated, ⟨1, 0, 0, 0⟩, 2, 0, 1⟩ (by decide)⟩,
    by decide, by decide,
    report_advances_cursor.1 (fixedSpace 2 1 1 2) 0
      [Call.next, Call.report Status.EvalFailure 0, Call.next]
      ⟨[0], 0, State.WaitingForStatus, ⟨0, 0, 0, 1⟩, 0, 1, 0⟩
      ⟨[1, 0], 0, State.Ready, ⟨1, 0, 0, 0⟩, 0, 0, 0⟩ Status.EvalFailure 0
      (by decide) (by decide) rfl⟩

/-- C22, counterexample. A mapping space whose DatatypeBypass dimension has size 2^64
(Spatial size 2, the other sizes 1) and 2^64 reports, all EvalFailure: every
DatatypeBypass value of the first combination is reported as EvalFailure, and
yet no `Report` prunes: the 64-bit failure counter wraps to 0 at the last
report, and the engine goes on, Ready, with the next Spatial value of the same
IndexFactorization value. -/
theorem pruning_missed_at_counter_width :
    ∃ trace s1,
      run (fixedSpace U64 2 1 1) (List.replicate U64 (Status.EvalFailure, 0))
        (LinearPrunedSearch.new 0) = some (trace, s1) ∧
      (∀ d, d < (fixedSpace U64 2 1 1).Size s1.mapspace_ Dimension.DatatypeBypass →
        ((⟨0, 0, 0, d⟩ : ID), Status.EvalFailure) ∈ trace) ∧
      s1.state_ = State.Ready ∧ s1.iterator_ = ⟨0, 0, 1, 0⟩ := by
  have hpos : 0 + (U64 - 1) < U64 := by decide
  have hsplit : List.replicate U64 ((Status.EvalFailure, 0) : Status × ℚ)
      = List.replicate (U64 - 1) (Status.EvalFailure, 0) ++ [(Status.EvalFailure, 0)] := by
    rw [← List.replicate_succ']
    congr 1
  have hlast : run (fixedSpace U64 2 1 1) [(Status.EvalFailure, 0)]
        ⟨[0], 0, State.Ready, ⟨0, 0, 0, 0 + (U64 - 1)⟩, 0, 0 + (U64 - 1), 0⟩
      = some ([((⟨0, 0, 0, 0 + (U64 - 1)⟩ : ID), Status.EvalFailure)],
          ⟨[0], 0, State.Ready, ⟨0, 0, 1, 0⟩, 0, 0, 0⟩) := by
    decide
  have hrun := run_fail_prefix U64 2 1 1 0 (le_refl _) [(Status.EvalFailure, 0)] (U64 - 1) 0
    hpos
  rw [hlast, Option.map_some'] at hrun
  refine ⟨(List.range' 0 (U64 - 1)).map (fun j => ((⟨0, 0, 0, j⟩ : ID), Status.EvalFailure))
      ++ [((⟨0, 0, 0, 0 + (U64 - 1)⟩ : ID), Status.EvalFailure)],
    ⟨[0], 0, State.Ready, ⟨0, 0, 1, 0⟩, 0, 0, 0⟩, ?_, ?_, rfl, rfl⟩
  · rw [hsplit]
    exact hrun
  · intro d hd
    have hd2 : d < U64 := hd
    rw [List.mem_append]
    by_cases hlt : d < U64 - 1
    · left
      exact List.mem_map.2 ⟨d, List.mem_range'_1.2 ⟨Nat.zero_le _, by omega⟩, rfl⟩
    · right
      have hd3 : d = 0 + (U64 - 1) := by omega
      rw [hd3]
      exact List.mem_singleton.2 rfl

/-- C22, amended. For a mapping space whose dimension sizes are all positive `uint128_t`
values and whose DatatypeBypass size is below 2^64 (the failure counter is a
64-bit value), whatever the pruning: whenever the driver loop leaves the engine
Ready, the failure counter equals the number of DatatypeBypass values already
visited in the current (IndexFactorization, LoopPermutation, Spatial)
combination that were reported as EvalFailure; it is at most the DatatypeBypass
cursor, so 0 when that cursor is 0; and the pruning check of the next `Report`
triggers if and only if every DatatypeBypass value of the current combination,
the one being reported included, was reported as EvalFailure. -/
theorem failure_counter_counts (ms : MapSpace)
    (hsize : ∀ h dim, 1 ≤ ms.Size h dim ∧ ms.Size h dim < U128)
    (h64 : ∀ h, ms.Size h Dimension.DatatypeBypass < U64)
    (id : Nat) (rs : List (Status × ℚ)) (trace : List (ID × Status)) (s1 : LinearPrunedSearch)
    (hrun : run ms rs (LinearPrunedSearch.new id) = some (trace, s1))
    (hready : s1.state_ = State.Ready) :
    s1.eval_fail_count_ = failureCount trace s1.iterator_ ∧
    s1.eval_fail_count_ ≤ s1.iterator_.DatatypeBypass ∧
    (s1.iterator_.DatatypeBypass = 0 → s1.eval_fail_count_ = 0) ∧
    ∀ status cost,
      Report.pruningTriggers ms
          (Report.bookkeeping { s1 with state_ := State.WaitingForStatus } status cost) ↔
        ∀ d, d < ms.Size s1.mapspace_ Dimension.DatatypeBypass →
          ((⟨s1.iterator_.IndexFactorization, s1.iterator_.LoopPermutation,
              s1.iterator_.Spatial, d⟩ : ID), Status.EvalFailure)
            ∈ trace ++ [(s1.iterator_, status)] := by
  obtain ⟨⟨r1, -, -⟩, hall, hcnt⟩ := run_counter ms hsize h64 rs (LinearPrunedSearch.new id) s1
    [] trace rfl (new_range ms id) (fun p hp => absurd hp (List.not_mem_nil _)) rfl hrun hready
  rw [List.nil_append] at hall hcnt
  have hle := failureCount_le trace s1.iterator_
  rw [← hcnt] at hle
  have hd1 := (hsize s1.mapspace_ Dimension.DatatypeBypass).1
  have hd2 := h64 s1.mapspace_
  have h128 := U64_lt_U128
  have e1 : sub128 (ms.Size s1.mapspace_ Dimension.DatatypeBypass) 1
      = ms.Size s1.mapspace_ Dimension.DatatypeBypass - 1 := sub128_one _ hd1 (by omega)
  rw [e1] at r1
  refine ⟨hcnt, hle, fun h0 => by omega, ?_⟩
  intro status cost
  have hnot : ∀ st, ((⟨s1.iterator_.IndexFactorization, s1.iterator_.LoopPermutation,
      s1.iterator_.Spatial, s1.iterator_.DatatypeBypass⟩ : ID), st) ∉ trace :=
    fun st hm => lexLt_irrefl s1.iterator_ (hall _ hm)
  unfold Report.pruningTriggers
  rw [(bookkeeping_frame _ status cost).1, (bookkeeping_frame _ status cost).2.1,
    bookkeeping_fail_count]
  show (s1.iterator_.DatatypeBypass = sub128 (ms.Size s1.mapspace_ Dimension.DatatypeBypass) 1 ∧
      (if status = Status.EvalFailure then (s1.eval_fail_count_ + 1) % U64
        else s1.eval_fail_count_) = ms.Size s1.mapspace_ Dimension.DatatypeBypass) ↔ _
  rw [e1]
  constructor
  · rintro ⟨hlast, hc⟩
    by_cases hs : status = Status.EvalFailure
    · rw [if_pos hs, Nat.mod_eq_of_lt (by omega)] at hc
      have hfull : failureCount trace s1.iterator_ = s1.iterator_.DatatypeBypass := by
        rw [← hcnt]; omega
      intro d hd
      rw [List.mem_append]
      by_cases hlt : d < s1.iterator_.DatatypeBypass
      · exact Or.inl ((failureCount_eq_iff trace s1.iterator_).1 hfull d hlt)
      · right
        have hd3 : d = s1.iterator_.DatatypeBypass := by omega
        rw [hd3, hs]
        exact List.mem_singleton.2 rfl
    · rw [if_neg hs] at hc
      omega
  · intro hall2
    have hcur := hall2 s1.iterator_.DatatypeBypass (by omega)
    rw [List.mem_append] at hcur
    have hs : status = Status.EvalFailure := by
      rcases hcur with h | h
      · exact absurd h (hnot _)
      · exact (congrArg Prod.snd (List.mem_singleton.1 h)).symm
    have hlast : s1.iterator_.DatatypeBypass
        = ms.Size s1.mapspace_ Dimension.DatatypeBypass - 1 := by
      by_contra hne
      have hm := hall2 (ms.Size s1.mapspace_ Dimension.DatatypeBypass - 1) (by omega)
      rw [List.mem_append] at hm
      rcases hm with h | h
      · have hl := hall _ h
        unfold lexLt at hl
        dsimp only at hl
        omega
      · have h1 := congrArg (fun q : ID × Status => q.1.DatatypeBypass) (List.mem_singleton.1 h)
        dsimp only at h1
        omega
    have hfull : failureCount trace s1.iterator_ = s1.iterator_.DatatypeBypass := by
      rw [failureCount_eq_iff]
      intro d hd
      have hm := hall2 d (by omega)
      rw [List.mem_append] at hm
      rcases hm with h | h
      · exact h
      · have h1 := congrArg (fun q : ID × Status => q.1.DatatypeBypass) (List.mem_singleton.1 h)
        dsimp only at h1
        omega
    refine ⟨hlast, ?_⟩
    rw [if_pos hs, hcnt, hfull, Nat.mod_eq_of_lt (by omega)]
    omega

/-- C22, witness: sizes 2, 2, 1, 1 and one EvalFailure report: the engine is Ready at the
DatatypeBypass value 1 with the failure counter 1. -/
theorem failure_counter_counts_witness :
    (∀ h, (fixedSpace 2 2 1 1).Size h Dimension.DatatypeBypass < U64) ∧
    run (fixedSpace 2 2 1 1) [(Status.EvalFailure, 0)] (LinearPrunedSearch.new 0)
      = some ([(⟨0, 0, 0, 0⟩, Status.EvalFailure)],
          ⟨[0], 0, State.Ready, ⟨0, 0, 0, 1⟩, 0, 1, 0⟩) ∧
    (1 = failureCount [((⟨0, 0, 0, 0⟩ : ID), Status.EvalFailure)] ⟨0, 0, 0, 1⟩ ∧
      1 ≤ (⟨0, 0, 0, 1⟩ : ID).DatatypeBypass) ∧
    (Report.pruningTriggers (fixedSpace 2 2 1 1)
        (Report.bookkeeping ⟨[0], 0, State.WaitingForStatus, ⟨0, 0, 0, 1⟩, 0, 1, 0⟩
          Status.EvalFailure 0) ↔
      ∀ d, d < 2 →
        ((⟨0, 0, 0, d⟩ : ID), Status.EvalFailure)
          ∈ [((⟨0, 0, 0, 0⟩ : ID), Status.EvalFailure)]
            ++ [((⟨0, 0, 0, 1⟩ : ID), Status.EvalFailure)]) :=
  ⟨fun _ => (show 2 < U64 by decide), by decide,
    ⟨(failure_counter_counts (fixedSpace 2 2 1 1)
        (fixedSpace_size 2 2 1 1 (by decide) (by decide) (by decide) (by decide) (by decide)
          (by decide) (by decide) (by decide))
        (fun _ => (show 2 < U64 by decide)) 0 [(Status.EvalFailure, 0)]
        [(⟨0, 0, 0, 0⟩, Status.EvalFailure)] ⟨[0], 0, State.Ready, ⟨0, 0, 0, 1⟩, 0, 1, 0⟩
        (by decide) rfl).1,
      (failure_counter_counts (fixedSpace 2 2 1 1)
        (fixedSpace_size 2 2 1 1 (by decide) (by decide) (by decide) (by decide) (by decide)
          (by decide) (by decide) (by decide))
        (fun _ => (show 2 < U64 by decide)) 0 [(Status.EvalFailure, 0)]
        [(⟨0, 0, 0, 0⟩, Status.EvalFailure)] ⟨[0], 0, State.Ready, ⟨0, 0, 0, 1⟩, 0, 1, 0⟩
        (by decide) rfl).2.1⟩,
    (failure_counter_counts (fixedSpace 2 2 1 1)
      (fixedSpace_size 2 2 1 1 (by decide) (by decide) (by decide) (by decide) (by decide)
        (by decide) (by decide) (by decide))
      (fun _ => (show 2 < U64 by decide)) 0 [(Status.EvalFailure, 0)]
      [(⟨0, 0, 0, 0⟩, Status.EvalFailure)] ⟨[0], 0, State.Ready, ⟨0, 0, 0, 1⟩, 0, 1, 0⟩
      (by decide) rfl).2.2.2 Status.EvalFailure 0⟩

end search

namespace model

/-! ## Double-precision arithmetic: the digit count -/

/-- One bisection step of the digit count on a number `n`: what is left is below
`2^k` afterwards, it is `n` without the digits dropped, and it is not zero
unless `n` is. -/
theorem bitLengthStep_spec (n k : Nat) (p : Nat × Nat)
    (h : p.1 < 2 ^ (k + k) ∧ p.1 = n / 2 ^ p.2 ∧ (n ≠ 0 → p.1 ≠ 0)) :
    (bitLengthStep p k).1 < 2 ^ k ∧ (bitLengthStep p k).1 = n / 2 ^ (bitLengthStep p k).2 ∧
    (n ≠ 0 → (bitLengthStep p k).1 ≠ 0) := by
  obtain ⟨h1, h2, h3⟩ := h
  unfold bitLengthStep
  by_cases hk : 2 ^ k ≤ p.1
  · rw [if_pos hk]
    refine ⟨?_, ?_, ?_⟩
    · show p.1 / 2 ^ k < 2 ^ k
      apply Nat.div_lt_of_lt_mul
      rw [← pow_add]
      exact h1
    · show p.1 / 2 ^ k = n / 2 ^ (p.2 + k)
      rw [h2, Nat.div_div_eq_div_mul, pow_add]
    · intro _
      show p.1 / 2 ^ k ≠ 0
      exact Nat.ne_of_gt (Nat.div_pos hk (by positivity))
  · rw [if_neg hk]
    exact ⟨by omega, h2, h3⟩

/-- The digit count of a number below `2^64`. -/
theorem bitLength64_spec (n : Nat) (h : n < 2 ^ 64) :
    n < 2 ^ bitLength64 n ∧ (n ≠ 0 → 2 ^ (bitLength64 n - 1) ≤ n) := by
  have s0 : ((n, 0) : Nat × Nat).1 < 2 ^ (32 + 32) ∧
      ((n, 0) : Nat × Nat).1 = n / 2 ^ ((n, 0) : Nat × Nat).2 ∧
      (n ≠ 0 → ((n, 0) : Nat × Nat).1 ≠ 0) :=
    ⟨h, by show n = n / 2 ^ 0; rw [pow_zero, Nat.div_one], fun hn => hn⟩
  have s6 := bitLengthStep_spec n 1 _ (bitLengthStep_spec n 2 _ (bitLengthStep_spec n 4 _
    (bitLengthStep_spec n 8 _ (bitLengthStep_spec n 16 _ (bitLengthStep_spec n 32 _ s0)))))
  unfold bitLength64
  simp only [List.foldl_cons, List.foldl_nil]
  generalize bitLengthStep (bitLengthStep (bitLengthStep (bitLengthStep (bitLengthStep
    (bitLengthStep (n, 0) 32) 16) 8) 4) 2) 1 = p at s6
  obtain ⟨c, a⟩ := p
  obtain ⟨t1, t2, t3⟩ := s6
  dsimp only at t1 t2 t3 ⊢
  by_cases hc : c = 0
  · rw [if_pos hc]
    have hn : n = 0 := by
      by_contra hne
      exact t3 hne hc
    rw [hn]
    exact ⟨by decide, fun h0 => absurd rfl h0⟩
  · rw [if_neg hc]
    have hc1 : c = 1 := by omega
    rw [hc1] at t2
    have hpos : 0 < 2 ^ a := by positivity
    have h6 := Nat.div_add_mod n (2 ^ a)
    have h7 := Nat.mod_lt n hpos
    rw [← t2, Nat.mul_one] at h6
    refine ⟨by rw [pow_succ]; omega, fun _ => ?_⟩
    rw [Nat.add_sub_cancel]
    omega

/-- The digit count, 64 digits at a time, given enough steps. -/
theorem bitLengthAux_spec :
    ∀ (fuel n : Nat), n ≤ fuel →
      n < 2 ^ bitLengthAux fuel n ∧ (n ≠ 0 → 2 ^ (bitLengthAux fuel n - 1) ≤ n) := by
  intro fuel
  induction fuel with
  | zero =>
    intro n hn
    have h0 : n = 0 := by omega
    rw [h0]
    exact ⟨by decide, fun h => absurd rfl h⟩
  | succ fuel ih =>
    intro n hn
    rw [bitLengthAux]
    by_cases h : n < 2 ^ 64
    · rw [if_pos h]
      exact bitLength64_spec n h
    · rw [if_neg h]
      have hK : 2 ≤ 2 ^ 64 := by norm_num
      generalize hKdef : 2 ^ 64 = K at h hK ⊢
      have hge : K ≤ n := by omega
      have hq : n / K ≠ 0 := Nat.ne_of_gt (Nat.div_pos hge (by omega))
      have h6 := Nat.div_add_mod n K
      have h7 := Nat.mod_lt n (show 0 < K by omega)
      generalize n / K = q at hq h6 ⊢
      generalize n % K = r at h6 h7
      have h8 : 2 * q ≤ K * q := Nat.mul_le_mul_right _ hK
      obtain ⟨i1, i2⟩ := ih q (by omega)
      have i3 := i2 hq
      generalize bitLengthAux fuel q = b at i1 i3
      have hb : b ≠ 0 := by
        intro hb0
        rw [hb0, pow_zero] at i1
        omega
      constructor
      · rw [pow_add, hKdef, Nat.mul_comm]
        have a1 : K * (q + 1) ≤ K * 2 ^ b := Nat.mul_le_mul_left K i1
        rw [Nat.mul_succ] at a1
        omega
      · intro _
        have e : b + 64 - 1 = (b - 1) + 64 := by omega
        rw [e, pow_add, hKdef, Nat.mul_comm]
        have a2 : K * 2 ^ (b - 1) ≤ K * q := Nat.mul_le_mul_left K i3
        omega

/-- The digit count: `n` has `bitLength n` binary digits. -/
theorem bitLength_spec (n : Nat) :
    n < 2 ^ bitLength n ∧ (n ≠ 0 → 2 ^ (bitLength n - 1) ≤ n) :=
  bitLengthAux_spec n n (le_refl n)

/-! ## Double-precision arithmetic: signs -/

theorem Double.zero_def : (0 : Double) = Double.fin false 0 (-1074) := rfl

theorem Double.le_def (a b : Double) : (a ≤ b) = (Double.le a b = true) := rfl

theorem Double.lt_def (a b : Double) :
    (a < b) = (Double.le a b = true ∧ Double.le b a = false) := rfl

theorem Double.add_def (a b : Double) : a + b = Double.add a b := rfl

/-- A value below another is not above it or equal to it. -/
theorem Double.not_le_of_lt (a b : Double) (h : a < b) : ¬ b ≤ a := by
  rw [Double.lt_def] at h
  rw [Double.le_def, h.2]
  exact Bool.false_ne_true

theorem Double.signed_nonneg (t : Bool) (n : Nat) (h : t = false ∨ n = 0) :
    0 ≤ Double.signed t n := by
  unfold Double.signed
  rcases h with h | h
  · rw [h]; exact Int.ofNat_nonneg n
  · rw [h]; cases t <;> simp

theorem Double.zero_le_fin (t : Bool) (n : Nat) (f : Int) (h : t = false ∨ n = 0) :
    (0 : Double) ≤ Double.fin t n f := by
  rw [Double.zero_def, Double.le_def]
  unfold Double.le
  rw [decide_eq_true_iff, Nat.zero_shiftLeft]
  have hn : t = false ∨ n <<< (f - min (-1074) f).toNat = 0 := by
    rcases h with h | h
    · exact Or.inl h
    · right; rw [h]; exact Nat.zero_shiftLeft _
  exact Double.signed_nonneg t _ hn

theorem Double.zero_le_inf : (0 : Double) ≤ Double.inf false := by
  rw [Double.zero_def, Double.le_def]
  rfl

/-- The values that are `>= 0`: the positive infinity, and the finite values that
are positive or a zero. -/
theorem Double.zero_le_cases (x : Double) (h : (0 : Double) ≤ x) :
    x = Double.inf false ∨ ∃ t n f, x = Double.fin t n f ∧ (t = false ∨ n = 0) := by
  rw [Double.zero_def, Double.le_def] at h
  cases x with
  | nan => exact absurd h (by simp [Double.le])
  | inf t =>
    left
    cases t with
    | false => rfl
    | true => exact absurd h (by simp [Double.le])
  | fin t n f =>
    right
    refine ⟨t, n, f, rfl, ?_⟩
    cases t with
    | false => exact Or.inl rfl
    | true =>
      right
      unfold Double.le at h
      rw [decide_eq_true_iff, Nat.zero_shiftLeft] at h
      have h3 : n <<< (f - min (-1074) f).toNat = 0 := by
        generalize n <<< (f - min (-1074) f).toNat = v at h
        unfold Double.signed at h
        simp only [if_true, Bool.false_eq_true, if_false, Nat.cast_zero] at h
        omega
      rw [Nat.shiftLeft_eq] at h3
      rcases Nat.mul_eq_zero.1 h3 with h4 | h4
      · exact h4
      · exact absurd h4 (by positivity)

/-- Rounding a non-negative exact value gives a value that is `>= 0`. -/
theorem Double.zero_le_round (m : Nat) (e : Int) : (0 : Double) ≤ Double.round false m e := by
  unfold Double.round
  dsimp only
  split_ifs <;>
    first
      | exact Double.zero_le_inf
      | exact Double.zero_le_fin _ _ _ (Or.inl rfl)

/-- The sum of two values that are `>= 0` is `>= 0`. -/
theorem Double.zero_le_add (a b : Double) (ha : (0 : Double) ≤ a) (hb : (0 : Double) ≤ b) :
    (0 : Double) ≤ a + b := by
  rw [Double.add_def]
  rcases Double.zero_le_cases a ha with ha1 | ⟨s, m, e, ha1, hs⟩
  · rcases Double.zero_le_cases b hb with hb1 | ⟨t, n, f, hb1, -⟩
    · rw [ha1, hb1]; exact Double.zero_le_inf
    · rw [ha1, hb1]; exact Double.zero_le_inf
  · rcases Double.zero_le_cases b hb with hb1 | ⟨t, n, f, hb1, ht⟩
    · rw [ha1, hb1]; exact Double.zero_le_inf
    · rw [ha1, hb1]
      unfold Double.add
      dsimp only
      have h1 : 0 ≤ Double.signed s (m <<< (e - min e f).toNat) := by
        apply Double.signed_nonneg
        rcases hs with h | h
        · exact Or.inl h
        · right; rw [h]; exact Nat.zero_shiftLeft _
      have h2 : 0 ≤ Double.signed t (n <<< (f - min e f).toNat) := by
        apply Double.signed_nonneg
        rcases ht with h | h
        · exact Or.inl h
        · right; rw [h]; exact Nat.zero_shiftLeft _
      split
      · exact Double.zero_le_fin _ _ _ (Or.inr rfl)
      · have h3 : decide (Double.signed s (m <<< (e - min e f).toNat)
            + Double.signed t (n <<< (f - min e f).toNat) < 0) = false := by
          rw [decide_eq_false_iff_not]
          omega
        rw [h3]
        exact Double.zero_le_round _ _

/-- The accumulation of values that are `>= 0` onto a value that is `>= 0` is
`>= 0`. -/
theorem Double.zero_le_foldl (xs : List Double) :
    ∀ e0 : Double, (0 : Double) ≤ e0 → (∀ x ∈ xs, (0 : Double) ≤ x) →
      (0 : Double) ≤ xs.foldl (fun acc x => acc + x) e0 := by
  induction xs with
  | nil => intro e0 h0 _; exact h0
  | cons x xs ih =>
    intro e0 h0 h
    rw [List.foldl_cons]
    exact ih (e0 + x) (Double.zero_le_add e0 x h0 (h x (List.mem_cons_self _ _)))
      (fun y hy => h y (List.mem_cons_of_mem _ hy))

theorem Double.zero_le_zero : (0 : Double) ≤ 0 := Double.zero_le_fin _ _ _ (Or.inl rfl)

/-- Rounding at work: `10^16 + 1` is `10^16`, the quotient `2 / 3` is
`6004799503160661 * 2^-53`, a positive value divided by zero is the positive
infinity, and zero divided by zero is a NaN, which is not `>= 0`. -/
theorem Double.rounding_examples :
    (10000000000000000 : Double) + 1 = 10000000000000000 ∧
    (2 : Double) / 3 = Double.fin false 6004799503160661 (-53) ∧
    (1 : Double) / 0 = Double.inf false ∧
    (0 : Double) / 0 = Double.nan ∧ ¬ ((0 : Double) ≤ (0 : Double) / 0) := by
  decide
/-! ## Topology: aggregate metrics -/

theorem foldl_energy_none (f : Level → Double) (ls : List Level) :
    ls.foldl
      (fun (acc : Option Double) (level : Level) =>
        match acc with
        | none => none
        | some e => if f level ≥ 0 then some (e + f level) else none)
      none = none := by
  induction ls with
  | nil => rfl
  | cons l ls ih => exact ih

/-- The accumulation loop of `Energy()` and `Area()`: when every level reports a
value that is `>= 0`, the values added one after the other, in the order of the
levels, onto the start value; a failure otherwise. -/
theorem foldl_energy (f : Level → Double) (ls : List Level) :
    ∀ e0 : Double,
      ls.foldl
        (fun (acc : Option Double) (level : Level) =>
          match acc with
          | none => none
          | some e => if f level ≥ 0 then some (e + f level) else none)
        (some e0)
      = if ∀ l ∈ ls, 0 ≤ f l then some ((ls.map f).foldl (fun acc x => acc + x) e0)
        else none := by
  induction ls with
  | nil => intro e0; simp
  | cons l ls ih =>
    intro e0
    rw [List.foldl_cons]
    by_cases hl : f l ≥ 0
    · simp only [hl, if_true]
      rw [ih]
      by_cases hall : ∀ x ∈ ls, 0 ≤ f x
      · have hall2 : ∀ x ∈ l :: ls, 0 ≤ f x := by
          intro x hx
          rcases List.mem_cons.1 hx with h | h
          · rw [h]; exact hl
          · exact hall x h
        rw [if_pos hall, if_pos hall2, List.map_cons, List.foldl_cons]
      · have hall2 : ¬ ∀ x ∈ l :: ls, 0 ≤ f x :=
          fun h => hall (fun x hx => h x (List.mem_cons_of_mem _ hx))
        rw [if_neg hall, if_neg hall2]
    · have hall2 : ¬ ∀ x ∈ l :: ls, 0 ≤ f x := fun h => hl (h l (List.mem_cons_self _ _))
      simp only [hl, if_false]
      rw [if_neg hall2]
      exact foldl_energy_none f ls

theorem Energy_eq (t : Topology) :
    t.Energy = if ∀ l ∈ t.levels_, 0 ≤ l.Energy
      then some ((t.levels_.map Level.Energy).foldl (fun acc x => acc + x) 0)
      else none := by
  unfold Topology.Energy
  exact foldl_energy Level.Energy t.levels_ 0

theorem Area_eq (t : Topology) :
    t.Area = if ∀ l ∈ t.levels_, 0 ≤ l.Area
      then some ((t.levels_.map Level.Area).foldl (fun acc x => acc + x) 0)
      else none := by
  unfold Topology.Area
  exact foldl_energy Level.Area t.levels_ 0

/-- The loop of `Cycles()`: an upper bound of the start value and of every level,
attained by the start value or by a level. -/
theorem foldl_cycles (ls : List Level) :
    ∀ c0 : Nat,
      c0 ≤ ls.foldl (fun cycles level => max cycles level.Cycles) c0 ∧
      (∀ l ∈ ls, l.Cycles ≤ ls.foldl (fun cycles level => max cycles level.Cycles) c0) ∧
      (ls.foldl (fun cycles level => max cycles level.Cycles) c0 = c0 ∨
        ∃ l ∈ ls, l.Cycles = ls.foldl (fun cycles level => max cycles level.Cycles) c0) := by
  induction ls with
  | nil => intro c0; exact ⟨le_refl _, fun l hl => absurd hl (List.not_mem_nil _), Or.inl rfl⟩
  | cons x xs ih =>
    intro c0
    rw [List.foldl_cons]
    obtain ⟨h1, h2, h3⟩ := ih (max c0 x.Cycles)
    refine ⟨le_trans (le_max_left _ _) h1, ?_, ?_⟩
    · intro l hl
      rcases List.mem_cons.1 hl with h | h
      · rw [h]; exact le_trans (le_max_right _ _) h1
      · exact h2 l h
    · rcases h3 with h | ⟨l, hl, hle⟩
      · rcases max_choice c0 x.Cycles with hc | hc
        · left; rw [h, hc]
        · right; exact ⟨x, List.mem_cons_self _ _, by rw [h, hc]⟩
      · right; exact ⟨l, List.mem_cons_of_mem _ hl, hle⟩

theorem foldl_nonneg_of_forall (f : Level → Double) (ls : List Level)
    (h : ∀ l ∈ ls, 0 ≤ f l) : 0 ≤ (ls.map f).foldl (fun acc x => acc + x) 0 := by
  apply Double.zero_le_foldl _ _ Double.zero_le_zero
  intro x hx
  obtain ⟨l, hl, hlx⟩ := List.mem_map.1 hx
  rw [← hlx]
  exact h l hl
/-! ## Topology: properties of the aggregate metrics and of the flags -/

/-- C10, counterexample. A topology as constructed and then specced (`sampleSpecs`, with
the levels that `sampleCollaborators` builds), never evaluated: its evaluated
flag is false and `Energy()`, `Area()`, `Cycles()`, `Utilization()` and
`MACCs()` all return a value, none of them rejects the call. The same holds
after an `Evaluate()` that fails on the innermost storage level and leaves the
flag false. -/
theorem accessors_answer_when_not_evaluated :
    ((Topology.new.Spec (sampleCollaborators [1, 1]) sampleSpecs).is_evaluated_ = false ∧
      (Topology.new.Spec (sampleCollaborators [1, 1]) sampleSpecs).Energy = some 0 ∧
      (Topology.new.Spec (sampleCollaborators [1, 1]) sampleSpecs).Area = some 7 ∧
      (Topology.new.Spec (sampleCollaborators [1, 1]) sampleSpecs).Cycles = 0 ∧
      (Topology.new.Spec (sampleCollaborators [1, 1]) sampleSpecs).Utilization
        = some (Double.inf false) ∧
      (Topology.new.Spec (sampleCollaborators [1, 1]) sampleSpecs).MACCs = some 10) ∧
    ∃ r,
      (Topology.new.Spec (sampleCollaborators [0, 1]) sampleSpecs).Evaluate
        (sampleCollaborators [0, 1]) 3 = some r ∧
      r.success = false ∧ r.topology.is_evaluated_ = false ∧
      r.topology.Energy = some 5 ∧ r.topology.Area = some 7 ∧ r.topology.Cycles = 9 ∧
      r.topology.Utilization = some (Double.fin false 8006399337547548 (-55)) ∧
      r.topology.MACCs = some 10 :=
  ⟨⟨rfl, by decide, by decide, by decide, by decide, by decide⟩,
    _, rfl, rfl, rfl, by decide, by decide, by decide, by decide, by decide⟩

/-- C10, amended. The aggregate accessors do not consult the evaluated flag: on any
topology each of `Energy()`, `Area()`, `Cycles()`, `Utilization()` and `MACCs()`
gives the same result whether the flag is true or false. -/
theorem accessors_ignore_evaluated_flag (t : Topology) (b : Bool) :
    ({ t with is_evaluated_ := b } : Topology).Energy = t.Energy ∧
    ({ t with is_evaluated_ := b } : Topology).Area = t.Area ∧
    ({ t with is_evaluated_ := b } : Topology).Cycles = t.Cycles ∧
    ({ t with is_evaluated_ := b } : Topology).Utilization = t.Utilization ∧
    ({ t with is_evaluated_ := b } : Topology).MACCs = t.MACCs :=
  ⟨rfl, rfl, rfl, rfl, rfl⟩

/-- C15. For every topology whose levels each report an energy and an area that are
`>= 0`, `Energy()` is the sum of the per-level energies and `Area()` the sum of
the per-level areas, each accumulated in `double` from 0 in the order of the
levels, and both are `>= 0`; and `Energy()` (`Area()`) fails its assertion when
some level reports a negative energy (area). -/
theorem energy_area_are_sums (t : Topology) :
    ((∀ l ∈ t.levels_, 0 ≤ l.Energy ∧ 0 ≤ l.Area) →
      t.Energy = some ((t.levels_.map Level.Energy).foldl (fun acc x => acc + x) 0) ∧
      t.Area = some ((t.levels_.map Level.Area).foldl (fun acc x => acc + x) 0) ∧
      (0 : Double) ≤ (t.levels_.map Level.Energy).foldl (fun acc x => acc + x) 0 ∧
      (0 : Double) ≤ (t.levels_.map Level.Area).foldl (fun acc x => acc + x) 0) ∧
    ((∃ l ∈ t.levels_, l.Energy < 0) → t.Energy = none) ∧
    ((∃ l ∈ t.levels_, l.Area < 0) → t.Area = none) := by
  refine ⟨fun h => ?_, ?_, ?_⟩
  · have hE : ∀ l ∈ t.levels_, 0 ≤ l.Energy := fun l hl => (h l hl).1
    have hA : ∀ l ∈ t.levels_, 0 ≤ l.Area := fun l hl => (h l hl).2
    refine ⟨?_, ?_, foldl_nonneg_of_forall _ _ hE, foldl_nonneg_of_forall _ _ hA⟩
    · rw [Energy_eq, if_pos hE]
    · rw [Area_eq, if_pos hA]
  · rintro ⟨l, hl, hneg⟩
    rw [Energy_eq, if_neg (fun h => absurd (h l hl) (Double.not_le_of_lt _ _ hneg))]
  · rintro ⟨l, hl, hneg⟩
    rw [Area_eq, if_neg (fun h => absurd (h l hl) (Double.not_le_of_lt _ _ hneg))]

/-- C15, witness: two levels with energies 5 and 1 and areas 7 and 2, with totals 6
and 9; two levels with energies `10^16` and 1, whose total is `10^16`; and a
level of energy -1. -/
theorem energy_area_are_sums_witness :
    ((⟨[sampleLevel 5 7 3, sampleLevel 1 2 4], sampleSpecs, true, true⟩ : Topology).Energy
        = some (([sampleLevel 5 7 3, sampleLevel 1 2 4].map Level.Energy).foldl
            (fun acc x => acc + x) 0) ∧
      (⟨[sampleLevel 5 7 3, sampleLevel 1 2 4], sampleSpecs, true, true⟩ : Topology).Area
        = some (([sampleLevel 5 7 3, sampleLevel 1 2 4].map Level.Area).foldl
            (fun acc x => acc + x) 0) ∧
      (0 : Double) ≤ ([sampleLevel 5 7 3, sampleLevel 1 2 4].map Level.Energy).foldl
        (fun acc x => acc + x) 0 ∧
      (0 : Double) ≤ ([sampleLevel 5 7 3, sampleLevel 1 2 4].map Level.Area).foldl
        (fun acc x => acc + x) 0) ∧
    (⟨[sampleLevel 5 7 3, sampleLevel 1 2 4], sampleSpecs, true, true⟩ : Topology).Energy
      = some 6 ∧
    (⟨[sampleLevel 5 7 3, sampleLevel 1 2 4], sampleSpecs, true, true⟩ : Topology).Area
      = some 9 ∧
    (⟨[sampleLevel 10000000000000000 7 3, sampleLevel 1 2 4], sampleSpecs, true, true⟩ :
        Topology).Energy = some 10000000000000000 ∧
    (⟨[sampleLevel 5 7 3, sampleLevel (-1) 2 4], sampleSpecs, true, true⟩ : Topology).Energy
      = none :=
  ⟨(energy_area_are_sums ⟨[sampleLevel 5 7 3, sampleLevel 1 2 4], sampleSpecs, true, true⟩).1
      (by decide),
    by decide, by decide, by decide,
    (energy_area_are_sums
      ⟨[sampleLevel 5 7 3, sampleLevel (-1) 2 4], sampleSpecs, true, true⟩).2.1
      ⟨sampleLevel (-1) 2 4, by decide, by decide⟩⟩

/-- C16. `Cycles()` is the maximum of the per-level cycle counts: it is at least
every level's cycle count, it is the cycle count of some level when there is
at least one level, and it is 0 for an empty level list. -/
theorem cycles_is_maximum (t : Topology) :
    (∀ l ∈ t.levels_, l.Cycles ≤ t.Cycles) ∧
    (t.levels_ ≠ [] → ∃ l ∈ t.levels_, l.Cycles = t.Cycles) ∧
    (t.levels_ = [] → t.Cycles = 0) := by
  obtain ⟨-, h2, h3⟩ := foldl_cycles t.levels_ 0
  refine ⟨h2, fun hne => ?_, fun he => ?_⟩
  · rcases h3 with h | h
    · cases hl : t.levels_ with
      | nil => exact absurd hl hne
      | cons x xs =>
        have hx := h2 x (by rw [hl]; exact List.mem_cons_self _ _)
        have h0 : t.Cycles = 0 := h
        rw [hl] at hx
        refine ⟨x, List.mem_cons_self _ _, ?_⟩
        have hx2 : x.Cycles ≤ t.Cycles := by
          unfold Topology.Cycles
          rw [hl]
          exact hx
        omega
    · exact h
  · unfold Topology.Cycles
    rw [he]
    rfl

/-- C16, witness: levels with 3, 9 and 4 cycles. -/
theorem cycles_is_maximum_witness :
    (⟨[sampleLevel 5 7 3, sampleLevel 1 2 9, sampleLevel 1 2 4], sampleSpecs, true, true⟩ :
        Topology).levels_ ≠ [] ∧
    (∃ l ∈ (⟨[sampleLevel 5 7 3, sampleLevel 1 2 9, sampleLevel 1 2 4], sampleSpecs, true,
        true⟩ : Topology).levels_,
      l.Cycles = (⟨[sampleLevel 5 7 3, sampleLevel 1 2 9, sampleLevel 1 2 4], sampleSpecs, true,
        true⟩ : Topology).Cycles) ∧
    (⟨[sampleLevel 5 7 3, sampleLevel 1 2 9, sampleLevel 1 2 4], sampleSpecs, true, true⟩ :
        Topology).Cycles = 9 :=
  ⟨by decide,
    (cycles_is_maximum
      ⟨[sampleLevel 5 7 3, sampleLevel 1 2 9, sampleLevel 1 2 4], sampleSpecs, true, true⟩).2.1
      (by decide),
    by decide⟩

/-- C17. On a topology whose specced flag is false, `Evaluate()` and
`PreEvaluationCheck()` both fail their assertion: no result is produced, so no
level is evaluated and the evaluated flag is not set. -/
theorem unspecced_topology_rejects_evaluation (env : Collaborators) (Num : Nat) (t : Topology)
    (h : t.is_specced_ = false) :
    t.Evaluate env Num = none ∧ t.PreEvaluationCheck env = none := by
  constructor
  · unfold Topology.Evaluate
    rw [h]
    rfl
  · unfold Topology.PreEvaluationCheck Topology.NumStorageLevels
    rw [h]
    rfl

/-- C17, witness: the topology as constructed, before any `Spec()`. -/
theorem unspecced_topology_rejects_evaluation_witness :
    Topology.new.is_specced_ = false ∧
    Topology.new.Evaluate (sampleCollaborators [1, 1]) 3 = none ∧
    Topology.new.PreEvaluationCheck (sampleCollaborators [1, 1]) = none :=
  ⟨rfl, unspecced_topology_rejects_evaluation (sampleCollaborators [1, 1]) 3 Topology.new rfl⟩

/-- C18, the defect. `Spec()` replaces the owned levels by freshly built ones and
leaves the evaluated flag as it was; in particular, after a successful
`Evaluate()`, a second `Spec()` yields a topology whose evaluated flag is true
although none of the levels it owns has been evaluated. -/
theorem spec_keeps_evaluated_flag :
    (∀ (env : Collaborators) (specs : TopologySpecs) (t : Topology),
      (t.Spec env specs).is_evaluated_ = t.is_evaluated_ ∧
      (t.Spec env specs).levels_ =
        env.newArithmeticUnits specs.arithmetic :: specs.storage.map env.newBufferLevel) ∧
    ((Topology.new.Spec (sampleCollaborators [1, 1]) sampleSpecs).Evaluate
        (sampleCollaborators [1, 1]) 3).map
      (fun r => (r.success, r.topology.is_evaluated_,
        (r.topology.Spec (sampleCollaborators [1, 1]) sampleSpecs).is_evaluated_,
        (r.topology.Spec (sampleCollaborators [1, 1]) sampleSpecs).levels_))
      = some (true, true, true,
          [sampleLevel 0 1 0, sampleLevel 0 3 0, sampleLevel 0 3 0]) :=
  ⟨fun _ _ _ => ⟨rfl, rfl⟩, by decide⟩

/-! ## Topology: `Validate`, slot assignments -/

theorem foldl_setSlot (v : Nat) (l : List Nat) :
    ∀ (a : Nat → Attribute) (j : Nat),
      l.foldl (fun acc pvi => setSlot acc pvi v) a j = if j ∈ l then some v else a j := by
  induction l with
  | nil => intro a j; simp
  | cons x xs ih =>
    intro a j
    rw [List.foldl_cons, ih]
    by_cases hj : j ∈ xs
    · simp [hj]
    · by_cases hx : j = x
      · simp [hj, hx, setSlot]
      · simp [hj, hx, setSlot]

/-- The loop over the slots `start .. end_` writes exactly those slots. -/
theorem setSlots_apply (a : Nat → Attribute) (s e v j : Nat) :
    setSlots a s e v j = if s ≤ j ∧ j ≤ e then some v else a j := by
  unfold setSlots
  rw [foldl_setSlot]
  have hmem : j ∈ List.range' s (e + 1 - s) ↔ s ≤ j ∧ j ≤ e := by
    rw [List.mem_range'_1]; omega
  by_cases h : s ≤ j ∧ j ≤ e
  · rw [if_pos h, if_pos (hmem.2 h)]
  · rw [if_neg h, if_neg (fun hm => h (hmem.1 hm))]

theorem start_le_end (Num : Nat) (st : DataTypeSharing) : start_pvi Num st ≤ end_pvi Num st := by
  cases st
  · exact Nat.zero_le _
  · exact le_refl _

theorem setSlots_start (a : Nat → Attribute) (s e v : Nat) (h : s ≤ e) :
    setSlots a s e v s = some v := by
  rw [setSlots_apply, if_pos ⟨le_refl _, h⟩]

theorem setSlots_idem (a : Nat → Attribute) (s e v : Nat) :
    setSlots (setSlots a s e v) s e v = setSlots a s e v := by
  funext j
  rw [setSlots_apply, setSlots_apply]
  by_cases h : s ≤ j ∧ j ≤ e
  · rw [if_pos h, if_pos h]
  · rw [if_neg h]

theorem U32_pos : 0 < U32 := by decide

theorem toUnsigned_lt (v : Nat) : toUnsigned v < U32 := Nat.mod_lt v U32_pos

theorem toUnsigned_of_lt (v : Nat) (h : v < U32) : toUnsigned v = v := Nat.mod_eq_of_lt h

theorem U32_mul_U32 : U32 * U32 = search.U64 := by decide

/-- The product of two values of type `unsigned` does not wrap around in 64 bits. -/
theorem toUnsigned_mul_mod (a b : Nat) :
    toUnsigned a * toUnsigned b % search.U64 = toUnsigned a * toUnsigned b := by
  apply Nat.mod_eq_of_lt
  rw [← U32_mul_U32]
  exact Nat.mul_lt_mul'' (toUnsigned_lt a) (toUnsigned_lt b)

theorem unsignedQuotient_some (a b q : Nat) (h : unsignedQuotient a b = some q) :
    b ≠ 0 ∧ a % b = 0 ∧ q = toUnsigned (a / b) := by
  unfold unsignedQuotient at h
  by_cases hb : b = 0
  · rw [if_pos hb] at h; exact absurd h (by simp)
  · rw [if_neg hb] at h
    by_cases hm : a % b = 0
    · rw [if_pos hm] at h
      exact ⟨hb, hm, (Option.some.inj h).symm⟩
    · rw [if_neg hm] at h; exact absurd h (by simp)

theorem checkOrFill_some (a a1 : Nat → Attribute) (s e v : Nat)
    (h : checkOrFill a s e v = some a1) :
    (a s = some v ∧ a1 = a) ∨ (a s = none ∧ a1 = setSlots a s e v) := by
  unfold checkOrFill at h
  cases ha : a s with
  | none =>
    rw [ha] at h
    exact Or.inr ⟨rfl, (Option.some.inj h).symm⟩
  | some w =>
    rw [ha] at h
    dsimp only at h
    by_cases hw : w = v
    · rw [if_pos hw] at h
      exact Or.inl ⟨by rw [hw], (Option.some.inj h).symm⟩
    · rw [if_neg hw] at h; exact absurd h (by simp)

theorem checkOrFill_start (a a1 : Nat → Attribute) (s e v : Nat) (hse : s ≤ e)
    (h : checkOrFill a s e v = some a1) : a1 s = some v := by
  rcases checkOrFill_some a a1 s e v h with ⟨h1, h2⟩ | ⟨-, h2⟩
  · rw [h2]; exact h1
  · rw [h2]; exact setSlots_start a s e v hse

theorem checkOrFill_of_start (a : Nat → Attribute) (s e v : Nat) (h : a s = some v) :
    checkOrFill a s e v = some a := by
  unfold checkOrFill
  rw [h]
  simp

theorem checkOrFill_idem (a a1 : Nat → Attribute) (s e v : Nat) (hse : s ≤ e)
    (h : checkOrFill a s e v = some a1) : checkOrFill a1 s e v = some a1 :=
  checkOrFill_of_start a1 s e v (checkOrFill_start a a1 s e v hse h)

/-! ## Topology: `Validate`, one pair of adjacent storage levels -/

/-- What a completed iteration of the pair loop has checked and written. -/
theorem ValidatePair_some (Num : Nat) (inner outer outer1 : BufferLevelSpecs)
    (h : ValidatePair Num inner outer = some outer1) :
    ∃ ii oi imx omx imy omy F FX FY,
      inner.Instances (start_pvi Num inner.sharing_type) = some ii ∧
      outer.Instances (start_pvi Num outer.sharing_type) = some oi ∧
      unsignedQuotient ii oi = some (toUnsigned (ii / oi)) ∧
      checkOrFill outer.Fanout (start_pvi Num outer.sharing_type)
        (end_pvi Num outer.sharing_type) (toUnsigned (ii / oi)) = some F ∧
      inner.MeshX (start_pvi Num inner.sharing_type) = some imx ∧
      outer.MeshX (start_pvi Num outer.sharing_type) = some omx ∧
      unsignedQuotient imx omx = some (toUnsigned (imx / omx)) ∧
      checkOrFill outer.FanoutX (start_pvi Num outer.sharing_type)
        (end_pvi Num outer.sharing_type) (toUnsigned (imx / omx)) = some FX ∧
      inner.MeshY (start_pvi Num inner.sharing_type) = some imy ∧
      outer.MeshY (start_pvi Num outer.sharing_type) = some omy ∧
      unsignedQuotient imy omy = some (toUnsigned (imy / omy)) ∧
      checkOrFill outer.FanoutY (start_pvi Num outer.sharing_type)
        (end_pvi Num outer.sharing_type) (toUnsigned (imy / omy)) = some FY ∧
      toUnsigned (ii / oi) = toUnsigned (imx / omx) * toUnsigned (imy / omy) ∧
      outer1 = { outer with Fanout := F, FanoutX := FX, FanoutY := FY } := by
  unfold ValidatePair at h
  dsimp only at h
  split at h
  · rename_i ii oi hii hoi
    split at h
    · exact absurd h (by simp)
    · rename_i fanout hq
      split at h
      · exact absurd h (by simp)
      · rename_i F hF
        split at h
        · rename_i imx omx himx homx
          split at h
          · exact absurd h (by simp)
          · rename_i fanoutX hqx
            split at h
            · exact absurd h (by simp)
            · rename_i FX hFX
              split at h
              · rename_i imy omy himy homy
                split at h
                · exact absurd h (by simp)
                · rename_i fanoutY hqy
                  split at h
                  · exact absurd h (by simp)
                  · rename_i FY hFY
                    split at h
                    · rename_i f fx fy hf hfx hfy
                      split at h
                      · rename_i hprod
                        have e1 := (unsignedQuotient_some _ _ _ hq).2.2
                        have e2 := (unsignedQuotient_some _ _ _ hqx).2.2
                        have e3 := (unsignedQuotient_some _ _ _ hqy).2.2
                        have s1 := checkOrFill_start _ _ _ _ _ (start_le_end Num _) hF
                        have s2 := checkOrFill_start _ _ _ _ _ (start_le_end Num _) hFX
                        have s3 := checkOrFill_start _ _ _ _ _ (start_le_end Num _) hFY
                        rw [hf] at s1
                        rw [hfx] at s2
                        rw [hfy] at s3
                        have t1 := Option.some.inj s1
                        have t2 := Option.some.inj s2
                        have t3 := Option.some.inj s3
                        subst e1 e2 e3
                        refine ⟨ii, oi, imx, omx, imy, omy, F, FX, FY, hii, hoi, hq, hF, himx,
                          homx, hqx, hFX, himy, homy, hqy, hFY, ?_, (Option.some.inj h).symm⟩
                        rw [t1, t2, t3] at hprod
                        rw [toUnsigned_mul_mod] at hprod
                        exact hprod
                      · exact absurd h (by simp)
                    · exact absurd h (by simp)
              · exact absurd h (by simp)
        · exact absurd h (by simp)
  · exact absurd h (by simp)

/-- The converse: when every check of the iteration passes, it completes. -/
theorem ValidatePair_of (Num : Nat) (inner outer : BufferLevelSpecs)
    (ii oi imx omx imy omy : Nat) (F FX FY : Nat → Attribute)
    (hii : inner.Instances (start_pvi Num inner.sharing_type) = some ii)
    (hoi : outer.Instances (start_pvi Num outer.sharing_type) = some oi)
    (hq : unsignedQuotient ii oi = some (toUnsigned (ii / oi)))
    (hF : checkOrFill outer.Fanout (start_pvi Num outer.sharing_type)
      (end_pvi Num outer.sharing_type) (toUnsigned (ii / oi)) = some F)
    (himx : inner.MeshX (start_pvi Num inner.sharing_type) = some imx)
    (homx : outer.MeshX (start_pvi Num outer.sharing_type) = some omx)
    (hqx : unsignedQuotient imx omx = some (toUnsigned (imx / omx)))
    (hFX : checkOrFill outer.FanoutX (start_pvi Num outer.sharing_type)
      (end_pvi Num outer.sharing_type) (toUnsigned (imx / omx)) = some FX)
    (himy : inner.MeshY (start_pvi Num inner.sharing_type) = some imy)
    (homy : outer.MeshY (start_pvi Num outer.sharing_type) = some omy)
    (hqy : unsignedQuotient imy omy = some (toUnsigned (imy / omy)))
    (hFY : checkOrFill outer.FanoutY (start_pvi Num outer.sharing_type)
      (end_pvi Num outer.sharing_type) (toUnsigned (imy / omy)) = some FY)
    (hprod : toUnsigned (ii / oi) = toUnsigned (imx / omx) * toUnsigned (imy / omy)) :
    ValidatePair Num inner outer
      = some { outer with Fanout := F, FanoutX := FX, FanoutY := FY } := by
  have s1 := checkOrFill_start _ _ _ _ _ (start_le_end Num _) hF
  have s2 := checkOrFill_start _ _ _ _ _ (start_le_end Num _) hFX
  have s3 := checkOrFill_start _ _ _ _ _ (start_le_end Num _) hFY
  unfold ValidatePair
  simp only [hii, hoi, hq, hF, himx, homx, hqx, hFX, himy, homy, hqy, hFY, s1, s2, s3]
  rw [if_pos (by rw [toUnsigned_mul_mod]; exact hprod)]

theorem ValidatePair_frame (Num : Nat) (inner outer outer1 : BufferLevelSpecs)
    (h : ValidatePair Num inner outer = some outer1) :
    outer1.sharing_type = outer.sharing_type ∧ outer1.Instances = outer.Instances ∧
    outer1.MeshX = outer.MeshX ∧ outer1.MeshY = outer.MeshY := by
  obtain ⟨ii, oi, imx, omx, imy, omy, F, FX, FY, -, -, -, -, -, -, -, -, -, -, -, -, -, h1⟩ :=
    ValidatePair_some Num inner outer outer1 h
  rw [h1]
  exact ⟨rfl, rfl, rfl, rfl⟩

/-- An iteration of the pair loop reads only the sharing mode, the instance count
and the meshes of its inner level. -/
theorem ValidatePair_congr_inner (Num : Nat) (inner inner2 outer : BufferLevelSpecs)
    (h1 : inner2.sharing_type = inner.sharing_type) (h2 : inner2.Instances = inner.Instances)
    (h3 : inner2.MeshX = inner.MeshX) (h4 : inner2.MeshY = inner.MeshY) :
    ValidatePair Num inner2 outer = ValidatePair Num inner outer := by
  unfold ValidatePair
  rw [h1, h2, h3, h4]

/-- A completed iteration of the pair loop, run again on its own result, completes
and changes nothing. -/
theorem ValidatePair_idem (Num : Nat) (inner outer outer1 : BufferLevelSpecs)
    (h : ValidatePair Num inner outer = some outer1) :
    ValidatePair Num inner outer1 = some outer1 := by
  obtain ⟨ii, oi, imx, omx, imy, omy, F, FX, FY, hii, hoi, hq, hF, himx, homx, hqx, hFX, himy,
    homy, hqy, hFY, hprod, h1⟩ := ValidatePair_some Num inner outer outer1 h
  rw [h1]
  exact ValidatePair_of Num inner { outer with Fanout := F, FanoutX := FX, FanoutY := FY }
    ii oi imx omx imy omy F FX FY hii hoi hq
    (checkOrFill_idem _ _ _ _ _ (start_le_end Num _) hF) himx homx hqx
    (checkOrFill_idem _ _ _ _ _ (start_le_end Num _) hFX) himy homy hqy
    (checkOrFill_idem _ _ _ _ _ (start_le_end Num _) hFY) hprod

/-! ## Topology: `Validate`, the innermost storage level -/

/-- What the first part of `Validate` has checked and written when it completes. -/
theorem ValidateInnermost_some (Num : Nat) (arith : ArithmeticUnitsSpecs)
    (inner inner1 : BufferLevelSpecs) (h : ValidateInnermost Num arith inner = some inner1) :
    ∃ ii ai,
      inner.Instances (start_pvi Num inner.sharing_type) = some ii ∧
      arith.Instances = some ai ∧
      ((ii = ai ∧
          inner1 = { inner with
            FanoutX := setSlots inner.FanoutX (start_pvi Num inner.sharing_type)
              (end_pvi Num inner.sharing_type) 1
            FanoutY := setSlots inner.FanoutY (start_pvi Num inner.sharing_type)
              (end_pvi Num inner.sharing_type) 1
            Fanout := setSlots inner.Fanout (start_pvi Num inner.sharing_type)
              (end_pvi Num inner.sharing_type) 1 }) ∨
        (ii ≠ ai ∧ ∃ amx imx amy imy,
          unsignedQuotient ai ii = some (toUnsigned (ai / ii)) ∧
          arith.MeshX = some amx ∧
          inner.MeshX (start_pvi Num inner.sharing_type) = some imx ∧
          unsignedQuotient amx imx = some (toUnsigned (amx / imx)) ∧
          arith.MeshY = some amy ∧
          inner.MeshY (start_pvi Num inner.sharing_type) = some imy ∧
          unsignedQuotient amy imy = some (toUnsigned (amy / imy)) ∧
          inner1 = { inner with
            Fanout := setSlots inner.Fanout (start_pvi Num inner.sharing_type)
              (end_pvi Num inner.sharing_type) (toUnsigned (ai / ii))
            FanoutX := setSlots inner.FanoutX (start_pvi Num inner.sharing_type)
              (end_pvi Num inner.sharing_type) (toUnsigned (amx / imx))
            FanoutY := setSlots inner.FanoutY (start_pvi Num inner.sharing_type)
              (end_pvi Num inner.sharing_type) (toUnsigned (amy / imy)) })) := by
  unfold ValidateInnermost at h
  dsimp only at h
  split at h
  · rename_i ii ai hii hai
    refine ⟨ii, ai, hii, hai, ?_⟩
    split at h
    · rename_i heq
      exact Or.inl ⟨heq, (Option.some.inj h).symm⟩
    · rename_i hne
      right
      refine ⟨hne, ?_⟩
      split at h
      · exact absurd h (by simp)
      · rename_i fanout_in hq
        split at h
        · rename_i amx imx hamx himx
          split at h
          · exact absurd h (by simp)
          · rename_i fanoutX_in hqx
            split at h
            · rename_i amy imy hamy himy
              split at h
              · exact absurd h (by simp)
              · rename_i fanoutY_in hqy
                have e1 := (unsignedQuotient_some _ _ _ hq).2.2
                have e2 := (unsignedQuotient_some _ _ _ hqx).2.2
                have e3 := (unsignedQuotient_some _ _ _ hqy).2.2
                subst e1 e2 e3
                exact ⟨amx, imx, amy, imy, hq, hamx, himx, hqx, hamy, himy, hqy,
                  (Option.some.inj h).symm⟩
            · exact absurd h (by simp)
        · exact absurd h (by simp)
  · exact absurd h (by simp)

theorem ValidateInnermost_frame (Num : Nat) (arith : ArithmeticUnitsSpecs)
    (inner inner1 : BufferLevelSpecs) (h : ValidateInnermost Num arith inner = some inner1) :
    inner1.sharing_type = inner.sharing_type ∧ inner1.Instances = inner.Instances ∧
    inner1.MeshX = inner.MeshX ∧ inner1.MeshY = inner.MeshY := by
  obtain ⟨ii, ai, -, -, ⟨-, h1⟩ | ⟨-, amx, imx, amy, imy, -, -, -, -, -, -, -, h1⟩⟩ :=
    ValidateInnermost_some Num arith inner inner1 h
  · rw [h1]; exact ⟨rfl, rfl, rfl, rfl⟩
  · rw [h1]; exact ⟨rfl, rfl, rfl, rfl⟩

/-- The first part of `Validate`, run again on its own result, completes and changes
nothing. -/
theorem ValidateInnermost_idem (Num : Nat) (arith : ArithmeticUnitsSpecs)
    (inner inner1 : BufferLevelSpecs) (h : ValidateInnermost Num arith inner = some inner1) :
    ValidateInnermost Num arith inner1 = some inner1 := by
  obtain ⟨ii, ai, hii, hai, ⟨heq, h1⟩ | ⟨hne, amx, imx, amy, imy, hq, hamx, himx, hqx, hamy,
    himy, hqy, h1⟩⟩ := ValidateInnermost_some Num arith inner inner1 h
  · rw [h1]
    unfold ValidateInnermost
    simp only [hii, hai, if_pos heq, setSlots_idem]
  · rw [h1]
    unfold ValidateInnermost
    simp only [hii, hai, if_neg hne, hq, hamx, himx, hqx, hamy, himy, hqy, setSlots_idem]

/-! ## Topology: `Validate`, the loop over the pairs -/

theorem set_succ_append (pre rest : List BufferLevelSpecs) (inner outer outer1 : BufferLevelSpecs) :
    (pre ++ inner :: outer :: rest).set (pre.length + 1) outer1
      = (pre ++ [inner]) ++ outer1 :: rest := by
  induction pre with
  | nil => rfl
  | cons p ps ih =>
    simp only [List.cons_append, List.length_cons, List.set_cons_succ]
    rw [ih]

/-- The loop of `Validate` walks along the list of storage levels: each level is
validated against the level below it as the previous iteration left it. -/
theorem ValidatePairs_chain (Num : Nat) (rest : List BufferLevelSpecs) :
    ∀ (pre : List BufferLevelSpecs) (inner : BufferLevelSpecs),
      ValidatePairs Num rest.length pre.length (pre ++ inner :: rest)
        = (validateChain Num inner rest).map (fun r => pre ++ inner :: r) := by
  induction rest with
  | nil => intro pre inner; rfl
  | cons outer rest ih =>
    intro pre inner
    have e0 : (pre ++ inner :: outer :: rest)[pre.length]? = some inner := by
      rw [List.getElem?_append_right (le_refl _)]
      simp
    have e1 : (pre ++ inner :: outer :: rest)[pre.length + 1]? = some outer := by
      rw [List.getElem?_append_right (by omega)]
      simp
    rw [List.length_cons, ValidatePairs, e0, e1, validateChain]
    dsimp only
    cases hp : ValidatePair Num inner outer with
    | none => rfl
    | some outer1 =>
      dsimp only
      rw [set_succ_append]
      have h := ih (pre ++ [inner]) outer1
      rw [List.length_append, List.length_singleton] at h
      rw [h]
      cases validateChain Num outer1 rest with
      | none => rfl
      | some rest1 => simp

/-- The function `Validate` in terms of the list of storage levels. -/
theorem Validate_eq (Num : Nat) (arith : ArithmeticUnitsSpecs) (inner : BufferLevelSpecs)
    (rest : List BufferLevelSpecs) :
    Validate Num ⟨arith, inner :: rest⟩
      = (ValidateInnermost Num arith inner).bind
          (fun inner1 => (validateChain Num inner1 rest).map
            (fun r => ⟨arith, inner1 :: r⟩)) := by
  unfold Validate TopologySpecs.GetStorageLevel TopologySpecs.GetArithmeticLevel
    TopologySpecs.NumStorageLevels
  simp only [List.getElem?_cons_zero, List.length_cons, Nat.add_sub_cancel, List.set_cons_zero]
  cases hi : ValidateInnermost Num arith inner with
  | none => rfl
  | some inner1 =>
    have h := ValidatePairs_chain Num rest [] inner1
    simp only [List.length_nil, List.nil_append] at h
    simp only [h, Option.bind_some]
    cases hc : validateChain Num inner1 rest with
    | none => simp [hc]
    | some rest1 => simp [hc]

theorem Validate_nil (Num : Nat) (arith : ArithmeticUnitsSpecs) :
    Validate Num ⟨arith, []⟩ = none := rfl

/-- A completed walk: the levels it returns, one per level of the list, each the
result of the iteration for that level and the level below it. -/
theorem validateChain_some (Num : Nat) (rest : List BufferLevelSpecs) :
    ∀ (inner : BufferLevelSpecs) (rest1 : List BufferLevelSpecs),
      validateChain Num inner rest = some rest1 →
      rest1.length = rest.length ∧
      ∀ (i : Nat) prev outer, (inner :: rest1)[i]? = some prev → rest[i]? = some outer →
        ∃ outer1, rest1[i]? = some outer1 ∧ ValidatePair Num prev outer = some outer1 := by
  induction rest with
  | nil =>
    intro inner rest1 h
    rw [validateChain] at h
    rw [← Option.some.inj h]
    exact ⟨rfl, fun i prev outer _ ho => absurd ho (by simp)⟩
  | cons o rest ih =>
    intro inner rest1 h
    rw [validateChain] at h
    cases hp : ValidatePair Num inner o with
    | none => rw [hp] at h; exact absurd h (by simp)
    | some o1 =>
      rw [hp] at h
      dsimp only at h
      cases hc : validateChain Num o1 rest with
      | none => rw [hc] at h; exact absurd h (by simp)
      | some r1 =>
        rw [hc] at h
        dsimp only at h
        rw [← Option.some.inj h]
        obtain ⟨hlen, hpairs⟩ := ih o1 r1 hc
        refine ⟨by rw [List.length_cons, List.length_cons, hlen], ?_⟩
        intro i prev outer hprev houter
        cases i with
        | zero =>
          rw [List.getElem?_cons_zero] at hprev houter
          rw [← Option.some.inj hprev, ← Option.some.inj houter]
          exact ⟨o1, List.getElem?_cons_zero, hp⟩
        | succ k =>
          rw [List.getElem?_cons_succ] at hprev houter
          rw [List.getElem?_cons_succ]
          exact hpairs k prev outer hprev houter

/-- A completed walk, run again on its own result, completes and changes nothing. -/
theorem validateChain_idem (Num : Nat) (rest : List BufferLevelSpecs) :
    ∀ (inner : BufferLevelSpecs) (rest1 : List BufferLevelSpecs),
      validateChain Num inner rest = some rest1 → validateChain Num inner rest1 = some rest1 := by
  induction rest with
  | nil =>
    intro inner rest1 h
    rw [validateChain] at h
    rw [← Option.some.inj h]
    rfl
  | cons o rest ih =>
    intro inner rest1 h
    rw [validateChain] at h
    cases hp : ValidatePair Num inner o with
    | none => rw [hp] at h; exact absurd h (by simp)
    | some o1 =>
      rw [hp] at h
      dsimp only at h
      cases hc : validateChain Num o1 rest with
      | none => rw [hc] at h; exact absurd h (by simp)
      | some r1 =>
        rw [hc] at h
        dsimp only at h
        rw [← Option.some.inj h, validateChain, ValidatePair_idem Num inner o o1 hp]
        dsimp only
        rw [ih o1 r1 hc]

/-! ## Topology: `Validate`, the whole function -/

/-- A completed `Validate`: the innermost level went through the first part, the
other levels through the walk along the pairs. -/
theorem Validate_some (Num : Nat) (specs specs1 : TopologySpecs)
    (h : Validate Num specs = some specs1) :
    ∃ inner rest inner1 rest1,
      specs.storage = inner :: rest ∧
      specs1 = ⟨specs.arithmetic, inner1 :: rest1⟩ ∧
      ValidateInnermost Num specs.arithmetic inner = some inner1 ∧
      validateChain Num inner1 rest = some rest1 := by
  obtain ⟨arith, storage⟩ := specs
  cases storage with
  | nil => rw [Validate_nil] at h; exact absurd h (by simp)
  | cons inner rest =>
    rw [Validate_eq] at h
    cases hi : ValidateInnermost Num arith inner with
    | none => rw [hi] at h; exact absurd h (by simp)
    | some inner1 =>
      rw [hi] at h
      simp only [Option.some_bind] at h
      cases hc : validateChain Num inner1 rest with
      | none => rw [hc] at h; exact absurd h (by simp)
      | some rest1 =>
        rw [hc, Option.map_some'] at h
        exact ⟨inner, rest, inner1, rest1, rfl, (Option.some.inj h).symm, hi, hc⟩

/-- A completed `Validate` leaves the sharing mode, the instance count and the
meshes of every storage level as they were. -/
theorem Validate_frame (Num : Nat) (specs specs1 : TopologySpecs)
    (h : Validate Num specs = some specs1) (i : Nat) (l : BufferLevelSpecs)
    (hl : specs.storage[i]? = some l) :
    ∃ l1, specs1.storage[i]? = some l1 ∧
      l1.sharing_type = l.sharing_type ∧ l1.Instances = l.Instances ∧
      l1.MeshX = l.MeshX ∧ l1.MeshY = l.MeshY := by
  obtain ⟨inner, rest, inner1, rest1, hs, hs1, hi, hc⟩ := Validate_some Num specs specs1 h
  obtain ⟨hlen, hpairs⟩ := validateChain_some Num rest inner1 rest1 hc
  rw [hs] at hl
  rw [hs1]
  cases i with
  | zero =>
    rw [List.getElem?_cons_zero] at hl
    rw [← Option.some.inj hl]
    exact ⟨inner1, List.getElem?_cons_zero, ValidateInnermost_frame Num _ inner inner1 hi⟩
  | succ k =>
    rw [List.getElem?_cons_succ] at hl
    have hk : k < rest.length := by
      rcases Nat.lt_or_ge k rest.length with hlt | hge
      · exact hlt
      · rw [List.getElem?_eq_none hge] at hl; exact absurd hl (by simp)
    have hk1 : k < (inner1 :: rest1).length := by rw [List.length_cons, hlen]; omega
    obtain ⟨outer1, ho1, hp⟩ :=
      hpairs k ((inner1 :: rest1)[k]) l (List.getElem?_eq_getElem hk1) hl
    exact ⟨outer1, by rw [List.getElem?_cons_succ]; exact ho1,
      ValidatePair_frame Num _ l outer1 hp⟩

/-- A completed `Validate` has run the iteration of the pair loop to completion for
every pair of adjacent storage levels of its input. -/
theorem Validate_pair (Num : Nat) (specs specs1 : TopologySpecs)
    (h : Validate Num specs = some specs1) (i : Nat) (inner outer : BufferLevelSpecs)
    (hinner : specs.storage[i]? = some inner) (houter : specs.storage[i + 1]? = some outer) :
    ∃ outer1, specs1.storage[i + 1]? = some outer1 ∧
      ValidatePair Num inner outer = some outer1 := by
  obtain ⟨prev, hprev, f1, f2, f3, f4⟩ := Validate_frame Num specs specs1 h i inner hinner
  obtain ⟨inner0, rest, inner1, rest1, hs, hs1, hi, hc⟩ := Validate_some Num specs specs1 h
  obtain ⟨hlen, hpairs⟩ := validateChain_some Num rest inner1 rest1 hc
  rw [hs, List.getElem?_cons_succ] at houter
  rw [hs1] at hprev
  obtain ⟨outer1, ho1, hp⟩ := hpairs i prev outer hprev houter
  refine ⟨outer1, by rw [hs1, List.getElem?_cons_succ]; exact ho1, ?_⟩
  rw [← ValidatePair_congr_inner Num inner prev outer f1 f2 f3 f4]
  exact hp

/-- After a completed `Validate`, the iteration of the pair loop for any pair of
adjacent storage levels completes and changes nothing. -/
theorem Validate_pair_post (Num : Nat) (specs specs1 : TopologySpecs)
    (h : Validate Num specs = some specs1) (i : Nat) (inner outer : BufferLevelSpecs)
    (hinner : specs1.storage[i]? = some inner) (houter : specs1.storage[i + 1]? = some outer) :
    ValidatePair Num inner outer = some outer := by
  obtain ⟨inner0, rest, inner1, rest1, hs, hs1, hi, hc⟩ := Validate_some Num specs specs1 h
  obtain ⟨hlen, hpairs⟩ := validateChain_some Num rest inner1 rest1 hc
  rw [hs1] at hinner houter
  rw [List.getElem?_cons_succ] at houter
  have hk : i < rest.length := by
    rcases Nat.lt_or_ge i rest1.length with hlt | hge
    · omega
    · rw [List.getElem?_eq_none hge] at houter; exact absurd houter (by simp)
  obtain ⟨outer1, ho1, hp⟩ := hpairs i inner (rest[i]) hinner (List.getElem?_eq_getElem hk)
  rw [houter] at ho1
  rw [Option.some.inj ho1]
  exact ValidatePair_idem Num inner _ outer1 hp
/-! ## Topology: properties of `Validate` -/

/-- C4, counterexample. A compute level and an innermost Shared storage level of `2^32`
instances (mesh `2^32` x 1) below a Shared storage level of 1 instance (mesh
1 x 1): `Validate` completes and the outer level's fanout is 0, which is not
the quotient `2^32 / 1` of the two instance counts. -/
theorem pair_fanout_held_in_unsigned :
    ∃ specs1 inner1 outer1,
      Validate 3 (wideSpecs none) = some specs1 ∧
      specs1.GetStorageLevel 0 = some inner1 ∧
      specs1.GetStorageLevel 1 = some outer1 ∧
      inner1.Instances (start_pvi 3 inner1.sharing_type) = some 4294967296 ∧
      outer1.Instances (start_pvi 3 outer1.sharing_type) = some 1 ∧
      outer1.Fanout (start_pvi 3 outer1.sharing_type) = some 0 ∧
      (4294967296 : Nat) / 1 ≠ 0 :=
  ⟨_, _, _, rfl, rfl, rfl, rfl, rfl, rfl, by decide⟩

/-- C4, amended. After a completed `Validate`, for every pair of adjacent storage
levels (inner = storage level `i`, outer = storage level `i + 1`), with the values
read at each level's first slot: the outer instance count divides the inner one;
the outer level's fanout is `inner.instances / outer.instances` as an `unsigned`
holds it (`toUnsigned`, the quotient modulo `2^32`), its fanout-X and fanout-Y
are `inner.meshX / outer.meshX` and `inner.meshY / outer.meshY` held the same
way, and the fanout is the product of fanout-X and fanout-Y. When the three
quotients are below `2^32`, the fanouts are the quotients themselves. -/
theorem validate_sets_pair_fanouts (Num : Nat) (_hNum : 0 < Num) (specs specs1 : TopologySpecs)
    (h : Validate Num specs = some specs1) (i : Nat) (inner outer : BufferLevelSpecs)
    (hinner : specs1.GetStorageLevel i = some inner)
    (houter : specs1.GetStorageLevel (i + 1) = some outer) :
    ∃ ii oi imx omx imy omy f fx fy,
      inner.Instances (start_pvi Num inner.sharing_type) = some ii ∧
      outer.Instances (start_pvi Num outer.sharing_type) = some oi ∧
      inner.MeshX (start_pvi Num inner.sharing_type) = some imx ∧
      outer.MeshX (start_pvi Num outer.sharing_type) = some omx ∧
      inner.MeshY (start_pvi Num inner.sharing_type) = some imy ∧
      outer.MeshY (start_pvi Num outer.sharing_type) = some omy ∧
      oi ≠ 0 ∧ ii % oi = 0 ∧
      outer.Fanout (start_pvi Num outer.sharing_type) = some f ∧
      outer.FanoutX (start_pvi Num outer.sharing_type) = some fx ∧
      outer.FanoutY (start_pvi Num outer.sharing_type) = some fy ∧
      f = toUnsigned (ii / oi) ∧ fx = toUnsigned (imx / omx) ∧ fy = toUnsigned (imy / omy) ∧
      f = fx * fy ∧
      (ii / oi < U32 → imx / omx < U32 → imy / omy < U32 →
        f = ii / oi ∧ fx = imx / omx ∧ fy = imy / omy) := by
  have hp := Validate_pair_post Num specs specs1 h i inner outer hinner houter
  obtain ⟨ii, oi, imx, omx, imy, omy, F, FX, FY, hii, hoi, hq, hF, himx, homx, hqx, hFX, himy,
    homy, hqy, hFY, hprod, h1⟩ := ValidatePair_some Num inner outer outer hp
  have hle := start_le_end Num outer.sharing_type
  have e1 : outer.Fanout = F := by rw [h1]
  have e2 : outer.FanoutX = FX := by rw [h1]
  have e3 : outer.FanoutY = FY := by rw [h1]
  refine ⟨ii, oi, imx, omx, imy, omy, toUnsigned (ii / oi), toUnsigned (imx / omx),
    toUnsigned (imy / omy), hii, hoi, himx, homx, himy, homy,
    (unsignedQuotient_some _ _ _ hq).1, (unsignedQuotient_some _ _ _ hq).2.1, ?_, ?_, ?_,
    rfl, rfl, rfl, hprod, ?_⟩
  · rw [e1]; exact checkOrFill_start _ _ _ _ _ hle hF
  · rw [e2]; exact checkOrFill_start _ _ _ _ _ hle hFX
  · rw [e3]; exact checkOrFill_start _ _ _ _ _ hle hFY
  · intro b1 b2 b3
    exact ⟨toUnsigned_of_lt _ b1, toUnsigned_of_lt _ b2, toUnsigned_of_lt _ b3⟩

/-- C4, witness: the two storage levels of `sampleSpecs` (4 instances on a 2 x 2
mesh below 1 instance) end with fanout 4 = 2 x 2. -/
theorem validate_sets_pair_fanouts_witness :
    0 < 3 ∧
    Validate 3 sampleSpecs = some sampleSpecsValidated ∧
    sampleSpecsValidated.GetStorageLevel 0 = some (validatedLevel 3 4 2 2 1 1 1) ∧
    sampleSpecsValidated.GetStorageLevel (0 + 1) = some (validatedLevel 3 1 1 1 4 2 2) ∧
    (validatedLevel 3 1 1 1 4 2 2).Fanout
      (start_pvi 3 (validatedLevel 3 1 1 1 4 2 2).sharing_type) = some 4 ∧
    ∃ ii oi imx omx imy omy f fx fy,
      (validatedLevel 3 4 2 2 1 1 1).Instances
        (start_pvi 3 (validatedLevel 3 4 2 2 1 1 1).sharing_type) = some ii ∧
      (validatedLevel 3 1 1 1 4 2 2).Instances
        (start_pvi 3 (validatedLevel 3 1 1 1 4 2 2).sharing_type) = some oi ∧
      (validatedLevel 3 4 2 2 1 1 1).MeshX
        (start_pvi 3 (validatedLevel 3 4 2 2 1 1 1).sharing_type) = some imx ∧
      (validatedLevel 3 1 1 1 4 2 2).MeshX
        (start_pvi 3 (validatedLevel 3 1 1 1 4 2 2).sharing_type) = some omx ∧
      (validatedLevel 3 4 2 2 1 1 1).MeshY
        (start_pvi 3 (validatedLevel 3 4 2 2 1 1 1).sharing_type) = some imy ∧
      (validatedLevel 3 1 1 1 4 2 2).MeshY
        (start_pvi 3 (validatedLevel 3 1 1 1 4 2 2).sharing_type) = some omy ∧
      oi ≠ 0 ∧ ii % oi = 0 ∧
      (validatedLevel 3 1 1 1 4 2 2).Fanout
        (start_pvi 3 (validatedLevel 3 1 1 1 4 2 2).sharing_type) = some f ∧
      (validatedLevel 3 1 1 1 4 2 2).FanoutX
        (start_pvi 3 (validatedLevel 3 1 1 1 4 2 2).sharing_type) = some fx ∧
      (validatedLevel 3 1 1 1 4 2 2).FanoutY
        (start_pvi 3 (validatedLevel 3 1 1 1 4 2 2).sharing_type) = some fy ∧
      f = toUnsigned (ii / oi) ∧ fx = toUnsigned (imx / omx) ∧ fy = toUnsigned (imy / omy) ∧
      f = fx * fy ∧
      (ii / oi < U32 → imx / omx < U32 → imy / omy < U32 →
        f = ii / oi ∧ fx = imx / omx ∧ fy = imy / omy) :=
  ⟨by decide, rfl, rfl, rfl, rfl,
    validate_sets_pair_fanouts 3 (by decide) sampleSpecs sampleSpecsValidated rfl 0
      (validatedLevel 3 4 2 2 1 1 1) (validatedLevel 3 1 1 1 4 2 2) rfl rfl⟩

/-- C5, the defect. The pair loop of `Validate` asserts that the fanout of the outer
level is the product of its fanout-X and fanout-Y; the part for the innermost
storage level writes the three values without that assertion. A compute level
of 4 instances on a 4 x 4 mesh above one Shared storage level of 1 instance
(mesh 1 x 1): `Validate` completes and writes fanout 4, fanout-X 4 and fanout-Y 4
into the slot of the innermost level, and 4 is not 4 * 4. A compute level of
`2^32` instances on a `2^16` x `2^16` mesh above the same storage level:
`Validate` completes and writes fanout 0 (the quotient `2^32`, held in an
`unsigned`), fanout-X `2^16` and fanout-Y `2^16`, and 0 is not their
product. -/
theorem innermost_fanout_not_product :
    (∃ specs1 inner1,
      Validate 3 inconsistentMeshSpecs = some specs1 ∧
      specs1.GetStorageLevel 0 = some inner1 ∧
      start_pvi 3 inner1.sharing_type = 3 ∧ end_pvi 3 inner1.sharing_type = 3 ∧
      inner1.Fanout 3 = some 4 ∧ inner1.FanoutX 3 = some 4 ∧ inner1.FanoutY 3 = some 4 ∧
      4 ≠ 4 * 4) ∧
    (∃ specs1 inner1,
      Validate 3 wideMeshSpecs = some specs1 ∧
      specs1.GetStorageLevel 0 = some inner1 ∧
      start_pvi 3 inner1.sharing_type = 3 ∧ end_pvi 3 inner1.sharing_type = 3 ∧
      inner1.Fanout 3 = some 0 ∧ inner1.FanoutX 3 = some 65536 ∧
      inner1.FanoutY 3 = some 65536 ∧ 0 ≠ 65536 * 65536) :=
  ⟨⟨_, _, rfl, rfl, rfl, rfl, rfl, rfl, rfl, by decide⟩,
    ⟨_, _, rfl, rfl, rfl, rfl, rfl, rfl, rfl, by decide⟩⟩

/-- C6. `Validate` is idempotent: run on a specification that a first run has left,
it completes and leaves that specification as it is, every slot of the
fanout, fanout-X and fanout-Y of every level included. -/
theorem validate_idempotent (Num : Nat) (_hNum : 0 < Num) (specs specs1 : TopologySpecs)
    (h : Validate Num specs = some specs1) :
    Validate Num specs1 = some specs1 := by
  obtain ⟨inner, rest, inner1, rest1, -, hs1, hi, hc⟩ := Validate_some Num specs specs1 h
  rw [hs1, Validate_eq, ValidateInnermost_idem Num _ inner inner1 hi]
  simp only [Option.some_bind]
  rw [validateChain_idem Num rest inner1 rest1 hc]
  rfl

/-- C6, witness: the second run on the validated `sampleSpecs`. -/
theorem validate_idempotent_witness :
    0 < 3 ∧
    Validate 3 sampleSpecs = some sampleSpecsValidated ∧
    Validate 3 sampleSpecsValidated = some sampleSpecsValidated :=
  ⟨by decide, rfl, validate_idempotent 3 (by decide) sampleSpecs sampleSpecsValidated rfl⟩

/-- C7, the defect. The innermost storage level of `specifiedFanoutSpecs` has its
fanout explicitly specified as 5; `Validate` completes and the fanout is 1
afterwards: the specified value was replaced without any check. -/
theorem innermost_specified_fanout_overwritten :
    (specifiedFanoutSpecs.GetStorageLevel 0).map (fun inner => inner.Fanout 3) = some (some 5) ∧
    ∃ specs1 inner1,
      Validate 3 specifiedFanoutSpecs = some specs1 ∧
      specs1.GetStorageLevel 0 = some inner1 ∧
      inner1.Fanout 3 = some 1 :=
  ⟨rfl, _, _, rfl, rfl, rfl⟩
/-- C13, counterexample. The outer storage level of `strayFanoutSpecs` is Partitioned
and has its fanout specified as 9 for datatype 1 only, where the quotient of
the instance counts is 4: `Validate` completes (and leaves 4 in that slot).
The outer level of `wideSpecs (some 0)` has its fanout specified as 0, where
the quotient of the instance counts is `2^32`: `Validate` completes. -/
theorem stray_fanout_not_rejected :
    (∃ inner outer specs1 outer1,
      strayFanoutSpecs.GetStorageLevel 0 = some inner ∧
      strayFanoutSpecs.GetStorageLevel 1 = some outer ∧
      inner.Instances (start_pvi 3 inner.sharing_type) = some 4 ∧
      outer.Instances (start_pvi 3 outer.sharing_type) = some 1 ∧
      outer.Fanout 1 = some 9 ∧ 9 ≠ 4 / 1 ∧
      Validate 3 strayFanoutSpecs = some specs1 ∧
      specs1.GetStorageLevel 1 = some outer1 ∧ outer1.Fanout 1 = some 4) ∧
    (∃ inner outer specs1,
      (wideSpecs (some 0)).GetStorageLevel 0 = some inner ∧
      (wideSpecs (some 0)).GetStorageLevel 1 = some outer ∧
      inner.Instances (start_pvi 3 inner.sharing_type) = some 4294967296 ∧
      outer.Instances (start_pvi 3 outer.sharing_type) = some 1 ∧
      outer.Fanout (start_pvi 3 outer.sharing_type) = some 0 ∧ 0 ≠ 4294967296 / 1 ∧
      Validate 3 (wideSpecs (some 0)) = some specs1) :=
  ⟨⟨_, _, _, _, rfl, rfl, rfl, rfl, rfl, by decide, rfl, rfl, rfl⟩,
    ⟨_, _, _, rfl, rfl, rfl, rfl, rfl, by decide, rfl⟩⟩

/-- C13, amended. `Validate` fails whenever, for some pair of adjacent storage levels
(values read at each level's first slot: the shared slot when Shared, datatype
0 when Partitioned), the outer instance count does not divide the inner one
or the outer level's fanout, specified at that first slot, differs from the
quotient as an `unsigned` holds it (`toUnsigned`, the quotient modulo `2^32`),
and likewise for mesh-X with fanout-X and mesh-Y with fanout-Y; and, when
the instance counts of the compute level and of the innermost storage level
differ, whenever the compute count is not a multiple of the innermost count or
the mesh-X or the mesh-Y of the compute level is unspecified. -/
theorem validate_rejects_inconsistency (Num : Nat) (_hNum : 0 < Num) (specs : TopologySpecs) :
    (∀ i inner outer,
      specs.GetStorageLevel i = some inner → specs.GetStorageLevel (i + 1) = some outer →
      (∀ ii oi,
        inner.Instances (start_pvi Num inner.sharing_type) = some ii →
        outer.Instances (start_pvi Num outer.sharing_type) = some oi →
        (ii % oi ≠ 0 ∨
          ∃ w, outer.Fanout (start_pvi Num outer.sharing_type) = some w ∧ w ≠ toUnsigned (ii / oi)) →
        Validate Num specs = none) ∧
      (∀ imx omx,
        inner.MeshX (start_pvi Num inner.sharing_type) = some imx →
        outer.MeshX (start_pvi Num outer.sharing_type) = some omx →
        (imx % omx ≠ 0 ∨
          ∃ w, outer.FanoutX (start_pvi Num outer.sharing_type) = some w ∧ w ≠ toUnsigned (imx / omx)) →
        Validate Num specs = none) ∧
      (∀ imy omy,
        inner.MeshY (start_pvi Num inner.sharing_type) = some imy →
        outer.MeshY (start_pvi Num outer.sharing_type) = some omy →
        (imy % omy ≠ 0 ∨
          ∃ w, outer.FanoutY (start_pvi Num outer.sharing_type) = some w ∧ w ≠ toUnsigned (imy / omy)) →
        Validate Num specs = none)) ∧
    (∀ inner ii ai,
      specs.GetStorageLevel 0 = some inner →
      inner.Instances (start_pvi Num inner.sharing_type) = some ii →
      specs.GetArithmeticLevel.Instances = some ai → ii ≠ ai →
      (ai % ii ≠ 0 ∨ specs.GetArithmeticLevel.MeshX = none ∨
        specs.GetArithmeticLevel.MeshY = none) →
      Validate Num specs = none) := by
  constructor
  · intro i inner outer hinner houter
    have key : ∀ specs1, Validate Num specs = some specs1 →
        ∃ ii oi imx omx imy omy F FX FY,
          inner.Instances (start_pvi Num inner.sharing_type) = some ii ∧
          outer.Instances (start_pvi Num outer.sharing_type) = some oi ∧
          unsignedQuotient ii oi = some (toUnsigned (ii / oi)) ∧
          checkOrFill outer.Fanout (start_pvi Num outer.sharing_type)
            (end_pvi Num outer.sharing_type) (toUnsigned (ii / oi)) = some F ∧
          inner.MeshX (start_pvi Num inner.sharing_type) = some imx ∧
          outer.MeshX (start_pvi Num outer.sharing_type) = some omx ∧
          unsignedQuotient imx omx = some (toUnsigned (imx / omx)) ∧
          checkOrFill outer.FanoutX (start_pvi Num outer.sharing_type)
            (end_pvi Num outer.sharing_type) (toUnsigned (imx / omx)) = some FX ∧
          inner.MeshY (start_pvi Num inner.sharing_type) = some imy ∧
          outer.MeshY (start_pvi Num outer.sharing_type) = some omy ∧
          unsignedQuotient imy omy = some (toUnsigned (imy / omy)) ∧
          checkOrFill outer.FanoutY (start_pvi Num outer.sharing_type)
            (end_pvi Num outer.sharing_type) (toUnsigned (imy / omy)) = some FY := by
      intro specs1 hV
      obtain ⟨outer1, -, hp⟩ := Validate_pair Num specs specs1 hV i inner outer hinner houter
      obtain ⟨ii, oi, imx, omx, imy, omy, F, FX, FY, h1, h2, h3, h4, h5, h6, h7, h8, h9, h10,
        h11, h12, -, -⟩ := ValidatePair_some Num inner outer outer1 hp
      exact ⟨ii, oi, imx, omx, imy, omy, F, FX, FY, h1, h2, h3, h4, h5, h6, h7, h8, h9, h10,
        h11, h12⟩
    have bad : ∀ (a : Nat → Attribute) (s e n d : Nat) (A : Nat → Attribute),
        unsignedQuotient n d = some (toUnsigned (n / d)) → checkOrFill a s e (toUnsigned (n / d)) = some A →
        (n % d ≠ 0 ∨ ∃ w, a s = some w ∧ w ≠ toUnsigned (n / d)) → False := by
      intro a s e n d A hq hF hbad
      rcases hbad with hmod | ⟨w, hw, hne⟩
      · exact hmod (unsignedQuotient_some _ _ _ hq).2.1
      · rcases checkOrFill_some a A s e _ hF with ⟨hs, -⟩ | ⟨hs, -⟩
        · rw [hw] at hs; exact hne (Option.some.inj hs)
        · rw [hw] at hs; exact absurd hs (by simp)
    refine ⟨?_, ?_, ?_⟩
    · intro ii oi hii hoi hbad
      cases hV : Validate Num specs with
      | none => rfl
      | some specs1 =>
        obtain ⟨ii2, oi2, imx, omx, imy, omy, F, FX, FY, h1, h2, h3, h4, -, -, -, -, -, -, -,
          -⟩ := key specs1 hV
        rw [hii] at h1
        rw [hoi] at h2
        rw [← Option.some.inj h1, ← Option.some.inj h2] at h3 h4
        exact absurd (bad _ _ _ _ _ _ h3 h4 hbad) id
    · intro imx omx himx homx hbad
      cases hV : Validate Num specs with
      | none => rfl
      | some specs1 =>
        obtain ⟨ii, oi, imx2, omx2, imy, omy, F, FX, FY, -, -, -, -, h1, h2, h3, h4, -, -, -,
          -⟩ := key specs1 hV
        rw [himx] at h1
        rw [homx] at h2
        rw [← Option.some.inj h1, ← Option.some.inj h2] at h3 h4
        exact absurd (bad _ _ _ _ _ _ h3 h4 hbad) id
    · intro imy omy himy homy hbad
      cases hV : Validate Num specs with
      | none => rfl
      | some specs1 =>
        obtain ⟨ii, oi, imx, omx, imy2, omy2, F, FX, FY, -, -, -, -, -, -, -, -, h1, h2, h3,
          h4⟩ := key specs1 hV
        rw [himy] at h1
        rw [homy] at h2
        rw [← Option.some.inj h1, ← Option.some.inj h2] at h3 h4
        exact absurd (bad _ _ _ _ _ _ h3 h4 hbad) id
  · intro inner ii ai hinner hii hai hne hbad
    cases hV : Validate Num specs with
    | none => rfl
    | some specs1 =>
      obtain ⟨inner0, rest, inner1, rest1, hs, -, hi, -⟩ := Validate_some Num specs specs1 hV
      have h0 : inner0 = inner := by
        have h2 : specs.storage[0]? = some inner := hinner
        rw [hs, List.getElem?_cons_zero] at h2
        exact Option.some.inj h2
      rw [h0] at hi
      obtain ⟨ii2, ai2, hii2, hai2, ⟨heq, -⟩ | ⟨-, amx, imx, amy, imy, hq, hamx, -, -, hamy,
        -, -, -⟩⟩ := ValidateInnermost_some Num _ inner inner1 hi
      · rw [hii] at hii2
        have hai3 : specs.arithmetic.Instances = some ai := hai
        rw [hai3] at hai2
        rw [← Option.some.inj hii2, ← Option.some.inj hai2] at heq
        exact absurd heq hne
      · rw [hii] at hii2
        have hai3 : specs.arithmetic.Instances = some ai := hai
        rw [hai3] at hai2
        rw [← Option.some.inj hii2, ← Option.some.inj hai2] at hq
        rcases hbad with hmod | hx | hy
        · exact absurd (unsignedQuotient_some _ _ _ hq).2.1 hmod
        · have hx2 : specs.arithmetic.MeshX = none := hx
          rw [hx2] at hamx; exact absurd hamx (by simp)
        · have hy2 : specs.arithmetic.MeshY = none := hy
          rw [hy2] at hamy; exact absurd hamy (by simp)

/-- C13, witness: two Shared storage levels of 4 and of 3 instances: 3 does not
divide 4 and `Validate` fails. -/
theorem validate_rejects_inconsistency_witness :
    0 < 3 ∧ 4 % 3 ≠ 0 ∧
    Validate 3 ⟨⟨some 4, some 2, some 2⟩, [sharedLevel 3 4 2 2, sharedLevel 3 3 1 1]⟩ = none :=
  ⟨by decide, by decide,
    ((validate_rejects_inconsistency 3 (by decide)
      ⟨⟨some 4, some 2, some 2⟩, [sharedLevel 3 4 2 2, sharedLevel 3 3 1 1]⟩).1 0
      (sharedLevel 3 4 2 2) (sharedLevel 3 3 1 1) rfl rfl).1 4 3 rfl rfl
      (Or.inl (by decide))⟩

/-- The loop of `Evaluate` over the storage levels, started at the level
`storage_level_id` with as many calls logged as levels already passed: the
levels up to `storage_level_id` and the calls already logged are left alone;
every later call is for the storage level of its position in the log, on that
level as it was before the loop, and the level is replaced by the one the call
leaves; after a successful call the next level is called with the inner tile
area `AreaPerInstance + area * MaxFanout` of the level just evaluated; after a
failed call there is no further call. -/
theorem EvaluateLoop_spec (env : Collaborators) :
    ∀ (remaining storage_level_id : Nat) (area : Double) (t : Topology) (calls : List (Nat × Double))
      (r : EvaluationResult),
      calls.length = storage_level_id →
      Topology.EvaluateLoop env remaining storage_level_id area t calls = some r →
      (r.topology.specs_ = t.specs_ ∧ r.topology.is_specced_ = t.is_specced_ ∧
        r.topology.is_evaluated_ = t.is_evaluated_) ∧
      (∀ j, j ≤ storage_level_id → r.topology.levels_[j]? = t.levels_[j]?) ∧
      (∀ k, k < storage_level_id → r.calls[k]? = calls[k]?) ∧
      r.calls.length ≤ storage_level_id + remaining ∧
      (r.success = true → r.calls.length = storage_level_id + remaining) ∧
      (0 < remaining → r.calls[storage_level_id]? = some (storage_level_id, area)) ∧
      (∀ k c, storage_level_id ≤ k → r.calls[k]? = some c →
        c.1 = k ∧ ∃ level tile mask,
          t.GetStorageLevel k = some level ∧ env.tiles[k]? = some tile ∧
          env.keep_masks[k]? = some mask ∧
          r.topology.GetStorageLevel k =
            some (env.BufferEvaluate level tile mask c.2 env.compute_cycles).2 ∧
          ((env.BufferEvaluate level tile mask c.2 env.compute_cycles).1 = true →
            k + 1 < storage_level_id + remaining →
            r.calls[k + 1]? = some (k + 1,
              (env.BufferEvaluate level tile mask c.2 env.compute_cycles).2.AreaPerInstance
                + c.2 *
                  ((env.BufferEvaluate level tile mask c.2 env.compute_cycles).2.MaxFanout : Double))) ∧
          ((env.BufferEvaluate level tile mask c.2 env.compute_cycles).1 = false →
            r.calls.length = k + 1 ∧ r.success = false)) := by
  intro remaining
  induction remaining with
  | zero =>
    intro id area t calls r hlen h
    rw [Topology.EvaluateLoop] at h
    rw [← Option.some.inj h]
    refine ⟨⟨rfl, rfl, rfl⟩, fun _ _ => rfl, fun _ _ => rfl, by dsimp only; omega,
      fun _ => by dsimp only; omega, fun h0 => absurd h0 (by decide), ?_⟩
    intro k c hk hc
    dsimp only at hc
    rw [List.getElem?_eq_none (by omega)] at hc
    exact absurd hc (by simp)
  | succ remaining ih =>
    intro id area t calls r hlen h
    rw [Topology.EvaluateLoop] at h
    split at h
    · rename_i level tile mask hlevel htile hmask
      dsimp only [TopologySpecs.StorageMap] at h
      have hidx : id + 1 < t.levels_.length := by
        have h1 : t.levels_[id + 1]? = some level := hlevel
        rcases Nat.lt_or_ge (id + 1) t.levels_.length with hlt | hge
        · exact hlt
        · rw [List.getElem?_eq_none hge] at h1; exact absurd h1 (by simp)
      have hcall : (calls ++ [(id, area)])[id]? = some (id, area) := by
        rw [← hlen]; exact List.getElem?_concat_length calls (calls.length, area)
      have hpre : ∀ k, k < id → (calls ++ [(id, area)])[k]? = calls[k]? := by
        intro k hk
        exact List.getElem?_append_left (by omega)
      by_cases hb : (env.BufferEvaluate level tile mask area env.compute_cycles).1 = true
      · rw [if_pos hb] at h
        obtain ⟨⟨g1, g2, g3⟩, g4, g5, g6, g7, g8, g9⟩ :=
          ih (id + 1) _ _ (calls ++ [(id, area)]) r
            (by rw [List.length_append, List.length_singleton, hlen]) h
        have hid : r.calls[id]? = some (id, area) := by
          rw [g5 id (by omega)]; exact hcall
        refine ⟨⟨g1, g2, g3⟩, ?_, ?_, by omega, fun hs => by have := g7 hs; omega,
          fun _ => hid, ?_⟩
        · intro j hj
          rw [g4 j (by omega)]
          exact List.getElem?_set_ne (by omega)
        · intro k hk
          rw [g5 k (by omega)]
          exact hpre k hk
        · intro k c hk hc
          rcases Nat.eq_or_lt_of_le hk with heq | hlt
          · subst heq
            rw [hid] at hc
            have hc2 : c = (id, area) := (Option.some.inj hc).symm
            subst hc2
            refine ⟨rfl, level, tile, mask, hlevel, htile, hmask, ?_, ?_, ?_⟩
            · show r.topology.levels_[id + 1]? = _
              rw [g4 (id + 1) (le_refl _)]
              exact List.getElem?_set_self hidx
            · intro _ hrem
              exact g8 (by omega)
            · intro hf
              rw [hb] at hf
              exact absurd hf (by decide)
          · obtain ⟨c1, level2, tile2, mask2, q1, q2, q3, q4, q5, q6⟩ := g9 k c (by omega) hc
            refine ⟨c1, level2, tile2, mask2, ?_, q2, q3, q4, ?_, q6⟩
            · have q1b : (t.levels_.set (id + 1)
                  (env.BufferEvaluate level tile mask area env.compute_cycles).2)[k + 1]?
                    = some level2 := q1
              rw [List.getElem?_set_ne (by omega)] at q1b
              exact q1b
            · intro hs hrem
              exact q5 hs (by omega)
      · rw [if_neg hb] at h
        have hbf : (env.BufferEvaluate level tile mask area env.compute_cycles).1 = false := by
          cases hv : (env.BufferEvaluate level tile mask area env.compute_cycles).1 with
          | true => exact absurd hv hb
          | false => rfl
        rw [← Option.some.inj h]
        refine ⟨⟨rfl, rfl, rfl⟩, ?_, ?_, ?_, ?_, fun _ => hcall, ?_⟩
        · intro j hj
          exact List.getElem?_set_ne (by omega)
        · exact hpre
        · dsimp only
          rw [List.length_append, List.length_singleton]
          omega
        · intro hs
          exact Bool.noConfusion hs
        · intro k c hk hc
          dsimp only at hc
          have hklt : k < (calls ++ [(id, area)]).length := by
            rcases Nat.lt_or_ge k (calls ++ [(id, area)]).length with hlt | hge
            · exact hlt
            · rw [List.getElem?_eq_none hge] at hc; exact absurd hc (by simp)
          rw [List.length_append, List.length_singleton] at hklt
          have heq : k = id := by omega
          subst heq
          rw [hcall] at hc
          have hc2 : c = (k, area) := (Option.some.inj hc).symm
          subst hc2
          refine ⟨rfl, level, tile, mask, hlevel, htile, hmask, ?_, ?_, ?_⟩
          · show (t.levels_.set (k + 1) _)[k + 1]? = _
            exact List.getElem?_set_self hidx
          · intro hs
            rw [hbf] at hs
            exact absurd hs (by decide)
          · intro _
            refine ⟨?_, rfl⟩
            dsimp only
            rw [List.length_append, List.length_singleton, hlen]
    · exact absurd h (by simp)

/-- The loop of `Evaluate` returns when the topology owns a level for every storage
level left to evaluate and a tile set and a mask exist for each of them. -/
theorem EvaluateLoop_total (env : Collaborators) :
    ∀ (remaining storage_level_id : Nat) (area : Double) (t : Topology) (calls : List (Nat × Double)),
      storage_level_id + remaining + 1 ≤ t.levels_.length →
      storage_level_id + remaining ≤ env.tiles.length →
      storage_level_id + remaining ≤ env.keep_masks.length →
      ∃ r, Topology.EvaluateLoop env remaining storage_level_id area t calls = some r ∧
        r.topology.levels_.length = t.levels_.length := by
  intro remaining
  induction remaining with
  | zero =>
    intro id area t calls _ _ _
    exact ⟨⟨true, t, calls⟩, rfl, rfl⟩
  | succ remaining ih =>
    intro id area t calls hl ht hm
    have h1 : t.GetStorageLevel id = some (t.levels_[id + 1]) := by
      show t.levels_[id + 1]? = _
      exact List.getElem?_eq_getElem (by omega)
    have h2 : env.tiles[id]? = some (env.tiles[id]) := List.getElem?_eq_getElem (by omega)
    have h3 : env.keep_masks[id]? = some (env.keep_masks[id]) :=
      List.getElem?_eq_getElem (by omega)
    rw [Topology.EvaluateLoop, h1, h2, h3]
    dsimp only [TopologySpecs.StorageMap]
    generalize env.BufferEvaluate (t.levels_[id + 1]) (env.tiles[id]) (env.keep_masks[id])
      area env.compute_cycles = be
    by_cases hb : be.1 = true
    · rw [if_pos hb]
      obtain ⟨r, hr, hlen⟩ := ih (id + 1) (be.2.AreaPerInstance + area * (be.2.MaxFanout : Double))
        { t with levels_ := t.levels_.set (id + 1) be.2 } (calls ++ [(id, area)])
        (by dsimp only; rw [List.length_set]; omega) (by omega) (by omega)
      refine ⟨r, hr, ?_⟩
      rw [hlen]
      exact List.length_set _ _ _
    · rw [if_neg hb]
      exact ⟨_, rfl, List.length_set _ _ _⟩

/-- The method `Evaluate()` returns on a specced topology that owns one level per
level of its specification, when the tiling has one tile set per storage level
and at least as many masks. -/
theorem Evaluate_total (env : Collaborators) (Num : Nat) (t : Topology)
    (hs : t.is_specced_ = true) (hl : t.levels_.length = t.specs_.NumLevels)
    (ht : env.tiles.length = t.specs_.NumStorageLevels)
    (hm : t.specs_.NumStorageLevels ≤ env.keep_masks.length) :
    ∃ r, t.Evaluate env Num = some r := by
  have hl2 : t.levels_.length = 1 + t.specs_.NumStorageLevels := hl
  have hany : (List.range t.specs_.NumStorageLevels).any
      (fun i => (t.GetStorageLevel i).isNone) = false := by
    rw [List.any_eq_false]
    intro i hi
    have hi2 : i < t.specs_.NumStorageLevels := List.mem_range.1 hi
    have h1 : t.GetStorageLevel i = some (t.levels_[i + 1]) := by
      show t.levels_[i + 1]? = _
      exact List.getElem?_eq_getElem (by omega)
    rw [h1]
    simp
  have harith : t.GetArithmeticLevel = some (t.levels_[0]) := by
    show t.levels_[0]? = _
    exact List.getElem?_eq_getElem (by omega)
  obtain ⟨r0, hr0, hlen⟩ := EvaluateLoop_total env t.specs_.NumStorageLevels 0
    (t.levels_[0]).AreaPerInstance t [] (by omega) (by omega) (by omega)
  have harith1 : r0.topology.GetArithmeticLevel = some (r0.topology.levels_[0]) := by
    show r0.topology.levels_[0]? = _
    exact List.getElem?_eq_getElem (by omega)
  unfold Topology.Evaluate
  rw [if_pos hs]
  dsimp only
  rw [hany, if_neg (by simp), if_neg (by omega), if_neg (by omega), harith]
  dsimp only
  rw [hr0]
  dsimp only
  rw [harith1]
  exact ⟨_, rfl⟩

/-! ## Topology: properties of `Evaluate` -/

/-- The log of a run of `Evaluate()` that returns: what each call on a storage level
was made with, and what followed it. -/
theorem Evaluate_calls (env : Collaborators) (Num : Nat) (t : Topology)
    (r : EvaluationResult) (h : t.Evaluate env Num = some r) :
    ∃ arithmetic, t.GetArithmeticLevel = some arithmetic ∧
      r.calls.length ≤ t.specs_.NumStorageLevels ∧
      (0 < t.specs_.NumStorageLevels → r.calls[0]? = some (0, arithmetic.AreaPerInstance)) ∧
      ∀ k c, r.calls[k]? = some c →
        c.1 = k ∧ ∃ level tile mask,
          t.GetStorageLevel k = some level ∧ env.tiles[k]? = some tile ∧
          env.keep_masks[k]? = some mask ∧
          r.topology.GetStorageLevel k =
            some (env.BufferEvaluate level tile mask c.2 env.compute_cycles).2 ∧
          ((env.BufferEvaluate level tile mask c.2 env.compute_cycles).1 = true →
            k + 1 < t.specs_.NumStorageLevels →
            r.calls[k + 1]? = some (k + 1,
              (env.BufferEvaluate level tile mask c.2 env.compute_cycles).2.AreaPerInstance
                + c.2 *
                  ((env.BufferEvaluate level tile mask c.2 env.compute_cycles).2.MaxFanout : Double))) ∧
          ((env.BufferEvaluate level tile mask c.2 env.compute_cycles).1 = false →
            r.calls.length = k + 1 ∧ r.success = false) := by
  unfold Topology.Evaluate at h
  split at h
  · dsimp only at h
    split at h
    · exact absurd h (by simp)
    · split at h
      · exact absurd h (by simp)
      · split at h
        · exact absurd h (by simp)
        · split at h
          · exact absurd h (by simp)
          · rename_i arithmetic harith
            split at h
            · exact absurd h (by simp)
            · rename_i r0 hloop
              split at h
              · exact absurd h (by simp)
              · rename_i arithmetic1 harith1
                obtain ⟨-, -, -, g6, -, g8, g9⟩ :=
                  EvaluateLoop_spec env t.specs_.NumStorageLevels 0 arithmetic.AreaPerInstance t []
                    r0 rfl hloop
                rw [← Option.some.inj h]
                refine ⟨arithmetic, harith, by dsimp only; omega, fun hn => g8 hn, ?_⟩
                intro k c hc
                obtain ⟨c1, level, tile, mask, q1, q2, q3, q4, q5, q6⟩ := g9 k c (Nat.zero_le _) hc
                refine ⟨c1, level, tile, mask, q1, q2, q3, ?_, ?_, ?_⟩
                · show (r0.topology.levels_.set _ _)[k + 1]? = _
                  rw [List.getElem?_set_ne (by show 0 ≠ k + 1; omega)]
                  exact q4
                · intro hs hk
                  exact q5 hs (by omega)
                · intro hf
                  obtain ⟨l1, l2⟩ := q6 hf
                  refine ⟨l1, ?_⟩
                  dsimp only
                  rw [l2]
                  rfl
  · exact absurd h (by simp)

/-- C20. `Evaluate()` returns on a specced topology that owns one level per level of
its specification, given one tile set per storage level and at least as many
masks. In a run that returns, the calls on the storage levels are made
innermost to outermost: the call at position `k` of the log is for storage
level `k`, on the level as it was before the run, and the level is replaced by
the one the call leaves. The first call gets the per-instance area of the
compute level as inner tile area; after a successful call on level `k` with
inner tile area `a`, and when a further level exists, level `k + 1` is called
with `AreaPerInstance + a * MaxFanout`, both read from level `k` as its
evaluation left it; after a failed call no further level is called and the
run returns false. -/
theorem evaluate_inner_tile_areas (env : Collaborators) (Num : Nat) (t : Topology) :
    (t.is_specced_ = true → t.levels_.length = t.specs_.NumLevels →
      env.tiles.length = t.specs_.NumStorageLevels →
      t.specs_.NumStorageLevels ≤ env.keep_masks.length →
      ∃ r, t.Evaluate env Num = some r) ∧
    ∀ r, t.Evaluate env Num = some r →
      ∃ arithmetic, t.GetArithmeticLevel = some arithmetic ∧
        r.calls.length ≤ t.specs_.NumStorageLevels ∧
        (0 < t.specs_.NumStorageLevels → r.calls[0]? = some (0, arithmetic.AreaPerInstance)) ∧
        ∀ k c, r.calls[k]? = some c →
          c.1 = k ∧ ∃ level tile mask,
            t.GetStorageLevel k = some level ∧ env.tiles[k]? = some tile ∧
            env.keep_masks[k]? = some mask ∧
            r.topology.GetStorageLevel k =
              some (env.BufferEvaluate level tile mask c.2 env.compute_cycles).2 ∧
            ((env.BufferEvaluate level tile mask c.2 env.compute_cycles).1 = true →
              k + 1 < t.specs_.NumStorageLevels →
              r.calls[k + 1]? = some (k + 1,
                (env.BufferEvaluate level tile mask c.2 env.compute_cycles).2.AreaPerInstance
                  + c.2 *
                    ((env.BufferEvaluate level tile mask c.2
                      env.compute_cycles).2.MaxFanout : Double))) ∧
            ((env.BufferEvaluate level tile mask c.2 env.compute_cycles).1 = false →
              r.calls.length = k + 1 ∧ r.success = false) := by
  constructor
  · intro hspecced hlevels htiles hmasks
    exact Evaluate_total env Num t hspecced hlevels htiles hmasks
  · intro r hr
    exact Evaluate_calls env Num t r hr

/-- C20, witness: a compute level of area 1 below two storage levels of area 3 and
fanout 2, both evaluated successfully: the inner tile areas passed are 1 and
3 + 1 * 2. -/
theorem evaluate_inner_tile_areas_witness :
    (Topology.new.Spec (sampleCollaborators [1, 1]) sampleSpecs).is_specced_ = true ∧
    (∃ r, (Topology.new.Spec (sampleCollaborators [1, 1]) sampleSpecs).Evaluate
        (sampleCollaborators [1, 1]) 3 = some r) ∧
    ∃ r,
      (Topology.new.Spec (sampleCollaborators [1, 1]) sampleSpecs).Evaluate
        (sampleCollaborators [1, 1]) 3 = some r ∧
      r.calls = [(0, 1), (1, 3 + 1 * ((2 : Nat) : Double))] ∧
      ∃ arithmetic,
        (Topology.new.Spec (sampleCollaborators [1, 1]) sampleSpecs).GetArithmeticLevel
          = some arithmetic ∧
        r.calls.length
          ≤ (Topology.new.Spec (sampleCollaborators [1, 1]) sampleSpecs).specs_.NumStorageLevels ∧
        (0 < (Topology.new.Spec (sampleCollaborators [1, 1]) sampleSpecs).specs_.NumStorageLevels →
          r.calls[0]? = some (0, arithmetic.AreaPerInstance)) ∧
        ∀ k c, r.calls[k]? = some c →
          c.1 = k ∧ ∃ level tile mask,
            (Topology.new.Spec (sampleCollaborators [1, 1]) sampleSpecs).GetStorageLevel k
              = some level ∧
            (sampleCollaborators [1, 1]).tiles[k]? = some tile ∧
            (sampleCollaborators [1, 1]).keep_masks[k]? = some mask ∧
            r.topology.GetStorageLevel k =
              some ((sampleCollaborators [1, 1]).BufferEvaluate level tile mask c.2
                (sampleCollaborators [1, 1]).compute_cycles).2 ∧
            (((sampleCollaborators [1, 1]).BufferEvaluate level tile mask c.2
                (sampleCollaborators [1, 1]).compute_cycles).1 = true →
              k + 1
                < (Topology.new.Spec (sampleCollaborators [1, 1])
                    sampleSpecs).specs_.NumStorageLevels →
              r.calls[k + 1]? = some (k + 1,
                ((sampleCollaborators [1, 1]).BufferEvaluate level tile mask c.2
                    (sampleCollaborators [1, 1]).compute_cycles).2.AreaPerInstance
                  + c.2 *
                    (((sampleCollaborators [1, 1]).BufferEvaluate level tile mask c.2
                      (sampleCollaborators [1, 1]).compute_cycles).2.MaxFanout : Double))) ∧
            (((sampleCollaborators [1, 1]).BufferEvaluate level tile mask c.2
                (sampleCollaborators [1, 1]).compute_cycles).1 = false →
              r.calls.length = k + 1 ∧ r.success = false) :=
  ⟨rfl,
    (evaluate_inner_tile_areas (sampleCollaborators [1, 1]) 3
      (Topology.new.Spec (sampleCollaborators [1, 1]) sampleSpecs)).1 rfl rfl rfl (by decide),
    _, rfl, rfl,
    (evaluate_inner_tile_areas (sampleCollaborators [1, 1]) 3
      (Topology.new.Spec (sampleCollaborators [1, 1]) sampleSpecs)).2 _ rfl⟩

/-- The same topology when the evaluation of the innermost storage level fails (its
tile is 0): the outer storage level is not evaluated and `Evaluate()` returns
false without setting the evaluated flag. -/
theorem evaluate_stops_at_first_failure_example :
    ((Topology.new.Spec (sampleCollaborators [0, 1]) sampleSpecs).Evaluate
        (sampleCollaborators [0, 1]) 3).map
      (fun r => (r.success, r.topology.is_evaluated_, r.calls))
      = some (false, false, [(0, 1)]) :=
  rfl

/-- Rounding in the inner tile area: with a compute level of area 1 below storage
levels of area `10^16` and fanout 1, the outer storage level is called with
`10^16 + 1 * 1`, which is `10^16` in `double`. -/
theorem evaluate_rounds_inner_tile_area_example :
    ((Topology.new.Spec largeAreaCollaborators sampleSpecs).Evaluate
        largeAreaCollaborators 3).map (fun r => (r.success, r.calls))
      = some (true, [(0, 1), (1, 10000000000000000)]) := by
  decide

/-! ## Topology: the slots that `Validate` writes -/

end model

end Timeloop
